import Mathlib

/-!
# fsdiff: probability model, configuration, operation sequences and tree digests

A shallow embedding of the parts of `nicolagi/fsdiff` that the properties below are
about (`config.go`, `oper.go`, `periods.go`, `operseq.go`, `tree.go`), followed by the
theorems.

Conventions of the embedding:

* Go `int` is the 64-bit two's-complement integer of the platforms the tool runs on
  (Linux, amd64/arm64).  Values are `Int`; every arithmetic result is passed through
  `wrapInt`, division truncates towards zero, and division by zero panics.
* A panic or a `logFatal` is the `none` of an `Option` result.
* A Go map is an association list with distinct keys.  The order in which `range`
  visits a map is not specified by the language; it is a parameter (`mapIter`), and
  the theorems quantify over every such order.
* The random draws are parameters of the functions that consume them.
-/

set_option maxRecDepth 8000

namespace Fsdiff

/-! ## Machine integers -/

/-- Reduction of a mathematical integer to the 64-bit two's-complement range of Go's `int`. -/
def wrapInt (x : Int) : Int :=
  (x + 9223372036854775808) % 18446744073709551616 - 9223372036854775808

/-- Go's `x / y` on `int`: panics (`none`) when `y` is zero, truncates towards zero otherwise. -/
def goDiv (x y : Int) : Option Int :=
  if y = 0 then none else some (wrapInt (Int.tdiv x y))

/-- Go's `x % y` on `int`: panics (`none`) when `y` is zero, remainder of the truncated division otherwise. -/
def goMod (x y : Int) : Option Int :=
  if y = 0 then none else some (Int.tmod x y)

/-! ## oper.go: operation kinds -/

/-- The Go type `operKind` (`type operKind int`). -/
abbrev operKind := Int

def operCreate : operKind := 0
def operOpen : operKind := 1
def operSeek : operKind := 2
def operRead : operKind := 3
def operWrite : operKind := 4
def operClose : operKind := 5
def operUnlink1 : operKind := 6
def operUnlink2 : operKind := 7
def operTruncate : operKind := 8
def operFtruncate : operKind := 9
def operMkdir : operKind := 10
def operRmdir : operKind := 11
def operRename1 : operKind := 12
def operRename2 : operKind := 13
def operChdir : operKind := 14
def operMuscleFlush : operKind := 15
def operMusclePush : operKind := 16
def operMuscleRemount : operKind := 17
def operMusclePruneCache : operKind := 18
def operMuscleTrim : operKind := 19
def operSwapClients : operKind := 20
def operKindCount : operKind := 21

/-- The values visited by `for oper := operKind(0); oper < operKindCount; oper++`. -/
def allKinds : List operKind :=
  (List.range operKindCount.toNat).map Int.ofNat

/-- The function `fromString` of oper.go; `none` is the `panic(s)` of the default case. -/
def fromString (s : String) : Option operKind :=
  if s = "create" then some operCreate
  else if s = "open" then some operOpen
  else if s = "seek" then some operSeek
  else if s = "read" then some operRead
  else if s = "write" then some operWrite
  else if s = "close" then some operClose
  else if s = "unlink1" then some operUnlink1
  else if s = "unlink2" then some operUnlink2
  else if s = "truncate" then some operTruncate
  else if s = "ftruncate" then some operFtruncate
  else if s = "mkdir" then some operMkdir
  else if s = "rmdir" then some operRmdir
  else if s = "rename1" then some operRename1
  else if s = "rename2" then some operRename2
  else if s = "chdir" then some operChdir
  else if s = "musclefsflush" then some operMuscleFlush
  else if s = "musclefspush" then some operMusclePush
  else if s = "musclefsremount" then some operMuscleRemount
  else if s = "musclefsprunecache" then some operMusclePruneCache
  else if s = "musclefstrim" then some operMuscleTrim
  else if s = "swapclients" then some operSwapClients
  else none

/-- Decimal rendering of a Go `int`, as `%d` prints it. -/
def fmtInt (x : Int) : String :=
  if x < 0 then "-" ++ toString x.natAbs else toString x.natAbs

/-- The method `operKind.String` of oper.go. -/
def operKind.String (code : operKind) : String :=
  if code = operCreate then "create"
  else if code = operOpen then "open"
  else if code = operSeek then "seek"
  else if code = operRead then "read"
  else if code = operWrite then "write"
  else if code = operClose then "close"
  else if code = operUnlink1 then "unlink1"
  else if code = operUnlink2 then "unlink2"
  else if code = operTruncate then "truncate"
  else if code = operFtruncate then "ftruncate"
  else if code = operMkdir then "mkdir"
  else if code = operRmdir then "rmdir"
  else if code = operRename1 then "rename1"
  else if code = operRename2 then "rename2"
  else if code = operChdir then "chdir"
  else if code = operMuscleFlush then "musclefsflush"
  else if code = operMusclePush then "musclefspush"
  else if code = operMuscleRemount then "musclefsremount"
  else if code = operMusclePruneCache then "musclefsprunecache"
  else if code = operMuscleTrim then "musclefstrim"
  else if code = operSwapClients then "swapclients"
  else "unknown=" ++ fmtInt code

/-! ## config.go: the probability model -/

/-- The Go type `map[operKind]int`: an association list whose keys are distinct. -/
abbrev probMap := List (operKind × Int)

/-- Map read `m[k]`: the stored value, or the zero value when the key is absent. -/
def mapGet : probMap → operKind → Int
  | [], _ => 0
  | (k', v) :: rest, k => if k' = k then v else mapGet rest k

/-- Map write `m[k] = v`: replaces the value of an existing key, adds the key otherwise. -/
def mapSet : probMap → operKind → Int → probMap
  | [], k, v => [(k, v)]
  | (k', v') :: rest, k, v => if k' = k then (k, v) :: rest else (k', v') :: mapSet rest k v

/-- The keys of a map. -/
def mapKeys (m : probMap) : List operKind := m.map Prod.fst

/-- An order in which `range` may visit the entries of a map: Go leaves it unspecified,
so it is a parameter of every function that ranges over a map. -/
abbrev mapIter := probMap → probMap

/-- A visiting order is legitimate when it visits every entry of the map exactly once. -/
def isMapIter (iter : mapIter) : Prop := ∀ m : probMap, (iter m).Perm m

/-- One element of the Go type `probabilityRanges`. -/
structure probabilityRange where
  upperBound : Int
  oper : operKind
deriving DecidableEq, Repr

/-- The Go type `probabilityRanges`. -/
abbrev probabilityRanges := List probabilityRange

/-- The Go type `config`.  `ProbabilitiesRaw` is the decoded JSON member `probabilities`
(`none` is the nil map of an absent member), listed in the order `range` visits it. -/
structure config where
  ProbabilitiesRaw : Option (List (String × Int))
  probabilities : probMap
deriving DecidableEq, Repr

/-- The first loop of `rescaleProbabilities`: `sum += c.probabilities[oper]`. -/
def rescaleSum (m : probMap) : Int :=
  allKinds.foldl (fun sum oper => wrapInt (sum + mapGet m oper)) 0

/-- One iteration of the second loop of `rescaleProbabilities`, on the pair
(`c.probabilities`, `newSum`). -/
def rescaleStep (sum : Int) (st : probMap × Int) (oper : operKind) : Option (probMap × Int) :=
  match goDiv (wrapInt (mapGet st.1 oper * 100)) sum with
  | none => none
  | some q =>
    let m := mapSet st.1 oper q
    some (m, wrapInt (st.2 + mapGet m oper))

/-- The method `config.rescaleProbabilities`; `none` is the run-time panic of an
integer division by zero. -/
def config.rescaleProbabilities (c : config) : Option config :=
  let sum := rescaleSum c.probabilities
  match allKinds.foldlM (rescaleStep sum) (c.probabilities, 0) with
  | none => none
  | some (m, newSum) =>
    some { c with probabilities := mapSet m 0 (wrapInt (mapGet m 0 + wrapInt (100 - newSum))) }

/-- The method `config.probabilityRanges`, ranging over the map in the order `iter`. -/
def config.probabilityRanges (c : config) (iter : mapIter) : probabilityRanges :=
  ((iter c.probabilities).foldl
    (fun (st : Int × List probabilityRange) (e : operKind × Int) =>
      let curr := wrapInt (st.1 + e.2)
      (curr, st.2 ++ [{ upperBound := curr, oper := e.1 }]))
    (0, [])).2

/-- The loop of `operSeq.randomOperKind` over `seq.ranges` for the draw
`n := int(rand.Float64() * 100.0)`; `none` is the `logFatal` after the loop. -/
def randomOperKind : probabilityRanges → Int → Option operKind
  | [], _ => none
  | r :: rest, n => if n < r.upperBound then some r.oper else randomOperKind rest n

/-- The mathematical sum of the weights of the 21 kinds. -/
def weightSum (m : probMap) : Int := (allKinds.map (mapGet m)).sum

/-- A map that gives every kind the weight `w`, as the loops of `loadConfig` and
`randomizeProbabilities` build it. -/
def constWeights (w : Int) : probMap := allKinds.map (fun k => (k, w))


/-- Weights of which the first two are 2^61 and the others zero: multiplying them by 100
overflows the 64-bit `int`. -/
def overflowWeights : probMap :=
  allKinds.map (fun k => (k, if k ≤ 1 then 2305843009213693952 else 0))

/-- Weights that are `w` for the kind `K` and zero for the 20 other kinds. -/
def singleWeight (K : operKind) (w : Int) : probMap :=
  allKinds.map (fun k => (k, if k = K then w else 0))

/-- Recursive presentation of the loop of `config.probabilityRanges`: the entries that the
loop appends for the map entries `es` when it enters them with `prev`. -/
def rangesFrom : Int → List (operKind × Int) → List probabilityRange
  | _, [] => []
  | prev, e :: rest =>
    { upperBound := wrapInt (prev + e.2), oper := e.1 } :: rangesFrom (wrapInt (prev + e.2)) rest

/-- The lower end `ranges[i-1].upperBound` of the interval of entry `i`, "with a fictitious
value of 0 for ranges[-1].upperBound" (the comment on the type `probabilityRanges`). -/
def lowerBound (ranges : probabilityRanges) : Nat → Int
  | 0 => 0
  | j + 1 => (ranges.getD j { upperBound := 0, oper := 0 }).upperBound

/-- The table that `rescaleProbabilities` makes of the uniform weights 1: 4 for every kind,
and the leftover 16 added to the first. -/
def uniformTable : probMap := mapSet (constWeights 4) 0 20

/-! ## Go errors -/

/-- A Go `error` value: `msg` is what `Error()` returns, and `chain` lists the messages of
the errors that successive calls of `errors.Unwrap` yield, outermost first (empty when the
error wraps nothing).  A nil error is the `none` of `Option goError`. -/
structure goError where
  msg : String
  chain : List String
deriving DecidableEq, Repr

/-- The method `Error()`. -/
def goError.Error (e : goError) : String := e.msg

/-- The function `errors.Unwrap`. -/
def goError.Unwrap (e : goError) : Option goError :=
  match e.chain with
  | [] => none
  | m :: rest => some { msg := m, chain := rest }

/-- An error made by `fmt.Errorf` without the verb `%w`, or by `errors.New`: it wraps nothing. -/
def fmtErrorf (msg : String) : goError := { msg := msg, chain := [] }

/-- The innermost error of the chain that starts with the message `msg`. -/
def innermost (msg : String) : List String → goError
  | [] => { msg := msg, chain := [] }
  | m :: rest => innermost m rest

/-- The loop `e := errors.Unwrap(err); for e != nil { err = e; e = errors.Unwrap(err) }`
that `oper.run` applies to the reference error of unlink2: the innermost cause. -/
def goError.rootCause (e : goError) : goError := innermost e.msg e.chain

/-! ## config.go: loadConfig -/

/-- One iteration of `for operName, p := range c.ProbabilitiesRaw`; `none` is the panic of
`fromString`. -/
def loadStep (m : probMap) (e : String × Int) : Option probMap :=
  match fromString e.1 with
  | none => none
  | some k => some (mapSet m k e.2)

/-- The function `loadConfig`, applied to the outcome of `json.NewDecoder(r).Decode(&c)`:
either a decoding error or the decoded member `probabilities`.  The result is `none` for a
panic, and otherwise the returned pair: an error, or a configuration and a nil error. -/
def loadConfig (decoded : Except goError (Option (List (String × Int)))) :
    Option (Except goError config) :=
  match decoded with
  | .error err => some (.error (fmtErrorf ("loadConfig: decoding JSON: " ++ err.Error)))
  | .ok none =>
    let c : config :=
      { ProbabilitiesRaw := none
        probabilities := allKinds.foldl (fun m oper => mapSet m oper 1) [] }
    match c.rescaleProbabilities with
    | none => none
    | some c' => some (.ok c')
  | .ok (some entries) =>
    match entries.foldlM loadStep [] with
    | none => none
    | some probabilities =>
      if (probabilities.length : Int) ≠ operKindCount then
        some (.error (fmtErrorf ("loadConfig: incomplete probabilities: "
          ++ fmtInt probabilities.length ++ "/" ++ fmtInt operKindCount)))
      else
        match ({ ProbabilitiesRaw := some entries, probabilities := probabilities }
          : config).rescaleProbabilities with
        | none => none
        | some c' => some (.ok c')

/-! ## periods.go: hash periods -/

/-- The Go type `hashPeriods`. -/
structure hashPeriods where
  hashMetadata : Int
  hashContents : Int
deriving DecidableEq, Repr

/-- The library call `strings.Split(s, ",")` on the characters of `s`: the substrings
between the commas, a single empty substring for the empty string. -/
def splitComma : List Char → List (List Char)
  | [] => [[]]
  | c :: cs =>
    if c = ',' then [] :: splitComma cs
    else
      match splitComma cs with
      | [] => [[c]]
      | part :: parts => (c :: part) :: parts

/-- The value of a decimal digit. -/
def digitValue (c : Char) : Option Nat :=
  if '0' ≤ c ∧ c ≤ '9' then some (c.toNat - '0'.toNat) else none

/-- The digit loop of `strconv.Atoi`: `n = n*10 + digit`, `none` at a character that is not
a decimal digit. -/
def parseDigits : List Char → Nat → Option Nat
  | [], n => some n
  | c :: cs, n =>
    match digitValue c with
    | none => none
    | some d => parseDigits cs (n * 10 + d)

/-- The escaping of one character by `strconv.Quote`: a backslash before the double quote
and the backslash, the printable ASCII characters as they are, the usual short escapes,
and `\xNN` for the other control characters.  The characters beyond ASCII are taken to be
printable and are left as they are. -/
def quoteRune (c : Char) : List Char :=
  if c = '"' ∨ c = '\\' then ['\\', c]
  else if 0x20 ≤ c.toNat ∧ c.toNat < 0x7f then [c]
  else if c.toNat = 7 then ['\\', 'a']
  else if c.toNat = 8 then ['\\', 'b']
  else if c.toNat = 12 then ['\\', 'f']
  else if c.toNat = 10 then ['\\', 'n']
  else if c.toNat = 13 then ['\\', 'r']
  else if c.toNat = 9 then ['\\', 't']
  else if c.toNat = 11 then ['\\', 'v']
  else if c.toNat < 0x20 ∨ c.toNat = 0x7f then
    ['\\', 'x', Nat.digitChar (c.toNat / 16), Nat.digitChar (c.toNat % 16)]
  else [c]

/-- The rendering `%q` of a string: `strconv.Quote`. -/
def goQuote (s : String) : String := String.mk ('"' :: s.data.flatMap quoteRune ++ ['"'])

/-- The error `*strconv.NumError` of `strconv.Atoi`; it wraps `strconv.ErrSyntax` or
`strconv.ErrRange`.  The input is shown quoted by `strconv.Quote`. -/
def numError (input : List Char) (cause : String) : goError :=
  { msg := "strconv.Atoi: parsing " ++ goQuote (String.mk input) ++ ": " ++ cause,
    chain := [cause] }

/-- The library call `strconv.Atoi`: an optional sign, then one or more decimal digits,
denoting a value of the 64-bit `int`; a syntax or range error otherwise. -/
def Atoi (s : List Char) : Except goError Int :=
  let neg := s.head? = some '-'
  let body := if s.head? = some '-' ∨ s.head? = some '+' then s.tail else s
  if body = [] then .error (numError s "invalid syntax")
  else
    match parseDigits body 0 with
    | none => .error (numError s "invalid syntax")
    | some v =>
      let x : Int := if neg then -(v : Int) else (v : Int)
      if x < -9223372036854775808 ∨ 9223372036854775807 < x then
        .error (numError s "value out of range")
      else .ok x

/-- The method `hashPeriods.Set`: the value of the receiver after the call, and the error
returned.  The remainder `contents%metadata` is taken with `metadata > 0`, so it cannot
panic. -/
def hashPeriods.Set (p : hashPeriods) (s : String) : hashPeriods × Option goError :=
  let parts := splitComma s.toList
  if parts.length ≠ 2 then
    (p, some (fmtErrorf ("too many tokens (" ++ fmtInt parts.length
      ++ "), want 2 comma-separated ints")))
  else
    match Atoi (parts.getD 0 []) with
    | .error err => (p, some err)
    | .ok metadata =>
      match Atoi (parts.getD 1 []) with
      | .error err => (p, some err)
      | .ok contents =>
        if metadata ≤ 0 ∨ contents ≤ 0 then
          (p, some (fmtErrorf "both periods must be positive integers"))
        else if Int.tmod contents metadata ≠ 0 then
          (p, some (fmtErrorf "the contents period must be a multiple of the metadata period"))
        else
          ({ hashMetadata := metadata, hashContents := contents }, none)

/-- The invariant of `hashPeriods`: both periods are positive, and the contents period is a
multiple of the metadata period. -/
def hashPeriods.valid (p : hashPeriods) : Prop :=
  0 < p.hashMetadata ∧ 0 < p.hashContents ∧ p.hashMetadata ∣ p.hashContents

instance (p : hashPeriods) : Decidable p.valid := by
  unfold hashPeriods.valid
  infer_instance

/-- The value `hashPeriods{hashMetadata: 1, hashContents: 250}` that `main` starts with. -/
def defaultPeriods : hashPeriods := { hashMetadata := 1, hashContents := 250 }

/-! ## oper.go: operations and the comparison of their outputs -/

/-- The Go type `oper`.  The pointer `parent` is the identifier of the operation pointed
to (`none` for nil); byte slices are lists of bytes, a nil slice being the empty list; a
nil error is `none`. -/
structure oper where
  id : Int
  code : operKind
  parent : Option Int
  pathname : String
  newpathname : String
  flags : Int
  mode : Nat
  rbuf : Int
  wbuf : List UInt8
  offset : Int
  whence : Int
  sutn : Int
  refn : Int
  sutbuf : List UInt8
  refbuf : List UInt8
  sutfd : Int
  reffd : Int
  sutoff : Int
  refoff : Int
  suterr : Option goError
  referr : Option goError
deriving DecidableEq, Repr

/-- The method `oper.errorsMatch`. -/
def oper.errorsMatch (op : oper) : Bool :=
  if op.code = operRename2 ∨ op.code = operUnlink2 then
    let good := op.suterr.isNone && op.referr.isNone
    let good := good || (op.suterr.isSome && op.referr.isSome)
    good
  else if op.code = operSeek ∧ op.suterr.isNone ∧ op.referr.isSome
      ∧ op.referr.map goError.Error = some "invalid argument" then
    true
  else
    match op.suterr, op.referr with
    | some suterr, some referr => suterr.Error == referr.Error
    | _, _ => op.suterr.isNone && op.referr.isNone

/-- An error as the system calls of the packages `syscall` and `unix` return it: nil, or a
`syscall.Errno`, a value that wraps no other error. -/
def isErrno (err : Option goError) : Bool :=
  match err with
  | none => true
  | some e => e.chain.isEmpty

/-- What the method `oper.run` leaves in `suterr` and `referr`, by the kind of the
operation.  For the kinds that it runs with one system call on each side (create, open,
seek, read, write, close, unlink1, truncate, ftruncate, mkdir, rmdir, rename1, chdir) both
are nil or a `syscall.Errno`.  For unlink2 the reference error has been unwrapped to its
innermost cause, and for rename2 the two errors are those of the control command and of
`syscall.Rename`.  For the six kinds that act on the file system under test only, `referr`
is never assigned and stays nil.  For any other code `oper.run` panics and records
nothing. -/
def oper.recorded (op : oper) : Bool :=
  if op.code ∈ [operCreate, operOpen, operSeek, operRead, operWrite, operClose, operUnlink1,
      operTruncate, operFtruncate, operMkdir, operRmdir, operRename1, operChdir] then
    isErrno op.suterr && isErrno op.referr
  else if op.code = operUnlink2 then isErrno op.referr
  else if op.code = operRename2 then true
  else if op.code ∈ [operMuscleFlush, operMusclePush, operMuscleRemount, operMusclePruneCache,
      operMuscleTrim, operSwapClients] then
    op.referr.isNone
  else false

/-- The outcomes of the calls that the case `operMusclePush` of `oper.outputsMatch` makes
outside the operation record: the first walk of the staging directory, `seq.closeAll()`,
and the second walk. -/
structure stagingChecks where
  firstWalk : Option goError
  closeAll : Option goError
  secondWalk : Option goError
deriving DecidableEq, Repr

/-- The library call `bytes.Equal`. -/
def bytesEqual (a b : List UInt8) : Bool := a == b

/-- The method `oper.outputsMatch`.  The result is `none` for the panic of an unknown
operation code, and otherwise the error returned (`some none` for nil: the outputs
match).  The warning logged for diverging seek offsets returns nothing, and the message
of a read mismatch shows the two buffers in Lean's rendering instead of Go's `%q`. -/
def oper.outputsMatch (op : oper) (env : stagingChecks) : Option (Option goError) :=
  if ¬ op.errorsMatch then
    some (some (fmtErrorf "oper.outputsMatch: mismatching errors"))
  else if op.referr.isSome then
    some none
  else if op.code = operCreate ∨ op.code = operOpen then
    if op.sutfd < 0 ∨ op.reffd < 0 then
      some (some (fmtErrorf (operKind.String op.code ++ ": negative fd(s)")))
    else some none
  else if op.code = operSeek then
    some none
  else if op.code = operRead then
    if op.sutn ≠ op.refn then
      some (some (fmtErrorf "read: number of bytes mismatch"))
    else if ¬ bytesEqual op.sutbuf op.refbuf then
      some (some (fmtErrorf ("read: mismatch sut=" ++ toString (repr op.sutbuf)
        ++ " ref=" ++ toString (repr op.refbuf))))
    else some none
  else if op.code = operWrite then
    if op.sutn ≠ op.refn then
      some (some (fmtErrorf "write: number of bytes mismatch"))
    else some none
  else if op.code = operClose ∨ op.code = operUnlink1 ∨ op.code = operUnlink2
      ∨ op.code = operTruncate ∨ op.code = operFtruncate ∨ op.code = operMkdir
      ∨ op.code = operRmdir ∨ op.code = operRename1 ∨ op.code = operRename2
      ∨ op.code = operChdir ∨ op.code = operMuscleFlush then
    some none
  else if op.code = operMusclePush then
    match env.firstWalk with
    | none => some none
    | some _ =>
      match env.closeAll with
      | some err => some (some err)
      | none =>
        match env.secondWalk with
        | some err => some (some err)
        | none => some none
  else if op.code = operMuscleRemount ∨ op.code = operMusclePruneCache
      ∨ op.code = operMuscleTrim ∨ op.code = operSwapClients then
    some none
  else none

/-- An operation record with the given code and errors, and zero values elsewhere. -/
def operOf (code : operKind) (suterr referr : Option goError) : oper :=
  { id := 0, code := code, parent := none, pathname := "", newpathname := "", flags := 0,
    mode := 0, rbuf := 0, wbuf := [], offset := 0, whence := 0, sutn := 0, refn := 0,
    sutbuf := [], refbuf := [], sutfd := 0, reffd := 0, sutoff := 0, refoff := 0,
    suterr := suterr, referr := referr }

/-- The error `fmt.Errorf("%s: %w", context, cause)`: its message is the context followed
by the message of the cause, and it wraps the cause. -/
def wrapError (context : String) (cause : goError) : goError :=
  { msg := context ++ ": " ++ cause.msg, chain := cause.msg :: cause.chain }

/-! ## operseq.go: the virtual state and its bookkeeping -/

/-- Reduction of a mathematical integer to the range of Go's `int32`. -/
def wrapInt32 (x : Int) : Int := (x + 2147483648) % 4294967296 - 2147483648

/-- The Go type `map[string]struct{}`: a list of distinct strings. -/
abbrev stringSet := List String

/-- Set write `m[p] = struct{}{}`. -/
def setInsert (m : stringSet) (p : String) : stringSet := if p ∈ m then m else m ++ [p]

/-- The built-in `delete(m, p)`. -/
def setDelete (m : stringSet) (p : String) : stringSet := m.filter (fun x => x ≠ p)

/-- An order in which `range` may visit a set of strings. -/
abbrev setIter := stringSet → stringSet

/-- A visiting order is legitimate when it visits every element exactly once. -/
def isSetIter (iter : setIter) : Prop := ∀ m : stringSet, (iter m).Perm m

/-- The library call `strings.HasPrefix(s, p)`. -/
def hasPrefix (s p : String) : Bool := p.data.isPrefixOf s.data

/-- The slice `s[len(p):]`, which the code takes only after `strings.HasPrefix(s, p)`. -/
def sliceFrom (s p : String) : String := String.mk (s.data.drop p.data.length)

/-- The Go type `operSeq`, without its mutex.  `openOpers` lists the operations pointed
to. -/
structure operSeq where
  opersDone : Int
  maxOpers : Int
  ranges : probabilityRanges
  sutcwd : Int
  refcwd : Int
  cwdpath : String
  existingDirs : stringSet
  existingFiles : stringSet
  openOpers : List oper
deriving DecidableEq, Repr

/-- The loop `for d := range m { if strings.HasPrefix(d, p) { delete(m, d) } }` of the
unlink2 bookkeeping, visiting the set in the order `iter`. -/
def deleteWithPrefix (iter : setIter) (m : stringSet) (p : String) : stringSet :=
  (iter m).foldl (fun acc d => if hasPrefix d p then setDelete acc d else acc) m

/-- The two loops of the rename2 bookkeeping on one set: the elements with the prefix
`old` are collected in `tomove` in the order `iter`, then each is deleted and its
rewritten form `new + f[len(old):]` inserted. -/
def moveWithPrefix (iter : setIter) (m : stringSet) (old new : String) : stringSet :=
  let tomove := (iter m).filter (fun f => hasPrefix f old)
  tomove.foldl (fun acc f => setInsert (setDelete acc f) (new ++ sliceFrom f old)) m

/-- The statement `atomic.AddInt32(&seq.opersDone, 1)` that ends the bookkeeping. -/
def operSeq.countOper (seq : operSeq) : operSeq :=
  { seq with opersDone := wrapInt32 (seq.opersDone + 1) }

/-- The bookkeeping switch of `operSeq.run` (from the comment `Bookkeeping:` to the end of
the function), for an operation that has been executed; `iterDirs` and `iterFiles` are the
orders in which `range` visits the two sets.  The result is `none` for the `logFatal` of an
unknown operation code, and for the panic of `make([]*oper, 0, len(seq.openOpers)-1)` with
a negative capacity when a close succeeded and no operation is open. -/
def operSeq.bookkeeping (seq : operSeq) (op : oper) (iterDirs iterFiles : setIter) :
    Option operSeq :=
  if op.code = operCreate ∨ op.code = operOpen then
    if op.referr = none then
      some (operSeq.countOper { seq with
        existingFiles := setInsert seq.existingFiles op.pathname
        openOpers := seq.openOpers ++ [op] })
    else some seq.countOper
  else if op.code = operSeek ∨ op.code = operRead ∨ op.code = operWrite then
    some seq.countOper
  else if op.code = operClose then
    if op.referr = none then
      if seq.openOpers.length = 0 then none
      else
        some (operSeq.countOper { seq with
          openOpers := seq.openOpers.filter (fun o => some o.id ≠ op.parent) })
    else some seq.countOper
  else if op.code = operUnlink1 then
    if op.referr = none then
      some (operSeq.countOper { seq with
        existingFiles := setDelete seq.existingFiles op.pathname })
    else some seq.countOper
  else if op.code = operUnlink2 then
    if op.referr = none then
      some (operSeq.countOper { seq with
        existingDirs := deleteWithPrefix iterDirs seq.existingDirs op.pathname
        existingFiles := deleteWithPrefix iterFiles seq.existingFiles op.pathname })
    else some seq.countOper
  else if op.code = operTruncate ∨ op.code = operFtruncate then
    some seq.countOper
  else if op.code = operMkdir then
    if op.referr = none then
      some (operSeq.countOper { seq with
        existingDirs := setInsert seq.existingDirs op.pathname })
    else some seq.countOper
  else if op.code = operRmdir then
    if op.referr = none then
      some (operSeq.countOper { seq with
        existingDirs := setDelete seq.existingDirs op.pathname })
    else some seq.countOper
  else if op.code = operRename1 then
    if op.referr = none then
      some (operSeq.countOper { seq with
        cwdpath :=
          if hasPrefix seq.cwdpath op.pathname then
            op.newpathname ++ sliceFrom seq.cwdpath op.pathname
          else seq.cwdpath
        existingDirs :=
          if op.pathname ∈ seq.existingDirs then
            setInsert (setDelete seq.existingDirs op.pathname) op.newpathname
          else seq.existingDirs
        existingFiles :=
          if op.pathname ∈ seq.existingFiles then
            setInsert (setDelete seq.existingFiles op.pathname) op.newpathname
          else seq.existingFiles })
    else some seq.countOper
  else if op.code = operRename2 then
    if op.referr = none then
      some (operSeq.countOper { seq with
        cwdpath :=
          if hasPrefix seq.cwdpath op.pathname then
            op.newpathname ++ sliceFrom seq.cwdpath op.pathname
          else seq.cwdpath
        existingFiles := moveWithPrefix iterFiles seq.existingFiles op.pathname op.newpathname
        existingDirs := moveWithPrefix iterDirs seq.existingDirs op.pathname op.newpathname })
    else some seq.countOper
  else if op.code = operChdir then
    some (operSeq.countOper { seq with
      sutcwd := op.sutfd
      refcwd := op.reffd
      cwdpath := if op.referr = none then op.pathname else seq.cwdpath })
  else if op.code = operMuscleFlush ∨ op.code = operMusclePush ∨ op.code = operMuscleRemount
      ∨ op.code = operMusclePruneCache ∨ op.code = operMuscleTrim
      ∨ op.code = operSwapClients then
    some seq.countOper
  else none

/-- The loop of `operSeq.closeAll` over the open operations: `none` when every
`syscall.Close` succeeds, the error of the first one that fails otherwise. -/
def closeOpens (close : Int → Option goError) : List oper → Option goError
  | [] => none
  | f :: rest =>
    match (if f.sutfd ≠ -1 then close f.sutfd else none) with
    | some err => some (fmtErrorf ("operSeq.closeAll: " ++ err.Error))
    | none =>
      match (if f.reffd ≠ -1 then close f.reffd else none) with
      | some err => some (fmtErrorf ("operSeq.closeAll: " ++ err.Error))
      | none => closeOpens close rest

/-- The method `operSeq.closecwds`; `close` is the outcome of `syscall.Close` on a file
descriptor. -/
def operSeq.closecwds (seq : operSeq) (close : Int → Option goError) :
    operSeq × Option goError :=
  let seq1 : operSeq := if seq.sutcwd ≠ -1 then { seq with sutcwd := -1 } else seq
  match (if seq.sutcwd ≠ -1 then close seq.sutcwd else none) with
  | some err =>
    (seq1, some (fmtErrorf ("operSeq.closecwds: " ++ fmtInt seq.sutcwd ++ ": " ++ err.Error)))
  | none =>
    let seq2 : operSeq := if seq1.refcwd ≠ -1 then { seq1 with refcwd := -1 } else seq1
    match (if seq1.refcwd ≠ -1 then close seq1.refcwd else none) with
    | some err =>
      (seq2, some (fmtErrorf ("operSeq.closecwds: " ++ fmtInt seq1.refcwd ++ ": " ++ err.Error)))
    | none => (seq2, none)

/-- The method `operSeq.closeAll`. -/
def operSeq.closeAll (seq : operSeq) (close : Int → Option goError) :
    operSeq × Option goError :=
  match closeOpens close seq.openOpers with
  | some err => (seq, some err)
  | none =>
    let r := operSeq.closecwds { seq with openOpers := [] } close
    match r.2 with
    | some err => (r.1, some (fmtErrorf ("operSeq.closeAll: " ++ err.Error)))
    | none => (r.1, none)


/-- The method `operSeq.run` after the call `op.run(seq)`: `op` carries the recorded
outputs and `seq` is the state that the execution left.  `close` is the outcome of
`syscall.Close`, `firstWalk` and `secondWalk` those of the two walks of the staging
directory that the check of a push makes.  The result is `none` for a panic or a
`logFatal`, and otherwise the state and the error returned. -/
def operSeq.run (seq : operSeq) (op : oper) (close : Int → Option goError)
    (firstWalk secondWalk : Option goError) (iterDirs iterFiles : setIter) :
    Option (operSeq × Option goError) :=
  let closed := seq.closeAll close
  let closes : Bool :=
    op.errorsMatch && op.referr.isNone && decide (op.code = operMusclePush) && firstWalk.isSome
  let seq1 := if closes then closed.1 else seq
  match op.outputsMatch { firstWalk := firstWalk, closeAll := closed.2, secondWalk := secondWalk } with
  | none => none
  | some (some err) =>
    some (seq1, some (fmtErrorf
      ("operSeq.run " ++ goQuote (operKind.String op.code) ++ ": " ++ err.Error)))
  | some none =>
    match seq1.bookkeeping op iterDirs iterFiles with
    | none => none
    | some seq2 => some (seq2, none)

/-- The rewrite that the rename bookkeeping applies to a path: `new + p[len(old):]` when
`p` starts with `old`, and `p` itself otherwise. -/
def rewritePath (old new p : String) : String :=
  if hasPrefix p old then new ++ sliceFrom p old else p

/-- A virtual state that tracks the given directories and files, with the working
directory at the root and nothing open. -/
def trackedState (dirs files : stringSet) : operSeq :=
  { opersDone := 0, maxOpers := 100, ranges := [], sutcwd := 3, refcwd := 4, cwdpath := "",
    existingDirs := dirs, existingFiles := files, openOpers := [] }

/-! ## Library functions on paths -/

/-- The library call `strings.Split(s, sep)` for a separator of one character, on the
characters of `s`. -/
def splitSep (sep : Char) : List Char → List (List Char)
  | [] => [[]]
  | c :: cs =>
    if c = sep then [] :: splitSep sep cs
    else
      match splitSep sep cs with
      | [] => [[c]]
      | part :: parts => (c :: part) :: parts

/-- The library call `strings.Join(elems, "/")`. -/
def joinSlash (elems : List String) : String := "/".intercalate elems

/-- The element loop of `filepath.Clean`: empty and "." elements are dropped, a ".."
removes the element before it, unless there is none (it is then dropped in a rooted path
and kept otherwise) or that element is itself a "..".  `stack` holds the elements kept so
far, the last one first. -/
def cleanElems (rooted : Bool) : List (List Char) → List (List Char) → List (List Char)
  | [], stack => stack.reverse
  | e :: rest, stack =>
    if e = [] ∨ e = ['.'] then cleanElems rooted rest stack
    else if e = ['.', '.'] then
      match stack with
      | top :: below =>
        if top = ['.', '.'] then cleanElems rooted rest (e :: stack)
        else cleanElems rooted rest below
      | [] => if rooted then cleanElems rooted rest [] else cleanElems rooted rest [e]
    else cleanElems rooted rest (e :: stack)

/-- The library call `filepath.Clean` (Unix). -/
def filepathClean (p : String) : String :=
  if p = "" then "."
  else
    let rooted := p.data.head? = some '/'
    let body := joinSlash ((cleanElems rooted (splitSep '/' p.data) []).map String.mk)
    let out := (if rooted then "/" else "") ++ body
    if out = "" then "." else out

/-- The library call `filepath.Join(a, b)`: empty elements are ignored, the result is
cleaned, and it is empty when both elements are. -/
def filepathJoin (a b : String) : String :=
  if a = "" then (if b = "" then "" else filepathClean b)
  else filepathClean (a ++ "/" ++ b)

/-- The library call `filepath.Dir` (Unix): the path up to its last separator, cleaned. -/
def filepathDir (p : String) : String :=
  filepathClean (String.mk (p.data.reverse.dropWhile (fun c => c ≠ '/')).reverse)

/-! ## operseq.go: the cwd handles -/

/-- The method `operSeq.opencwds`.  `mnt` is the mount point of the file system under
test, `refDir` the reference directory, and `openDir` the outcome of `syscall.Open` on a
path: a file descriptor or an error. -/
def operSeq.opencwds (seq : operSeq) (mnt refDir : String)
    (openDir : String → Except goError Int) : operSeq × Option goError :=
  if seq.sutcwd ≠ -1 ∨ seq.refcwd ≠ -1 then
    (seq, some (fmtErrorf ("operSeq.opencwds: not both closed sutcwd=" ++ fmtInt seq.sutcwd
      ++ " refcwd=" ++ fmtInt seq.refcwd)))
  else
    match openDir (filepathJoin mnt seq.cwdpath) with
    | .error err =>
      (seq, some (wrapError
        ("operSeq.opencwds: opening " ++ goQuote (filepathJoin mnt seq.cwdpath)) err))
    | .ok sutcwd =>
      match openDir (filepathJoin refDir seq.cwdpath) with
      | .error err =>
        (seq, some (wrapError
          ("operSeq.opencwds: opening " ++ goQuote (filepathJoin refDir seq.cwdpath)) err))
      | .ok refcwd => ({ seq with sutcwd := sutcwd, refcwd := refcwd }, none)

/-! ## operseq.go: the generator of operations -/

/-- The package variable `natoAlphabet`. -/
def natoAlphabet : List String :=
  ["alfa", "bravo", "charlie", "delta", "echo", "foxtrot", "golf", "hotel", "india",
    "juliett", "kilo", "lima", "mike", "november", "oscar", "papa", "quebec", "romeo",
    "sierra", "tango", "uniform", "victor", "whiskey", "x-ray", "yankee", "zulu"]

/-- The state of the package `math/rand` and of the runtime's map iteration: `draws k` is
the raw value of the draw number `k`, `orders k` the order in which a `range` that follows
`k` draws visits a set, and `pos` the number of draws made so far. -/
structure randSource where
  draws : Nat → Nat
  orders : Nat → setIter
  pos : Nat

/-- The raw value of the next draw. -/
def randSource.raw (rnd : randSource) : Nat := rnd.draws rnd.pos

/-- The source after one draw. -/
def randSource.step (rnd : randSource) : randSource := { rnd with pos := rnd.pos + 1 }

/-- The order in which a `range` executed now visits the set `m`. -/
def randSource.order (rnd : randSource) (m : stringSet) : stringSet := rnd.orders rnd.pos m

/-- A source is legitimate when each of its visiting orders is. -/
def isRandSource (rnd : randSource) : Prop := ∀ k : Nat, isSetIter (rnd.orders k)

/-- The library call `rand.Intn(n)` for `n > 0`: a value in [0,n). -/
def randSource.Intn (rnd : randSource) (n : Nat) : Nat := rnd.raw % n

/-- The library call `rand.Int()`: a non-negative 63-bit value. -/
def randSource.Int (rnd : randSource) : Nat := rnd.raw % 9223372036854775808

/-- The flags of open(2) on Linux (amd64) that the code names, from the package
`syscall`. -/
def O_RDONLY : Nat := 0
def O_WRONLY : Nat := 1
def O_RDWR : Nat := 2
def O_CREAT : Nat := 0x40
def O_EXCL : Nat := 0x80
def O_NOCTTY : Nat := 0x100
def O_TRUNC : Nat := 0x200
def O_APPEND : Nat := 0x400
def O_NONBLOCK : Nat := 0x800
def O_ASYNC : Nat := 0x2000
def O_DIRECTORY : Nat := 0x10000
def O_NOFOLLOW : Nat := 0x20000
def O_NOATIME : Nat := 0x40000
def O_CLOEXEC : Nat := 0x80000
def O_LARGEFILE : Nat := 0
def O_TMPFILE : Nat := 0x410000

/-- The package variable `supportedOpenFlags`. -/
def supportedOpenFlags : Nat :=
  O_APPEND ||| O_ASYNC ||| O_CLOEXEC ||| O_CREAT ||| O_DIRECTORY ||| O_EXCL ||| O_LARGEFILE
    ||| O_NOATIME ||| O_NOCTTY ||| O_NOFOLLOW ||| O_NONBLOCK ||| O_RDONLY ||| O_RDWR
    ||| O_TRUNC ||| O_WRONLY

/-- The function `randomOpenFlags`. -/
def randomOpenFlags (rnd : randSource) : Nat × randSource :=
  if rnd.Intn 10 < 9 then (O_RDWR, rnd.step)
  else (rnd.step.Int &&& supportedOpenFlags, rnd.step.step)

/-- The word `natoAlphabet[i]`. -/
def natoWord (i : Nat) : String := natoAlphabet.getD i ""

/-- The method `operSeq.randomPathname`; its three parameters are of the Go type `int`. -/
def operSeq.randomPathname (seq : operSeq) (rnd : randSource)
    (existingDirProbability existingFileProbability nestingProbability : Int) :
    String × randSource :=
  let n : Int := rnd.Intn 100
  let rnd1 := rnd.step
  let m : stringSet :=
    if 0 ≤ n ∧ n < existingDirProbability ∧ seq.existingDirs.length > 0 then seq.existingDirs
    else if existingDirProbability ≤ n
        ∧ n < wrapInt (existingDirProbability + existingFileProbability)
        ∧ seq.existingFiles.length > 0 then seq.existingFiles
    else []
  let picked : Option String :=
    if m.length > 0 then (rnd1.step.order m)[rnd1.Int % m.length]? else none
  match picked with
  | some p => (p, rnd1.step)
  | none =>
    let rnd2 := if m.length > 0 then rnd1.step else rnd1
    if seq.existingDirs.length > 0 ∧ (rnd2.Intn 100 : Int) < nestingProbability then
      let rnd3 := rnd2.step
      let i := rnd3.Intn seq.existingDirs.length
      let visited := rnd3.step.order seq.existingDirs
      let dir := (visited[i]?).getD (visited.getLast?.getD "")
      (filepathJoin dir (natoWord (rnd3.step.Int % natoAlphabet.length)), rnd3.step.step)
    else
      let rnd3 := if seq.existingDirs.length > 0 then rnd2.step else rnd2
      (natoWord (rnd3.Int % natoAlphabet.length), rnd3.step)

/-- The loop `for i := 0; i < maxElements; i++ { elements[i] = natoAlphabet[rand.Intn(...)] }`. -/
def drawWords : Nat → randSource → List String × randSource
  | 0, rnd => ([], rnd)
  | k + 1, rnd =>
    let rest := drawWords k rnd.step
    (natoWord (rnd.Intn natoAlphabet.length) :: rest.1, rest.2)

/-- The retry loop at the label `again` of `randomDir` and `randomFile`: a candidate is
drawn, and drawn anew while it names a tracked path and attempts remain. -/
def operSeq.freshCandidate (seq : operSeq) (maxElements : Nat) :
    Nat → randSource → String × randSource
  | 0, rnd =>
    let drawn := drawWords maxElements rnd
    (joinSlash drawn.1, drawn.2)
  | attempts + 1, rnd =>
    let drawn := drawWords maxElements rnd
    if joinSlash drawn.1 ∈ seq.existingFiles ∨ joinSlash drawn.1 ∈ seq.existingDirs then
      operSeq.freshCandidate seq maxElements attempts drawn.2
    else (joinSlash drawn.1, drawn.2)

/-- The common body of `randomDir` and `randomFile`, for the set `m` of existing
directories or files. -/
def operSeq.randomExisting (seq : operSeq) (m : stringSet) (rnd : randSource)
    (maxElements existingProbability : Nat) : String × randSource :=
  if rnd.Intn 100 < existingProbability then
    if m.length = 0 then ("", rnd.step)
    else
      let i := rnd.step.Intn m.length
      let visited := rnd.step.step.order m
      (((visited.drop i).find?
          (fun f => decide ((splitSep '/' f.data).length ≤ maxElements))).getD "",
        rnd.step.step)
  else operSeq.freshCandidate seq maxElements 100 rnd.step

/-- The method `operSeq.randomDir`. -/
def operSeq.randomDir (seq : operSeq) (rnd : randSource)
    (maxElements existingProbability : Nat) : String × randSource :=
  seq.randomExisting seq.existingDirs rnd maxElements existingProbability

/-- The method `operSeq.randomFile`. -/
def operSeq.randomFile (seq : operSeq) (rnd : randSource)
    (maxElements existingProbability : Nat) : String × randSource :=
  seq.randomExisting seq.existingFiles rnd maxElements existingProbability

/-- The outcome of one pass through the body of `nextOper` after the label `again`. -/
inductive attempt where
  | again (rnd : randSource)
  | ready (op : oper) (rnd : randSource)
  | fatal

/-- The statement `op.parent = seq.openOpers[rand.Intn(len(seq.openOpers))]`: the
identifier of the operation picked. -/
def operSeq.pickParent (seq : operSeq) (rnd : randSource) : Option Int :=
  (seq.openOpers[rnd.Intn seq.openOpers.length]?).map (fun o => o.id)

/-- The library call `rand.Read` on a buffer of `sz` bytes. -/
def randomBytes (rnd : randSource) (sz : Nat) : List UInt8 × randSource :=
  ((List.range sz).map (fun i => UInt8.ofNat (rnd.draws (rnd.pos + i))),
    { rnd with pos := rnd.pos + sz })

/-- The case of rename2 in `nextOper`: the two paths drawn, or `none` for the jump back to
`again` when one of them is empty. -/
def renamePair (first second : String × randSource) : Option (String × String) :=
  if first.1 = "" ∨ second.1 = "" then none else some (first.1, second.1)

/-- The body of `nextOper` from the label `again` to its return, for the source `rnd`. -/
def operSeq.tryOper (seq : operSeq) (rnd : randSource) : attempt :=
  match randomOperKind seq.ranges (rnd.Intn 100) with
  | none => .fatal
  | some code =>
    let op : oper := { operOf code none none with id := seq.opersDone }
    let rnd := rnd.step
    if code = operCreate then
      let p := seq.randomPathname rnd 5 5 20
      .ready { op with mode := 0o777, pathname := p.1 } p.2
    else if code = operOpen then
      let f := randomOpenFlags rnd
      let mode : Nat :=
        if f.1 &&& O_CREAT ≠ 0 ∨ f.1 &&& O_TMPFILE = O_TMPFILE then 0o777 else 0
      let p := seq.randomPathname f.2 25 65 20
      .ready { op with flags := f.1, mode := mode, pathname := p.1 } p.2
    else if code = operSeek then
      if seq.openOpers.length = 0 then .again rnd
      else
        .ready { op with
          parent := seq.pickParent rnd
          offset := rnd.step.Intn 1024
          whence := rnd.step.step.Intn 3 } rnd.step.step.step
    else if code = operRead then
      if seq.openOpers.length = 0 then .again rnd
      else .ready { op with parent := seq.pickParent rnd, rbuf := rnd.step.Intn 512 } rnd.step.step
    else if code = operWrite then
      if seq.openOpers.length = 0 then .again rnd
      else
        let b := randomBytes rnd.step.step (rnd.step.Intn 512)
        .ready { op with parent := seq.pickParent rnd, wbuf := b.1 } b.2
    else if code = operClose then
      if seq.openOpers.length = 0 then .again rnd
      else .ready { op with parent := seq.pickParent rnd } rnd.step
    else if code = operUnlink1 then
      let p := seq.randomPathname rnd 25 65 20
      .ready { op with pathname := p.1 } p.2
    else if code = operUnlink2 then
      let p := seq.randomPathname rnd 50 40 20
      if hasPrefix seq.cwdpath p.1 then .again p.2
      else .ready { op with pathname := p.1 } p.2
    else if code = operTruncate then
      let p := seq.randomPathname rnd 10 70 50
      .ready { op with pathname := p.1, rbuf := p.2.Intn 512 } p.2.step
    else if code = operFtruncate then
      if seq.openOpers.length = 0 then .again rnd
      else .ready { op with parent := seq.pickParent rnd, rbuf := rnd.step.Intn 512 } rnd.step.step
    else if code = operMkdir then
      let p := seq.randomPathname rnd 10 10 20
      .ready { op with mode := 0o777, pathname := p.1 } p.2
    else if code = operRmdir then
      let p := seq.randomPathname rnd 65 15 20
      .ready { op with pathname := p.1 } p.2
    else if code = operRename1 then
      let p := if rnd.Intn 2 = 0 then seq.randomDir rnd.step 5 75 else seq.randomFile rnd.step 5 75
      if p.1 = "" then .again p.2
      else
        .ready { op with
          pathname := p.1
          newpathname := filepathJoin (filepathDir p.1) (natoWord (p.2.Intn natoAlphabet.length)) }
          p.2.step
    else if code = operRename2 then
      let mode := rnd.Intn 4
      let first :=
        if mode = 0 ∨ mode = 2 then seq.randomFile rnd.step 3 75 else seq.randomDir rnd.step 3 75
      let second :=
        if mode = 0 ∨ mode = 3 then seq.randomFile first.2 3 75 else seq.randomDir first.2 3 75
      match renamePair first second with
      | none => .again second.2
      | some pair => .ready { op with pathname := pair.1, newpathname := pair.2 } second.2
    else if code = operChdir then
      let dir := seq.randomDir rnd 3 100
      if seq.cwdpath = dir.1 then .again dir.2
      else .ready { op with pathname := dir.1 } dir.2
    else if code = operMuscleFlush ∨ code = operMusclePush ∨ code = operMuscleRemount
        ∨ code = operMusclePruneCache ∨ code = operMuscleTrim ∨ code = operSwapClients then
      .ready op rnd
    else .fatal

/-- The outcome of `nextOper`: `finished` is the nil returned when `maxOpers` operations
are done, `generated` carries the operation returned, the number of jumps back to `again`
that preceded it and the source left, `fatal` is a `logFatal` or a panic, and `exhausted`
says that the loop is still re-sampling after the number of passes allowed. -/
inductive nextResult where
  | finished
  | generated (op : oper) (resamples : Nat) (rnd : randSource)
  | fatal
  | exhausted

/-- The loop of `nextOper` made by the label `again` and the `goto` statements, run for at
most `fuel` passes; `resamples` counts the jumps made so far. -/
def operSeq.nextOperLoop (seq : operSeq) : Nat → randSource → Nat → nextResult
  | 0, _, _ => .exhausted
  | fuel + 1, rnd, resamples =>
    match seq.tryOper rnd with
    | .fatal => .fatal
    | .again rnd' => operSeq.nextOperLoop seq fuel rnd' (resamples + 1)
    | .ready op rnd' => .generated op resamples rnd'

/-- The method `operSeq.nextOper`, its loop run for at most `fuel` passes. -/
def operSeq.nextOper (seq : operSeq) (fuel : Nat) (rnd : randSource) : nextResult :=
  if seq.opersDone ≥ seq.maxOpers then .finished else seq.nextOperLoop fuel rnd 0

/-- A table in which seek has all the weight: the table that `probabilityRanges` builds,
in enumeration order, from the weight 100 for seek and 0 for the 20 other kinds. -/
def seekOnlyRanges : probabilityRanges := rangesFrom 0 (singleWeight operSeek 100)

/-- A virtual state with no open handles whose table is `seekOnlyRanges`. -/
def seekOnlyState : operSeq := { trackedState [] [] with ranges := seekOnlyRanges }

/-- A source that always draws `v` and visits every set in the order it is listed. -/
def constSource (v : Nat) : randSource := { draws := fun _ => v, orders := fun _ m => m, pos := 0 }

/-- A virtual state in which five operations are done and the create number 3 is still
open, with the table `seekOnlyRanges`. -/
def oneOpenState : operSeq :=
  { seekOnlyState with
    opersDone := 5
    existingFiles := ["alfa"]
    openOpers := [{ operOf operCreate none none with id := 3, pathname := "alfa" }] }

/-- A table in which create and seek have the weight 50 each: a draw below 50 gives
create, a draw from 50 on gives seek. -/
def seekOrCreateRanges : probabilityRanges :=
  rangesFrom 0 (allKinds.map (fun k => (k, if k = operCreate ∨ k = operSeek then 50 else 0)))

/-- A virtual state with no open handles whose table is `seekOrCreateRanges`. -/
def seekOrCreateState : operSeq := { trackedState [] [] with ranges := seekOrCreateRanges }

/-- A source whose first `n` draws are 50 and whose later draws are 0. -/
def seekThenCreateSource (n : Nat) : randSource :=
  { draws := fun i => if i < n then 50 else 0, orders := fun _ m => m, pos := 0 }

/-- The create of the new path "alfa" that `nextOper` generates in `seekOrCreateState` when
its draws are 0. -/
def createAlfa : oper :=
  { operOf operCreate none none with id := 0, mode := 0o777, pathname := "alfa" }

/-- A table in which chdir has all the weight. -/
def chdirOnlyRanges : probabilityRanges := rangesFrom 0 (singleWeight operChdir 100)

/-- The virtual state after mkdir alfa, chdir alfa and the nested mkdirs alfa/bravo,
alfa/bravo/charlie and alfa/bravo/charlie/delta, with the table `chdirOnlyRanges`. -/
def deepDirsState : operSeq :=
  { trackedState ["alfa", "alfa/bravo", "alfa/bravo/charlie", "alfa/bravo/charlie/delta"] [] with
    opersDone := 5
    ranges := chdirOnlyRanges
    cwdpath := "alfa" }

/-- The chdir to the empty pathname that `nextOper` generates in `deepDirsState` when its
draws are 3. -/
def chdirRoot : oper := { operOf operChdir none none with id := 5, pathname := "" }

/-- The chdir to alfa/bravo that `nextOper` generates in `deepDirsState` when its draws
are 1. -/
def chdirBravo : oper := { operOf operChdir none none with id := 5, pathname := "alfa/bravo" }

/-! ## tree.go: the digest of a directory tree -/

/-- A node of the file system: a regular file with the mode and size that `os.Stat`
reports and the bytes that `ioutil.ReadFile` reads, or a directory with its mode and its
entries. -/
inductive fsNode where
  | file (mode : Nat) (size : Int) (content : List UInt8)
  | dir (mode : Nat) (children : List (String × fsNode))
deriving Repr

mutual
/-- The number of directory levels below a node. -/
def fsNode.height : fsNode → Nat
  | .file _ _ _ => 0
  | .dir _ children => heightOfChildren children + 1
/-- The greatest height of the nodes of a list of entries. -/
def heightOfChildren : List (String × fsNode) → Nat
  | [] => 0
  | child :: rest => max child.2.height (heightOfChildren rest)
end

/-- The failures of the system calls behind `os.Stat`, `os.ReadDir` and `ioutil.ReadFile`,
by the path (relative to the root) on which they are made; `none` is success. -/
structure fsFaults where
  stat : String → Option goError
  readDir : String → Option goError
  readFile : String → Option goError

/-- The order in which `os.ReadDir` returns the names of the entries of the directory at a
path. -/
abbrev dirListing := String → List String → List String

/-- A listing is legitimate when it returns every name exactly once. -/
def isDirListing (listing : dirListing) : Prop :=
  ∀ (rel : String) (names : List String), (listing rel names).Perm names

/-- The order `children[i].Name() < children[j].Name()` of Go strings, byte by byte. -/
def nameLE (a b : String) : Prop := a.data ≤ b.data

instance : DecidableRel nameLE := fun a b => by
  unfold nameLE
  infer_instance

instance : IsTotal String nameLE := ⟨fun a b => le_total a.data b.data⟩

instance : IsTrans String nameLE := ⟨fun _ _ _ hab hbc => le_trans (α := List Char) hab hbc⟩

instance : IsAntisymm String nameLE :=
  ⟨fun _ _ hab hba => String.ext (le_antisymm (α := List Char) hab hba)⟩

/-- The library call `sort.Slice(children, less)` on the names of the entries. -/
def sortNames (names : List String) : List String := List.insertionSort nameLE names

/-- The rendering `%o` of a mode. -/
def fmtOctal (n : Nat) : String := String.mk (Nat.toDigits 8 n)

/-- The rendering `%x` of a byte slice: two lower-case hexadecimal digits per byte. -/
def fmtHex (bytes : List UInt8) : String :=
  String.mk (bytes.flatMap (fun b => [Nat.digitChar (b.toNat / 16), Nat.digitChar (b.toNat % 16)]))

/-- The loop `for _, child := range children` of `hashAny`: `visit name buf` is the
recursive call for the entry `name` on the buffer `buf`; the loop stops at the first call
that returns an error or is cut off. -/
def hashLoop (visit : String → String → Option (Except goError String)) :
    List String → Option (Except goError String) → Option (Except goError String)
  | [], acc => acc
  | name :: rest, acc =>
    match acc with
    | some (.ok buf) => hashLoop visit rest (visit name buf)
    | other => other

/-- The function `hashAny`, on the node found at the path `rel` below the root, run to at
most `fuel` levels of recursion.  `sha256` is the library function `sha256.Sum256`.  The
recursive call for an entry looks its name up in the directory, as `os.Stat` does with the
path.  The result is `none` when the recursion is cut off, and otherwise the buffer after
the call or the error returned. -/
def hashAny (sha256 : List UInt8 → List UInt8) (faults : fsFaults) (listing : dirListing)
    (includeMeta includeContent : Bool) :
    Nat → fsNode → String → String → Option (Except goError String)
  | 0 => fun _ _ _ => none
  | fuel + 1 => fun node rel buf =>
    match faults.stat rel with
    | some err => some (.error (fmtErrorf ("hashAny: " ++ err.Error)))
    | none =>
      match node with
      | .dir mode children =>
        let buf1 :=
          if includeMeta then
            buf ++ ("path=" ++ goQuote rel ++ " mode=0" ++ fmtOctal mode ++ "\n")
          else buf
        match faults.readDir rel with
        | some err => some (.error (wrapError "hashAny" err))
        | none =>
          hashLoop
            (fun name b =>
              match children.find? (fun child => child.1 = name) with
              | some child =>
                hashAny sha256 faults listing includeMeta includeContent fuel child.2
                  (filepathJoin rel name) b
              | none =>
                some (.error (fmtErrorf ("hashAny: stat " ++ filepathJoin rel name
                  ++ ": no such file or directory"))))
            (sortNames (listing rel (children.map Prod.fst)))
            (some (.ok buf1))
      | .file mode size content =>
        let buf1 :=
          if includeMeta then
            buf ++ ("path=" ++ goQuote rel ++ " size=" ++ fmtInt size ++ " mode=0"
              ++ fmtOctal mode ++ "\n")
          else buf
        if includeContent then
          match faults.readFile rel with
          | some err => some (.error (wrapError "hashAny" err))
          | none =>
            some (.ok (buf1 ++ ("path=" ++ goQuote rel ++ " hash=" ++ fmtHex (sha256 content)
              ++ "\n")))
        else some (.ok buf1)

/-- The function `hashTree` on the tree rooted at `root`: the bytes of the buffer, or the
error. -/
def hashTree (sha256 : List UInt8 → List UInt8) (faults : fsFaults) (listing : dirListing)
    (root : fsNode) (includeMeta includeContent : Bool) : Option (Except goError String) :=
  hashAny sha256 faults listing includeMeta includeContent (root.height + 1) root "" ""

/-- Two trees have the same paths, node types, modes and file sizes: they differ at most in
the bytes of their regular files. -/
inductive sameMeta : fsNode → fsNode → Prop
  | file (mode : Nat) (size : Int) (c1 c2 : List UInt8) :
      sameMeta (.file mode size c1) (.file mode size c2)
  | dir (mode : Nat) (cs1 cs2 : List (String × fsNode)) :
      cs1.map Prod.fst = cs2.map Prod.fst →
      (∀ (i : Nat) (a b : String × fsNode), cs1[i]? = some a → cs2[i]? = some b →
        sameMeta a.2 b.2) →
      sameMeta (.dir mode cs1) (.dir mode cs2)

/-- A file system without failures. -/
def noFaults : fsFaults :=
  { stat := fun _ => none, readDir := fun _ => none, readFile := fun _ => none }

/-- A stand-in for `sha256.Sum256` in examples: the first byte of the content. -/
def toyDigest (content : List UInt8) : List UInt8 := content.take 1

/-- A tree with a file and a directory that holds two files. -/
def sampleTree : fsNode :=
  .dir 0o20000000755
    [("bravo", .dir 0o20000000700 [("zulu", .file 0o644 1 [7]), ("kilo", .file 0o600 2 [1, 2])]),
      ("alfa", .file 0o644 3 [104, 105, 33])]

/-- The tree `sampleTree` with other bytes in its files. -/
def sampleTreeOtherBytes : fsNode :=
  .dir 0o20000000755
    [("bravo", .dir 0o20000000700 [("zulu", .file 0o644 1 [9]), ("kilo", .file 0o600 2 [5, 6])]),
      ("alfa", .file 0o644 3 [1, 2, 3])]

mutual
/-- Every directory of the tree has entries with distinct names, as the directories of a
file system have. -/
def fsNode.distinctNames : fsNode → Bool
  | .file _ _ _ => true
  | .dir _ children =>
    decide ((children.map Prod.fst).Nodup) && distinctChildren children
/-- Every node of a list of entries has directories with distinct names. -/
def distinctChildren : List (String × fsNode) → Bool
  | [] => true
  | child :: rest => child.2.distinctNames && distinctChildren rest
end

/-! ### The walk as the specification words it

"Walk order: lexicographic on basename at every level.  For each visited node, emit one
line: directory with metadata `path="R" mode=0MMM`; regular file with metadata
`path="R" size=N mode=0MMM`; regular file with content: additional line
`path="R" hash=HHHH`."  The definitions below follow these words, not the code: the nodes
are first listed in pre-order, then each gives its lines. -/

/-- The specification's lines for one visited node with the root-relative path `rel`. -/
def specNodeLines (sha256 : List UInt8 → List UInt8) (includeMeta includeContent : Bool)
    (rel : String) : fsNode → String
  | .dir mode _ =>
    if includeMeta then "path=" ++ goQuote rel ++ " mode=0" ++ fmtOctal mode ++ "\n" else ""
  | .file mode size content =>
    (if includeMeta then
        "path=" ++ goQuote rel ++ " size=" ++ fmtInt size ++ " mode=0" ++ fmtOctal mode ++ "\n"
      else "")
    ++ (if includeContent then
        "path=" ++ goQuote rel ++ " hash=" ++ fmtHex (sha256 content) ++ "\n"
      else "")

/-- The entries of a directory in ascending byte-wise order of their basenames. -/
def specSortChildren (children : List (String × fsNode)) : List (String × fsNode) :=
  List.insertionSort (fun a b => nameLE a.1 b.1) children

/-- The specification's walk, to the depth `depth`: the nodes of the tree in pre-order, each
with its root-relative path, the entries of every directory taken in ascending order of
their basenames. -/
def specWalk : Nat → fsNode → String → List (String × fsNode)
  | 0, _, _ => []
  | depth + 1, node, rel =>
    (rel, node) ::
      match node with
      | .file _ _ _ => []
      | .dir _ children =>
        (specSortChildren children).flatMap
          (fun child => specWalk depth child.2 (filepathJoin rel child.1))

/-- The concatenation of the lines of the nodes of a walk. -/
def specLines (sha256 : List UInt8 → List UInt8) (includeMeta includeContent : Bool)
    (walk : List (String × fsNode)) : String :=
  walk.foldr (fun visit out => specNodeLines sha256 includeMeta includeContent visit.1 visit.2
    ++ out) ""

/-- The specification's digest of the tree rooted at `root`: the lines of its nodes in the
order of the walk, the root having the empty relative path. -/
def specDigest (sha256 : List UInt8 → List UInt8) (root : fsNode)
    (includeMeta includeContent : Bool) : String :=
  specLines sha256 includeMeta includeContent (specWalk (root.height + 1) root "")

/-! ## oper.go: the replay of the worklog by swap-clients -/

/-- The function `dropCR` of the package `bufio`: a final carriage return is dropped. -/
def dropCR (line : List Char) : List Char :=
  if line.getLast? = some '\r' then line.dropLast else line

/-- The tokens that `bufio.Scanner` yields with its default split function `ScanLines` on
the bytes of the worklog: the lines of the text without their end-of-line marker, the empty
ones included, and the text after the last newline when it is not empty.  The worklog is a
response of `runCommand`, of at most 16384 bytes, so no line reaches the token limit of the
scanner. -/
def scanLines (worklog : String) : List String :=
  let parts := splitSep '\n' worklog.data
  let lines := if parts.getLast? = some [] then parts.dropLast else parts
  lines.map (fun line => String.mk (dropCR line))

/-- The loop `for s.Scan()` of the case `operSwapClients` of `oper.run`, on the lines that
the scanner yields.  `runCommand sent cmd` is the error that `sut.runCommand(cmd)` returns
after the commands `sent`; the loop carries the commands sent so far.  The result is `none`
for a run-time panic, and otherwise the commands sent and the error returned. -/
def replayLoop (runCommand : List String → String → Option goError) :
    List String → List String → Option (List String × Option goError)
  | [], sent => some (sent, none)
  | command :: rest, sent =>
    match command.data[0]? with
    | none => none
    | some first =>
      if first = '#' then replayLoop runCommand rest sent
      else if hasPrefix command "graft2 " = true ∨ hasPrefix command "unlink " = true
          ∨ command = "flush" ∨ command = "pull" then
        match runCommand sent (command ++ "\n") with
        | some err =>
          some (sent ++ [command ++ "\n"],
            some (fmtErrorf ("run.oper: error running command " ++ goQuote command
              ++ " from pull worklog: " ++ err.Error)))
        | none => replayLoop runCommand rest (sent ++ [command ++ "\n"])
      else
        some (sent,
          some (fmtErrorf ("run.oper: unexpected command from pull worklog: "
            ++ goQuote command)))

/-- The function literal of the case `operSwapClients` of `oper.run`, whose result is
stored in `oper.suterr`.  `closeAll`, `push` and `snapshot` are the outcomes of
`s.closeAll()`, of `sut.runCommand("push\n")` and of `sut.waitForSnapshot()`, `pull` is the
outcome of `sut.runCommand("pull\n")` on the other client, and `runCommand` gives the
outcomes of the commands replayed on it.  The result is `none` for a run-time panic. -/
def swapClients (closeAll push snapshot : Option goError) (pull : Except goError String)
    (runCommand : List String → String → Option goError) : Option (Option goError) :=
  match closeAll with
  | some err => some (some (fmtErrorf ("oper.run: " ++ err.Error)))
  | none =>
    match push with
    | some err => some (some (fmtErrorf ("oper.run: " ++ err.Error)))
    | none =>
      match snapshot with
      | some err => some (some (fmtErrorf ("oper.run: " ++ err.Error)))
      | none =>
        match pull with
        | .error err => some (some (fmtErrorf ("oper.run: " ++ err.Error)))
        | .ok worklog => (replayLoop runCommand (scanLines worklog) []).map (fun r => r.2)

/-! # Theorems -/

/-! ## Machine integers and maps: basic facts -/

theorem wrapInt_of_range {x : Int} (h1 : -9223372036854775808 ≤ x)
    (h2 : x ≤ 9223372036854775807) : wrapInt x = x := by
  unfold wrapInt
  omega

theorem allKinds_eq :
    allKinds = [0, 1, 2, 3, 4, 5, 6, 7, 8, 9, 10, 11, 12, 13, 14, 15, 16, 17, 18, 19, 20] := by
  decide

theorem mem_allKinds (k : operKind) : k ∈ allKinds ↔ 0 ≤ k ∧ k < operKindCount := by
  rw [allKinds_eq]
  simp only [List.mem_cons, List.mem_singleton, operKindCount, List.not_mem_nil, or_false]
  unfold operKind
  constructor
  · intro h
    omega
  · intro h
    omega

theorem allKinds_nodup : allKinds.Nodup := by
  rw [allKinds_eq]
  decide

theorem mapGet_mapSet (m : probMap) (k : operKind) (v : Int) (k' : operKind) :
    mapGet (mapSet m k v) k' = if k = k' then v else mapGet m k' := by
  induction m with
  | nil => simp [mapSet, mapGet]
  | cons e rest ih =>
    obtain ⟨a, b⟩ := e
    by_cases hak : a = k
    · subst hak
      by_cases h : a = k' <;> simp [mapSet, mapGet, h]
    · by_cases hk : k = k'
      · subst hk
        simp [mapSet, mapGet, hak, ih]
      · have hk' : ¬ k' = k := fun h => hk h.symm
        by_cases h : a = k'
        · subst h
          simp [mapSet, mapGet, hk', hk]
        · simp [mapSet, mapGet, hak, h, ih, hk]

theorem mem_mapKeys_mapSet (m : probMap) (k : operKind) (v : Int) (k' : operKind) :
    k' ∈ mapKeys (mapSet m k v) ↔ k' = k ∨ k' ∈ mapKeys m := by
  induction m with
  | nil => simp [mapSet, mapKeys]
  | cons e rest ih =>
    obtain ⟨a, b⟩ := e
    simp only [mapKeys] at ih
    by_cases hak : a = k
    · subst hak
      simp [mapSet, mapKeys]
    · simp only [mapSet, hak, mapKeys, if_false, List.map_cons, List.mem_cons, ih]
      tauto

theorem nodup_mapKeys_mapSet (m : probMap) (k : operKind) (v : Int)
    (h : (mapKeys m).Nodup) : (mapKeys (mapSet m k v)).Nodup := by
  induction m with
  | nil => simp [mapSet, mapKeys]
  | cons e rest ih =>
    obtain ⟨a, b⟩ := e
    simp only [mapKeys, List.map_cons, List.nodup_cons] at h
    by_cases hak : a = k
    · subst hak
      simpa [mapSet, mapKeys] using h
    · have hmem := mem_mapKeys_mapSet rest k v a
      simp only [mapSet, hak, if_false, mapKeys, List.map_cons, List.nodup_cons]
      refine ⟨?_, ih h.2⟩
      intro hin
      rcases hmem.1 hin with h1 | h1
      · exact hak h1
      · exact h.1 h1

/-- In a map with distinct keys every entry is what a read of its key returns. -/
theorem mapGet_of_mem (m : probMap) (h : (mapKeys m).Nodup) (e : operKind × Int)
    (he : e ∈ m) : mapGet m e.1 = e.2 := by
  induction m with
  | nil => simp at he
  | cons x rest ih =>
    obtain ⟨a, b⟩ := x
    simp only [mapKeys, List.map_cons, List.nodup_cons] at h
    rcases List.mem_cons.1 he with h1 | h1
    · subst h1
      simp [mapGet]
    · have hne : a ≠ e.1 := by
        intro hae
        apply h.1
        rw [hae]
        exact List.mem_map_of_mem Prod.fst h1
      simp only [mapGet, hne, if_false]
      exact ih h.2 h1

/-! ## rescaleProbabilities -/

theorem sum_map_nonneg (f : operKind → Int) (ks : List operKind) (h : ∀ k ∈ ks, 0 ≤ f k) :
    0 ≤ (ks.map f).sum := by
  apply List.sum_nonneg
  intro x hx
  obtain ⟨k, hk, rfl⟩ := List.mem_map.1 hx
  exact h k hk

theorem le_sum_map (f : operKind → Int) (ks : List operKind) (h : ∀ k ∈ ks, 0 ≤ f k)
    (k : operKind) (hk : k ∈ ks) : f k ≤ (ks.map f).sum := by
  induction ks with
  | nil => simp at hk
  | cons a t ih =>
    have ht : 0 ≤ (t.map f).sum := sum_map_nonneg f t (fun x hx => h x (List.mem_cons_of_mem _ hx))
    have ha : 0 ≤ f a := h a (List.mem_cons_self _ _)
    simp only [List.map_cons, List.sum_cons]
    rcases List.mem_cons.1 hk with h1 | h1
    · subst h1
      omega
    · have := ih (fun x hx => h x (List.mem_cons_of_mem _ hx)) h1
      omega

theorem sum_map_le_length_mul (f : operKind → Int) (B : Int) (ks : List operKind)
    (h : ∀ k ∈ ks, f k ≤ B) : (ks.map f).sum ≤ ks.length * B := by
  induction ks with
  | nil => simp
  | cons a t ih =>
    have := ih (fun x hx => h x (List.mem_cons_of_mem _ hx))
    have ha := h a (List.mem_cons_self _ _)
    simp only [List.map_cons, List.sum_cons, List.length_cons]
    push_cast
    linarith

theorem sum_map_div_mul_le (f : operKind → Int) (S : Int) (hS : 0 < S) (ks : List operKind) :
    (ks.map (fun k => f k / S)).sum * S ≤ (ks.map f).sum := by
  induction ks with
  | nil => simp
  | cons a t ih =>
    have ha : f a / S * S ≤ f a := Int.ediv_mul_le (f a) (ne_of_gt hS)
    simp only [List.map_cons, List.sum_cons]
    linarith [add_mul (f a / S) ((t.map (fun k => f k / S)).sum) S]

theorem sum_map_mul_hundred (f : operKind → Int) (ks : List operKind) :
    (ks.map (fun k => f k * 100)).sum = (ks.map f).sum * 100 := by
  induction ks with
  | nil => simp
  | cons a t ih =>
    simp only [List.map_cons, List.sum_cons, ih]
    ring

theorem rescaleSum_loop (m : probMap) (ks : List operKind) :
    ∀ acc : Int, 0 ≤ acc → (∀ k ∈ ks, 0 ≤ mapGet m k) →
      acc + (ks.map (mapGet m)).sum ≤ 9223372036854775807 →
      ks.foldl (fun sum oper => wrapInt (sum + mapGet m oper)) acc
        = acc + (ks.map (mapGet m)).sum := by
  induction ks with
  | nil => intro acc _ _ _; simp
  | cons a t ih =>
    intro acc hacc hnn hb
    have ht : 0 ≤ (t.map (mapGet m)).sum :=
      sum_map_nonneg _ t (fun x hx => hnn x (List.mem_cons_of_mem _ hx))
    have ha : 0 ≤ mapGet m a := hnn a (List.mem_cons_self _ _)
    simp only [List.map_cons, List.sum_cons] at hb
    have hw : wrapInt (acc + mapGet m a) = acc + mapGet m a :=
      wrapInt_of_range (by omega) (by omega)
    simp only [List.foldl_cons, List.map_cons, List.sum_cons, hw]
    rw [ih (acc + mapGet m a) (by omega) (fun x hx => hnn x (List.mem_cons_of_mem _ hx))
      (by omega)]
    ring

theorem scaled_bounds (a S : Int) (hS : 0 < S) (h0 : 0 ≤ a) (hle : a ≤ S) :
    0 ≤ a * 100 / S ∧ a * 100 / S ≤ 100 := by
  constructor
  · exact Int.ediv_nonneg (by omega) (le_of_lt hS)
  · apply Int.ediv_le_of_le_mul hS
    nlinarith

theorem rescaleStep_eq (S : Int) (hS : 0 < S) (m : probMap) (ns : Int) (k : operKind)
    (h0 : 0 ≤ mapGet m k) (hb : mapGet m k * 100 ≤ 9223372036854775807)
    (hle : mapGet m k ≤ S) (hns0 : 0 ≤ ns) (hns : ns + 100 ≤ 9223372036854775807) :
    rescaleStep S (m, ns) k
      = some (mapSet m k (mapGet m k * 100 / S), ns + mapGet m k * 100 / S) := by
  obtain ⟨hq0, hq1⟩ := scaled_bounds (mapGet m k) S hS h0 hle
  have hw1 : wrapInt (mapGet m k * 100) = mapGet m k * 100 :=
    wrapInt_of_range (by omega) hb
  have hdiv : Int.tdiv (mapGet m k * 100) S = mapGet m k * 100 / S :=
    Int.tdiv_eq_ediv (by omega) (le_of_lt hS)
  have hw2 : wrapInt (mapGet m k * 100 / S) = mapGet m k * 100 / S :=
    wrapInt_of_range (by omega) (by omega)
  have hw3 : wrapInt (ns + mapGet m k * 100 / S) = ns + mapGet m k * 100 / S :=
    wrapInt_of_range (by omega) (by omega)
  simp [rescaleStep, goDiv, ne_of_gt hS, hw1, hdiv, hw2, mapGet_mapSet, hw3]


/-- The second loop of `rescaleProbabilities` over any list of distinct kinds: with a
positive `sum` and weights small enough not to overflow, it never panics, replaces the
weight of each visited kind by `w * 100 / sum`, and accumulates their total. -/
theorem rescaleLoop_spec (S : Int) (hS : 0 < S) (ks : List operKind) (hnd : ks.Nodup) :
    ∀ (m : probMap) (ns : Int),
      (∀ k ∈ ks, 0 ≤ mapGet m k ∧ mapGet m k * 100 ≤ 9223372036854775807 ∧ mapGet m k ≤ S) →
      0 ≤ ns → ns + 100 * ks.length ≤ 9223372036854775807 →
      ∃ m' : probMap,
        ks.foldlM (rescaleStep S) (m, ns)
          = some (m', ns + (ks.map (fun k => mapGet m k * 100 / S)).sum) ∧
        (∀ k, mapGet m' k = if k ∈ ks then mapGet m k * 100 / S else mapGet m k) ∧
        (∀ k, k ∈ mapKeys m' ↔ k ∈ ks ∨ k ∈ mapKeys m) ∧
        ((mapKeys m).Nodup → (mapKeys m').Nodup) := by
  induction ks with
  | nil =>
    intro m ns _ _ _
    exact ⟨m, by simp, by simp, by simp, fun h => h⟩
  | cons a t ih =>
    intro m ns hm hns0 hns
    obtain ⟨hnot, hndt⟩ := List.nodup_cons.1 hnd
    obtain ⟨ha0, hab, haS⟩ := hm a (List.mem_cons_self _ _)
    obtain ⟨hq0, hq1⟩ := scaled_bounds (mapGet m a) S hS ha0 haS
    simp only [List.length_cons] at hns
    push_cast at hns
    have hstep := rescaleStep_eq S hS m ns a ha0 hab haS hns0 (by omega)
    have hkeep : ∀ k ∈ t, mapGet (mapSet m a (mapGet m a * 100 / S)) k = mapGet m k := by
      intro k hk
      have hne : ¬ a = k := fun h => hnot (h ▸ hk)
      simp [mapGet_mapSet, hne]
    obtain ⟨m', hrun, hget, hkeys, hnodup⟩ :=
      ih hndt (mapSet m a (mapGet m a * 100 / S)) (ns + mapGet m a * 100 / S)
        (fun k hk => by rw [hkeep k hk]; exact hm k (List.mem_cons_of_mem _ hk))
        (by omega) (by omega)
    refine ⟨m', ?_, ?_, ?_, ?_⟩
    · have hsum : (t.map (fun k => mapGet (mapSet m a (mapGet m a * 100 / S)) k * 100 / S)).sum
          = (t.map (fun k => mapGet m k * 100 / S)).sum := by
        congr 1
        apply List.map_congr_left
        intro k hk
        rw [hkeep k hk]
      simp only [List.foldlM_cons, hstep, Option.bind_eq_bind, Option.some_bind, hrun, hsum,
        List.map_cons, List.sum_cons]
      congr 2
      ring
    · intro k
      rw [hget k]
      by_cases hk : k ∈ t
      · have hne : ¬ a = k := fun h => hnot (h ▸ hk)
        simp [hk, mapGet_mapSet, hne]
      · by_cases hak : a = k
        · subst hak
          simp [hk, mapGet_mapSet]
        · have hka : ¬ k = a := fun h => hak h.symm
          simp [hk, mapGet_mapSet, hak, hka]
    · intro k
      rw [hkeys k, mem_mapKeys_mapSet]
      simp only [List.mem_cons]
      tauto
    · intro h
      exact hnodup (nodup_mapKeys_mapSet m a _ h)

theorem sum_map_add_leftover (f : operKind → Int) (d : Int) :
    (allKinds.map (fun k => f k + if k = 0 then d else 0)).sum = (allKinds.map f).sum + d := by
  rw [allKinds_eq]
  simp only [List.map_cons, List.map_nil, List.sum_cons, List.sum_nil]
  norm_num
  ring

/-- What `rescaleProbabilities` computes on weights that are non-negative, have a positive
sum and do not overflow when multiplied by 100: it returns, the new weight of every kind
but the first is `w * 100 / sum`, and the first kind also receives the leftover. -/
theorem rescaleProbabilities_spec (c : config)
    (hnn : ∀ k ∈ allKinds, 0 ≤ mapGet c.probabilities k)
    (hfit : ∀ k ∈ allKinds, mapGet c.probabilities k * 100 ≤ 9223372036854775807)
    (hpos : 0 < weightSum c.probabilities) :
    ∃ c' : config, c.rescaleProbabilities = some c' ∧
      c'.ProbabilitiesRaw = c.ProbabilitiesRaw ∧
      weightSum c'.probabilities = 100 ∧
      (∀ k ∈ allKinds, 0 ≤ mapGet c'.probabilities k ∧ mapGet c'.probabilities k ≤ 100) ∧
      (∀ k ∈ allKinds, k ≠ 0 → mapGet c'.probabilities k
          = mapGet c.probabilities k * 100 / weightSum c.probabilities) ∧
      mapGet c'.probabilities 0
        = mapGet c.probabilities 0 * 100 / weightSum c.probabilities + (100 - (allKinds.map
          (fun k => mapGet c.probabilities k * 100 / weightSum c.probabilities)).sum) ∧
      (∀ k, k ∉ allKinds → mapGet c'.probabilities k = mapGet c.probabilities k) ∧
      (∀ k, k ∈ mapKeys c'.probabilities ↔ k ∈ allKinds ∨ k ∈ mapKeys c.probabilities) ∧
      ((mapKeys c.probabilities).Nodup → (mapKeys c'.probabilities).Nodup) := by
  have hlen : (allKinds.length : Int) = 21 := by rw [allKinds_eq]; rfl
  have hsumle : weightSum c.probabilities ≤ allKinds.length * 92233720368547758 :=
    sum_map_le_length_mul _ _ allKinds (fun k hk => by have := hfit k hk; omega)
  have hS : rescaleSum c.probabilities = weightSum c.probabilities := by
    unfold rescaleSum weightSum
    rw [rescaleSum_loop c.probabilities allKinds 0 (le_refl 0) hnn
      (by unfold weightSum at hsumle; omega)]
    simp
  have hle : ∀ k ∈ allKinds, mapGet c.probabilities k ≤ weightSum c.probabilities :=
    fun k hk => le_sum_map _ allKinds hnn k hk
  obtain ⟨m', hrun, hget, hkeys, hnodup⟩ :=
    rescaleLoop_spec (weightSum c.probabilities) hpos allKinds allKinds_nodup
      c.probabilities 0 (fun k hk => ⟨hnn k hk, hfit k hk, hle k hk⟩) (le_refl 0)
      (by omega)
  have hsumdef : (allKinds.map (mapGet c.probabilities)).sum = weightSum c.probabilities := rfl
  have hdiv := sum_map_div_mul_le (fun k => mapGet c.probabilities k * 100)
    (weightSum c.probabilities) hpos allKinds
  rw [sum_map_mul_hundred, hsumdef] at hdiv
  have hq : ∀ k ∈ allKinds, 0 ≤ mapGet c.probabilities k * 100 / weightSum c.probabilities :=
    fun k hk => (scaled_bounds _ _ hpos (hnn k hk) (hle k hk)).1
  have hqR := le_sum_map
    (fun k => mapGet c.probabilities k * 100 / weightSum c.probabilities) allKinds hq
  simp only [zero_add] at hrun
  -- name the scaled weights `f`, their total `R`, and the original total `S`
  generalize weightSum c.probabilities = S at *
  generalize hf : (fun k => mapGet c.probabilities k * 100 / S) = f at *
  have hfk : ∀ k, mapGet c.probabilities k * 100 / S = f k := fun k => by rw [← hf]
  simp only [hfk] at hget hq
  have hsumadd := sum_map_add_leftover f
  generalize hR : (allKinds.map f).sum = R at *
  have hR100 : R ≤ 100 := by
    by_contra hcon
    push_neg at hcon
    nlinarith
  have hR0 : 0 ≤ R := by
    rw [← hR]
    exact sum_map_nonneg f allKinds hq
  have h0mem : (0 : operKind) ∈ allKinds := by rw [allKinds_eq]; simp
  have hm0 : mapGet m' 0 = f 0 := by rw [hget 0]; simp [h0mem]
  have hf0 := hq 0 h0mem
  have hf0R := hqR 0 h0mem
  have hw1 : wrapInt (100 - R) = 100 - R := wrapInt_of_range (by omega) (by omega)
  have hw2 : wrapInt (f 0 + (100 - R)) = f 0 + (100 - R) :=
    wrapInt_of_range (by omega) (by omega)
  have hnew : ∀ k ∈ allKinds, mapGet (mapSet m' 0 (f 0 + (100 - R))) k
      = f k + if k = 0 then 100 - R else 0 := by
    intro k hk
    rw [mapGet_mapSet, hget k]
    by_cases hk0 : k = 0
    · subst hk0; simp [hk]
    · have : ¬ (0 : operKind) = k := fun h => hk0 h.symm
      simp [hk, hk0, this]
  refine ⟨{ c with probabilities := mapSet m' 0 (f 0 + (100 - R)) },
    ?_, rfl, ?_, ?_, ?_, ?_, ?_, ?_, ?_⟩
  · unfold config.rescaleProbabilities
    simp only [hS, hrun, hm0, hw1, hw2]
  · show (allKinds.map (mapGet (mapSet m' 0 (f 0 + (100 - R))))).sum = 100
    rw [List.map_congr_left hnew, hsumadd (100 - R)]
    omega
  · intro k hk
    show 0 ≤ mapGet (mapSet m' 0 (f 0 + (100 - R))) k ∧
      mapGet (mapSet m' 0 (f 0 + (100 - R))) k ≤ 100
    rw [hnew k hk]
    have h1 := hq k hk
    have h2 := hqR k hk
    by_cases hk0 : k = 0
    · subst hk0
      simp only [if_true]
      omega
    · simp only [hk0, if_false]
      omega
  · intro k hk hk0
    show mapGet (mapSet m' 0 (f 0 + (100 - R))) k = mapGet c.probabilities k * 100 / S
    rw [hnew k hk, hfk k]
    simp [hk0]
  · show mapGet (mapSet m' 0 (f 0 + (100 - R))) 0 = mapGet c.probabilities 0 * 100 / S + (100 - R)
    rw [hnew 0 h0mem, hfk 0]
    simp
  · intro k hk
    show mapGet (mapSet m' 0 (f 0 + (100 - R))) k = mapGet c.probabilities k
    have hk0 : ¬ (0 : operKind) = k := fun h => hk (h ▸ h0mem)
    rw [mapGet_mapSet, hget k]
    simp [hk, hk0]
  · intro k
    show k ∈ mapKeys (mapSet m' 0 (f 0 + (100 - R))) ↔ _
    rw [mem_mapKeys_mapSet, hkeys k]
    constructor
    · rintro (h | h)
      · exact Or.inl (h ▸ h0mem)
      · exact h
    · intro h
      exact Or.inr h
  · intro h
    exact nodup_mapKeys_mapSet m' 0 _ (hnodup h)


/-! ## C1: the probability invariant -/

/-- C1 (as stated) fails: weights that are all zero are non-negative, and on them
`rescaleProbabilities` panics with an integer division by zero instead of producing a
table; and on the non-negative weights `overflowWeights` the multiplication by 100
overflows, and the resulting table holds the weights 102 and -2, outside [0,100]. -/
theorem rescaleProbabilities_not_total :
    (∀ k ∈ allKinds, 0 ≤ mapGet (constWeights 0) k) ∧
    config.rescaleProbabilities ⟨none, constWeights 0⟩ = none ∧
    (∀ k ∈ allKinds, 0 ≤ mapGet overflowWeights k) ∧
    (config.rescaleProbabilities ⟨none, overflowWeights⟩).map
      (fun c => (mapGet c.probabilities 0, mapGet c.probabilities 1)) = some (102, -2) := by
  refine ⟨by decide, by rfl, by decide, by rfl⟩

/-- C1 (amended): for every assignment of non-negative weights to the 21 kinds whose sum
is positive and in which no weight overflows the 64-bit `int` when multiplied by 100,
`rescaleProbabilities` returns, and afterwards the weights of the 21 kinds sum to exactly
100 and every weight lies in [0,100]. -/
theorem rescaleProbabilities_sum_100 (c : config)
    (hnn : ∀ k ∈ allKinds, 0 ≤ mapGet c.probabilities k)
    (hfit : ∀ k ∈ allKinds, mapGet c.probabilities k * 100 ≤ 9223372036854775807)
    (hpos : 0 < weightSum c.probabilities) :
    ∃ c' : config, c.rescaleProbabilities = some c' ∧
      weightSum c'.probabilities = 100 ∧
      ∀ k ∈ allKinds, 0 ≤ mapGet c'.probabilities k ∧ mapGet c'.probabilities k ≤ 100 := by
  obtain ⟨c', hrun, _, hsum, hrange, _⟩ := rescaleProbabilities_spec c hnn hfit hpos
  exact ⟨c', hrun, hsum, hrange⟩

/-- Witness of C1: the uniform weights 1 that `loadConfig` builds for an empty
configuration satisfy the hypotheses. -/
theorem rescaleProbabilities_sum_100_witness :
    ∃ c' : config, config.rescaleProbabilities ⟨none, constWeights 1⟩ = some c' ∧
      weightSum c'.probabilities = 100 ∧
      ∀ k ∈ allKinds, 0 ≤ mapGet c'.probabilities k ∧ mapGet c'.probabilities k ≤ 100 :=
  rescaleProbabilities_sum_100 ⟨none, constWeights 1⟩
    (show ∀ k ∈ allKinds, 0 ≤ mapGet (constWeights 1) k by decide)
    (show ∀ k ∈ allKinds, mapGet (constWeights 1) k * 100 ≤ 9223372036854775807 by decide)
    (show 0 < weightSum (constWeights 1) by decide)

/-! ## The rendering `%q` -/

/-- The quoting of a plain name, of a name with a double quote and a backslash, and of a
name with a newline and a control character. -/
theorem goQuote_examples :
    goQuote "alfa/bravo" = "\"alfa/bravo\"" ∧
    goQuote "a\"b\\c" = "\"a\\\"b\\\\c\"" ∧
    goQuote "a\nb\x01" = "\"a\\nb\\x01\"" := by
  decide

/-! ## probabilityRanges and randomOperKind -/

theorem rangesLoop_eq (es : List (operKind × Int)) :
    ∀ (prev : Int) (acc : List probabilityRange),
      (es.foldl (fun (st : Int × List probabilityRange) (e : operKind × Int) =>
          (wrapInt (st.1 + e.2), st.2 ++ [{ upperBound := wrapInt (st.1 + e.2), oper := e.1 }]))
        (prev, acc)).2 = acc ++ rangesFrom prev es := by
  induction es with
  | nil => intro prev acc; simp [rangesFrom]
  | cons e t ih =>
    intro prev acc
    simp only [List.foldl_cons, rangesFrom]
    rw [ih]
    simp

theorem probabilityRanges_eq (c : config) (iter : mapIter) :
    c.probabilityRanges iter = rangesFrom 0 (iter c.probabilities) := by
  unfold config.probabilityRanges
  rw [rangesLoop_eq]
  simp

theorem sum_snd_nonneg (es : List (operKind × Int)) (h : ∀ e ∈ es, 0 ≤ e.2) :
    0 ≤ (es.map Prod.snd).sum := by
  apply List.sum_nonneg
  intro x hx
  obtain ⟨e, he, rfl⟩ := List.mem_map.1 hx
  exact h e he

/-- The search of `randomOperKind` in a table built from non-negative weights: when the
loop is entered with `prev ≤ n` and the remaining weights bring the total to 100 > n, the
first entry whose upper bound exceeds `n` exists and is the one returned. -/
theorem randomOperKind_rangesFrom (n : Int) (h100 : n < 100) (es : List (operKind × Int)) :
    ∀ prev : Int, 0 ≤ prev → prev ≤ n → (∀ e ∈ es, 0 ≤ e.2) →
      prev + (es.map Prod.snd).sum = 100 →
      ∃ (i : Nat) (r : probabilityRange),
        (rangesFrom prev es)[i]? = some r ∧
        randomOperKind (rangesFrom prev es) n = some r.oper ∧
        n < r.upperBound ∧
        (∀ (j : Nat) (r' : probabilityRange), j < i → (rangesFrom prev es)[j]? = some r' →
          r'.upperBound ≤ n) ∧
        (match i with
          | 0 => prev
          | j + 1 => ((rangesFrom prev es).getD j { upperBound := 0, oper := 0 }).upperBound)
          ≤ n := by
  induction es with
  | nil =>
    intro prev _ hle _ hsum
    simp at hsum
    omega
  | cons e t ih =>
    intro prev h0 hle hnn hsum
    have he : 0 ≤ e.2 := hnn e (List.mem_cons_self _ _)
    have ht : 0 ≤ (t.map Prod.snd).sum :=
      sum_snd_nonneg t (fun x hx => hnn x (List.mem_cons_of_mem _ hx))
    simp only [List.map_cons, List.sum_cons] at hsum
    have hw : wrapInt (prev + e.2) = prev + e.2 := wrapInt_of_range (by omega) (by omega)
    by_cases hn : n < prev + e.2
    · refine ⟨0, { upperBound := prev + e.2, oper := e.1 }, ?_, ?_, hn, ?_, hle⟩
      · simp [rangesFrom, hw]
      · simp [rangesFrom, randomOperKind, hw, hn]
      · intro j r' hj
        omega
    · obtain ⟨i, r, hget, hrun, hlt, hbefore, hlow⟩ :=
        ih (prev + e.2) (by omega) (by omega)
          (fun x hx => hnn x (List.mem_cons_of_mem _ hx)) (by omega)
      refine ⟨i + 1, r, ?_, ?_, hlt, ?_, ?_⟩
      · simpa [rangesFrom, hw] using hget
      · simpa [rangesFrom, randomOperKind, hw, hn] using hrun
      · intro j r' hj hj'
        cases j with
        | zero =>
          simp [rangesFrom, hw] at hj'
          rw [← hj']
          show prev + e.2 ≤ n
          omega
        | succ j' =>
          simp only [rangesFrom, hw, List.getElem?_cons_succ] at hj'
          exact hbefore j' r' (by omega) hj'
      · cases i with
        | zero =>
          simp only [rangesFrom, hw, List.getD_cons_zero]
          omega
        | succ i' =>
          simpa [rangesFrom, hw] using hlow

/-- C3: for every table built by `probabilityRanges` (in whatever order the map is
visited) from non-negative weights that sum to 100, and every draw `n` in [0,100),
`randomOperKind` returns (the fatal branch is not reached) the kind of the first entry `i`
whose upper bound exceeds `n`, and `n` lies in the interval of that entry:
`ranges[i-1].upperBound ≤ n < ranges[i].upperBound`, with 0 for `ranges[-1].upperBound`. -/
theorem randomOperKind_first_exceeding (c : config) (iter : mapIter) (hiter : isMapIter iter)
    (hnn : ∀ e ∈ c.probabilities, 0 ≤ e.2)
    (hsum : (c.probabilities.map Prod.snd).sum = 100)
    (n : Int) (h0 : 0 ≤ n) (h100 : n < 100) :
    ∃ (i : Nat) (r : probabilityRange),
      (c.probabilityRanges iter)[i]? = some r ∧
      randomOperKind (c.probabilityRanges iter) n = some r.oper ∧
      (∀ (j : Nat) (r' : probabilityRange), j < i → (c.probabilityRanges iter)[j]? = some r' →
        ¬ n < r'.upperBound) ∧
      lowerBound (c.probabilityRanges iter) i ≤ n ∧ n < r.upperBound := by
  have hperm := hiter c.probabilities
  have hnn' : ∀ e ∈ iter c.probabilities, 0 ≤ e.2 := fun e he => hnn e (hperm.mem_iff.1 he)
  have hsum' : 0 + ((iter c.probabilities).map Prod.snd).sum = 100 := by
    rw [(hperm.map Prod.snd).sum_eq, hsum]
    simp
  obtain ⟨i, r, hget, hrun, hlt, hbefore, hlow⟩ :=
    randomOperKind_rangesFrom n h100 (iter c.probabilities) 0 (le_refl 0) h0 hnn' hsum'
  rw [probabilityRanges_eq]
  refine ⟨i, r, hget, hrun, ?_, ?_, hlt⟩
  · intro j r' hj hj'
    have := hbefore j r' hj hj'
    omega
  · cases i with
    | zero => exact h0
    | succ i' => exact hlow

/-- Witness of C3: the rescaled uniform table, visited in reverse order, and the draw 42. -/
theorem randomOperKind_first_exceeding_witness :
    ∃ (i : Nat) (r : probabilityRange),
      (config.probabilityRanges ⟨none, uniformTable⟩ List.reverse)[i]? = some r ∧
      randomOperKind (config.probabilityRanges ⟨none, uniformTable⟩ List.reverse) 42
        = some r.oper ∧
      (∀ (j : Nat) (r' : probabilityRange), j < i →
        (config.probabilityRanges ⟨none, uniformTable⟩ List.reverse)[j]? = some r' →
        ¬ (42 : Int) < r'.upperBound) ∧
      lowerBound (config.probabilityRanges ⟨none, uniformTable⟩ List.reverse) i ≤ 42 ∧
      42 < r.upperBound :=
  randomOperKind_first_exceeding ⟨none, uniformTable⟩ List.reverse
    (fun m => List.reverse_perm m)
    (show ∀ e ∈ uniformTable, 0 ≤ e.2 by decide)
    (show (uniformTable.map Prod.snd).sum = 100 by decide)
    42 (by decide) (by decide)

/-! ## C2: a single kind with a non-zero weight -/

theorem sum_map_eq_single (g : operKind → Int) (K : operKind) (ks : List operKind)
    (hnd : ks.Nodup) (hK : K ∈ ks) (hzero : ∀ k ∈ ks, k ≠ K → g k = 0) :
    (ks.map g).sum = g K := by
  induction ks with
  | nil => simp at hK
  | cons a t ih =>
    obtain ⟨hnot, hndt⟩ := List.nodup_cons.1 hnd
    simp only [List.map_cons, List.sum_cons]
    by_cases haK : a = K
    · subst haK
      have hz : (t.map g).sum = 0 := by
        apply List.sum_eq_zero
        intro x hx
        obtain ⟨k, hk, rfl⟩ := List.mem_map.1 hx
        exact hzero k (List.mem_cons_of_mem _ hk) (fun h => hnot (h ▸ hk))
      omega
    · have hKt : K ∈ t := by
        rcases List.mem_cons.1 hK with h | h
        · exact absurd h.symm haK
        · exact h
      rw [ih hndt hKt (fun k hk => hzero k (List.mem_cons_of_mem _ hk)),
        hzero a (List.mem_cons_self _ _) haK]
      simp

/-- The search of `randomOperKind` in a table built from entries that give 100 to the kind
`K` and 0 to every other kind: whatever the order of the entries, it returns `K`. -/
theorem randomOperKind_rangesFrom_single (K : operKind) (n : Int) (h0 : 0 ≤ n) (h100 : n < 100)
    (es : List (operKind × Int)) (hes : ∀ e ∈ es, e.2 = if e.1 = K then 100 else 0)
    (hK : ∃ e ∈ es, e.1 = K) : randomOperKind (rangesFrom 0 es) n = some K := by
  induction es with
  | nil =>
    obtain ⟨e, he, _⟩ := hK
    simp at he
  | cons e t ih =>
    have he := hes e (List.mem_cons_self _ _)
    by_cases heK : e.1 = K
    · rw [if_pos heK] at he
      have hw : wrapInt (0 + e.2) = 100 := by rw [he]; rfl
      simp only [rangesFrom, randomOperKind, hw, h100, heK, if_true]
    · rw [if_neg heK] at he
      have hw : wrapInt (0 + e.2) = 0 := by rw [he]; rfl
      have hn : ¬ n < 0 := by omega
      simp only [rangesFrom, randomOperKind, hw, hn, if_false]
      apply ih (fun x hx => hes x (List.mem_cons_of_mem _ hx))
      obtain ⟨x, hx, hxK⟩ := hK
      rcases List.mem_cons.1 hx with h | h
      · exact absurd (h ▸ hxK) heK
      · exact ⟨x, h, hxK⟩

/-- C2 (as stated) fails for a weight whose multiple by 100 overflows the 64-bit `int`:
with the weight 2^61 for the kind open (1) and zero for the 20 others, the rescaled table
gives -4 to open and 104 to create, and the draw 0 returns create (0), not open. -/
theorem randomOperKind_single_overflow :
    operOpen ∈ allKinds ∧
    mapGet (singleWeight operOpen 2305843009213693952) operOpen = 2305843009213693952 ∧
    (∀ k ∈ allKinds, k ≠ operOpen → mapGet (singleWeight operOpen 2305843009213693952) k = 0) ∧
    isMapIter id ∧
    (config.rescaleProbabilities ⟨none, singleWeight operOpen 2305843009213693952⟩).map
      (fun c => randomOperKind (c.probabilityRanges id) 0) = some (some operCreate) := by
  refine ⟨by decide, by decide, by decide, fun m => List.Perm.refl m, by rfl⟩

/-- C2 (amended): for every kind `K` and every positive weight `w` that does not overflow
the 64-bit `int` when multiplied by 100, if `K` has weight `w` and the 20 other kinds have
weight 0, then `rescaleProbabilities` returns and, whatever order the map is visited in by
`probabilityRanges`, `randomOperKind` returns `K` for every draw `n` in [0,100). -/
theorem randomOperKind_single_kind (c : config) (K : operKind) (w : Int) (iter : mapIter)
    (hiter : isMapIter iter)
    (hnd : (mapKeys c.probabilities).Nodup)
    (hsub : ∀ k ∈ mapKeys c.probabilities, k ∈ allKinds)
    (hK : K ∈ allKinds) (hw : 0 < w) (hfit : w * 100 ≤ 9223372036854775807)
    (hKw : mapGet c.probabilities K = w)
    (hother : ∀ k ∈ allKinds, k ≠ K → mapGet c.probabilities k = 0) :
    ∃ c' : config, c.rescaleProbabilities = some c' ∧
      ∀ n : Int, 0 ≤ n → n < 100 → randomOperKind (c'.probabilityRanges iter) n = some K := by
  have hS : weightSum c.probabilities = w := by
    unfold weightSum
    rw [sum_map_eq_single (mapGet c.probabilities) K allKinds allKinds_nodup hK hother]
    exact hKw
  have hval : ∀ k ∈ allKinds, mapGet c.probabilities k = if k = K then w else 0 := by
    intro k hk
    by_cases hkK : k = K
    · rw [if_pos hkK, hkK, hKw]
    · rw [if_neg hkK, hother k hk hkK]
  have hnn : ∀ k ∈ allKinds, 0 ≤ mapGet c.probabilities k := by
    intro k hk
    rw [hval k hk]
    split_ifs <;> omega
  have hfit' : ∀ k ∈ allKinds, mapGet c.probabilities k * 100 ≤ 9223372036854775807 := by
    intro k hk
    rw [hval k hk]
    split_ifs <;> omega
  obtain ⟨c', hrun, _, _, _, hrest, hfirst, _, hkeys, hnodup⟩ :=
    rescaleProbabilities_spec c hnn hfit' (by rw [hS]; exact hw)
  rw [hS] at hrest hfirst
  have hf : ∀ k ∈ allKinds, mapGet c.probabilities k * 100 / w = if k = K then 100 else 0 := by
    intro k hk
    rw [hval k hk]
    by_cases hkK : k = K
    · simp only [hkK, if_true]
      exact Int.mul_ediv_cancel_left 100 (ne_of_gt hw)
    · simp [hkK]
  have hR : (allKinds.map (fun k => mapGet c.probabilities k * 100 / w)).sum = 100 := by
    rw [sum_map_eq_single (fun k => mapGet c.probabilities k * 100 / w) K allKinds
      allKinds_nodup hK (fun k hk hkK => by simp only [hf k hk, hkK, if_false])]
    simp only [hf K hK, if_true]
  have h0mem : (0 : operKind) ∈ allKinds := by rw [allKinds_eq]; simp
  have hnew : ∀ k ∈ allKinds, mapGet c'.probabilities k = if k = K then 100 else 0 := by
    intro k hk
    by_cases hk0 : k = 0
    · subst hk0
      rw [hfirst, hR, hf 0 hk]
      simp
    · rw [hrest k hk hk0, hf k hk]
  have hperm := hiter c'.probabilities
  refine ⟨c', hrun, ?_⟩
  intro n h0 h100
  rw [probabilityRanges_eq]
  apply randomOperKind_rangesFrom_single K n h0 h100
  · intro e he
    have hmem : e ∈ c'.probabilities := hperm.mem_iff.1 he
    have hkey : e.1 ∈ allKinds := by
      rcases (hkeys e.1).1 (List.mem_map_of_mem Prod.fst hmem) with h | h
      · exact h
      · exact hsub e.1 h
    rw [← mapGet_of_mem c'.probabilities (hnodup hnd) e hmem]
    exact hnew e.1 hkey
  · have hKkey : K ∈ mapKeys c'.probabilities := (hkeys K).2 (Or.inl hK)
    obtain ⟨e, he, heK⟩ := List.mem_map.1 hKkey
    exact ⟨e, hperm.mem_iff.2 he, heK⟩

/-- Witness of C2: the kind read with the weight 7, the table visited in reverse order. -/
theorem randomOperKind_single_kind_witness :
    ∃ c' : config, config.rescaleProbabilities ⟨none, singleWeight operRead 7⟩ = some c' ∧
      ∀ n : Int, 0 ≤ n → n < 100 →
        randomOperKind (c'.probabilityRanges List.reverse) n = some operRead :=
  randomOperKind_single_kind ⟨none, singleWeight operRead 7⟩ operRead 7 List.reverse
    (fun m => List.reverse_perm m)
    (show (mapKeys (singleWeight operRead 7)).Nodup by decide)
    (show ∀ k ∈ mapKeys (singleWeight operRead 7), k ∈ allKinds by decide)
    (by decide) (by decide) (by decide)
    (show mapGet (singleWeight operRead 7) operRead = 7 by decide)
    (show ∀ k ∈ allKinds, k ≠ operRead → mapGet (singleWeight operRead 7) k = 0 by decide)

/-! ## C4: the cumulative table -/

theorem rangesFrom_opers (es : List (operKind × Int)) :
    ∀ prev : Int, (rangesFrom prev es).map (fun r => r.oper) = es.map Prod.fst := by
  induction es with
  | nil => intro prev; rfl
  | cons e t ih => intro prev; simp [rangesFrom, ih]

theorem rangesFrom_length (es : List (operKind × Int)) (prev : Int) :
    (rangesFrom prev es).length = es.length := by
  have h := congrArg List.length (rangesFrom_opers es prev)
  simpa using h

/-- Without overflow, entry `i` of the table holds the running total of the first `i + 1`
weights in the order visited. -/
theorem rangesFrom_upperBound (es : List (operKind × Int)) :
    ∀ (prev : Int) (i : Nat) (r : probabilityRange), 0 ≤ prev → (∀ e ∈ es, 0 ≤ e.2) →
      prev + (es.map Prod.snd).sum ≤ 9223372036854775807 →
      (rangesFrom prev es)[i]? = some r →
      r.upperBound = prev + ((es.take (i + 1)).map Prod.snd).sum := by
  induction es with
  | nil => intro prev i r _ _ _ h; simp [rangesFrom] at h
  | cons e t ih =>
    intro prev i r h0 hnn hb hget
    have he : 0 ≤ e.2 := hnn e (List.mem_cons_self _ _)
    have ht : 0 ≤ (t.map Prod.snd).sum :=
      sum_snd_nonneg t (fun x hx => hnn x (List.mem_cons_of_mem _ hx))
    simp only [List.map_cons, List.sum_cons] at hb
    have hw : wrapInt (prev + e.2) = prev + e.2 := wrapInt_of_range (by omega) (by omega)
    cases i with
    | zero =>
      simp [rangesFrom, hw] at hget
      rw [← hget]
      simp
    | succ j =>
      simp only [rangesFrom, hw, List.getElem?_cons_succ] at hget
      rw [ih (prev + e.2) j r (by omega) (fun x hx => hnn x (List.mem_cons_of_mem _ hx))
        (by omega) hget]
      simp only [List.take_succ_cons, List.map_cons, List.sum_cons]
      ring

theorem rangesFrom_getLast (es : List (operKind × Int)) :
    ∀ (prev : Int), 0 ≤ prev → (∀ e ∈ es, 0 ≤ e.2) → es ≠ [] →
      prev + (es.map Prod.snd).sum ≤ 9223372036854775807 →
      (rangesFrom prev es).getLast?.map (fun r => r.upperBound)
        = some (prev + (es.map Prod.snd).sum) := by
  induction es with
  | nil => intro prev _ _ h; exact absurd rfl h
  | cons e t ih =>
    intro prev h0 hnn _ hb
    have he : 0 ≤ e.2 := hnn e (List.mem_cons_self _ _)
    have ht : 0 ≤ (t.map Prod.snd).sum :=
      sum_snd_nonneg t (fun x hx => hnn x (List.mem_cons_of_mem _ hx))
    simp only [List.map_cons, List.sum_cons] at hb
    have hw : wrapInt (prev + e.2) = prev + e.2 := wrapInt_of_range (by omega) (by omega)
    cases t with
    | nil => simp [rangesFrom, hw]
    | cons e2 t2 =>
      have := ih (prev + e.2) (by omega) (fun x hx => hnn x (List.mem_cons_of_mem _ hx))
        (by simp) (by omega)
      simp only [rangesFrom, hw, List.map_cons, List.sum_cons] at this ⊢
      rw [List.getLast?_cons_cons, this]
      congr 1
      ring

/-- In a map with distinct keys, the weights listed entry by entry are the reads of the
keys. -/
theorem map_snd_eq (m : probMap) (h : (mapKeys m).Nodup) :
    m.map Prod.snd = (mapKeys m).map (mapGet m) := by
  unfold mapKeys
  rw [List.map_map]
  apply List.map_congr_left
  intro e he
  exact (mapGet_of_mem m h e he).symm

/-- A map whose keys are exactly the 21 kinds lists weights that add up to `weightSum`. -/
theorem sum_entries_eq_weightSum (m : probMap) (h : (mapKeys m).Nodup)
    (hk : ∀ k, k ∈ mapKeys m ↔ k ∈ allKinds) : (m.map Prod.snd).sum = weightSum m := by
  have hperm : (mapKeys m).Perm allKinds :=
    (List.perm_ext_iff_of_nodup h allKinds_nodup).2 hk
  rw [map_snd_eq m h]
  exact (hperm.map (mapGet m)).sum_eq

/-- C4 (as stated) fails: `probabilityRanges` ranges over a Go map, whose visiting order is
not the enumeration order.  When the rescaled uniform table is visited from the last kind to
the first, the first entry of the table is swap-clients (20) with the upper bound 4, not
create. -/
theorem probabilityRanges_not_enumeration_order :
    isMapIter List.reverse ∧
    (config.rescaleProbabilities ⟨none, constWeights 1⟩).map
      (fun c => (c.probabilityRanges List.reverse).head?)
      = some (some { upperBound := 4, oper := operSwapClients }) := by
  refine ⟨fun m => List.reverse_perm m, by rfl⟩

/-- C4 (amended): for every table that `rescaleProbabilities` returns (on non-negative
weights of the 21 kinds with a positive sum and no overflow), and whatever order the map is
visited in, `probabilityRanges` returns 21 entries, one per kind, in the order visited;
each upper bound is the sum of the weights of that kind and of all kinds before it in the
order visited; and the upper bound of the last entry is 100. -/
theorem probabilityRanges_cumulative (c : config) (iter : mapIter) (hiter : isMapIter iter)
    (hnd : (mapKeys c.probabilities).Nodup)
    (hsub : ∀ k ∈ mapKeys c.probabilities, k ∈ allKinds)
    (hnn : ∀ k ∈ allKinds, 0 ≤ mapGet c.probabilities k)
    (hfit : ∀ k ∈ allKinds, mapGet c.probabilities k * 100 ≤ 9223372036854775807)
    (hpos : 0 < weightSum c.probabilities) :
    ∃ c' : config, c.rescaleProbabilities = some c' ∧
      (c'.probabilityRanges iter).length = 21 ∧
      ((c'.probabilityRanges iter).map (fun r => r.oper)).Perm allKinds ∧
      (c'.probabilityRanges iter).map (fun r => r.oper)
        = (iter c'.probabilities).map Prod.fst ∧
      (∀ (i : Nat) (r : probabilityRange), (c'.probabilityRanges iter)[i]? = some r →
        r.upperBound = (((c'.probabilityRanges iter).take (i + 1)).map
          (fun x => mapGet c'.probabilities x.oper)).sum) ∧
      (c'.probabilityRanges iter).getLast?.map (fun r => r.upperBound) = some 100 := by
  obtain ⟨c', hrun, _, hsum, hrange, _, _, _, hkeys, hnodup⟩ :=
    rescaleProbabilities_spec c hnn hfit hpos
  have hnd' := hnodup hnd
  have hkeys' : ∀ k, k ∈ mapKeys c'.probabilities ↔ k ∈ allKinds := by
    intro k
    rw [hkeys k]
    constructor
    · rintro (h | h)
      · exact h
      · exact hsub k h
    · exact fun h => Or.inl h
  have hperm := hiter c'.probabilities
  have hval : ∀ e ∈ iter c'.probabilities, mapGet c'.probabilities e.1 = e.2 :=
    fun e he => mapGet_of_mem c'.probabilities hnd' e (hperm.mem_iff.1 he)
  have hnn' : ∀ e ∈ iter c'.probabilities, 0 ≤ e.2 := by
    intro e he
    rw [← hval e he]
    exact (hrange e.1 ((hkeys' e.1).1
      (List.mem_map_of_mem Prod.fst (hperm.mem_iff.1 he)))).1
  have htotal : ((iter c'.probabilities).map Prod.snd).sum = 100 := by
    rw [(hperm.map Prod.snd).sum_eq, sum_entries_eq_weightSum c'.probabilities hnd' hkeys', hsum]
  have hkperm : ((iter c'.probabilities).map Prod.fst).Perm allKinds :=
    (hperm.map Prod.fst).trans
      ((List.perm_ext_iff_of_nodup hnd' allKinds_nodup).2 hkeys')
  have hopers := rangesFrom_opers (iter c'.probabilities) 0
  refine ⟨c', hrun, ?_, ?_, ?_, ?_, ?_⟩
  · rw [probabilityRanges_eq, rangesFrom_length, ← List.length_map (iter c'.probabilities)
      Prod.fst, hkperm.length_eq, allKinds_eq]
    rfl
  · rw [probabilityRanges_eq, hopers]
    exact hkperm
  · rw [probabilityRanges_eq, hopers]
  · intro i r hget
    rw [probabilityRanges_eq] at hget ⊢
    rw [rangesFrom_upperBound (iter c'.probabilities) 0 i r (le_refl 0) hnn'
      (by rw [htotal]; decide) hget]
    have h1 : ((rangesFrom 0 (iter c'.probabilities)).take (i + 1)).map
        (fun x => mapGet c'.probabilities x.oper)
        = ((iter c'.probabilities).take (i + 1)).map Prod.snd := by
      have h2 : ((rangesFrom 0 (iter c'.probabilities)).take (i + 1)).map
          (fun x => mapGet c'.probabilities x.oper)
          = ((((rangesFrom 0 (iter c'.probabilities)).map (fun r => r.oper)).take (i + 1)).map
            (mapGet c'.probabilities)) := by
        rw [← List.map_take, List.map_map]
        rfl
      rw [h2, hopers, ← List.map_take, List.map_map]
      apply List.map_congr_left
      intro e he
      exact hval e (List.mem_of_mem_take he)
    rw [h1]
    simp
  · rw [probabilityRanges_eq, rangesFrom_getLast (iter c'.probabilities) 0 (le_refl 0) hnn'
      (by intro h; rw [h] at htotal; simp at htotal) (by rw [htotal]; decide), htotal]
    simp

/-- Witness of C4: the uniform weights 1, the map visited in reverse order. -/
theorem probabilityRanges_cumulative_witness :
    ∃ c' : config, config.rescaleProbabilities ⟨none, constWeights 1⟩ = some c' ∧
      (c'.probabilityRanges List.reverse).length = 21 ∧
      ((c'.probabilityRanges List.reverse).map (fun r => r.oper)).Perm allKinds ∧
      (c'.probabilityRanges List.reverse).map (fun r => r.oper)
        = (List.reverse c'.probabilities).map Prod.fst ∧
      (∀ (i : Nat) (r : probabilityRange), (c'.probabilityRanges List.reverse)[i]? = some r →
        r.upperBound = (((c'.probabilityRanges List.reverse).take (i + 1)).map
          (fun x => mapGet c'.probabilities x.oper)).sum) ∧
      (c'.probabilityRanges List.reverse).getLast?.map (fun r => r.upperBound) = some 100 :=
  probabilityRanges_cumulative ⟨none, constWeights 1⟩ List.reverse
    (fun m => List.reverse_perm m)
    (show (mapKeys (constWeights 1)).Nodup by decide)
    (show ∀ k ∈ mapKeys (constWeights 1), k ∈ allKinds by decide)
    (show ∀ k ∈ allKinds, 0 ≤ mapGet (constWeights 1) k by decide)
    (show ∀ k ∈ allKinds, mapGet (constWeights 1) k * 100 ≤ 9223372036854775807 by decide)
    (show 0 < weightSum (constWeights 1) by decide)

/-! ## C5: the operation kinds and their names -/

/-- C5 (as stated) fails for the six kinds that act on the file system under test: their
names in the code are not the `sut-` names of the list, which `fromString` rejects with a
panic. -/
theorem operKind_names_not_sut :
    [operMuscleFlush, operMusclePush, operMuscleRemount, operMusclePruneCache,
      operMuscleTrim, operSwapClients].map operKind.String
      = ["musclefsflush", "musclefspush", "musclefsremount", "musclefsprunecache",
        "musclefstrim", "swapclients"] ∧
    ["sut-flush", "sut-push", "sut-remount", "sut-prune-cache", "sut-trim",
      "sut-swap-clients"].map fromString = [none, none, none, none, none, none] := by
  decide

/-- C5 (amended): there are exactly 21 operation kinds, numbered 0 to 20 in the order
create, open, seek, read, write, close, unlink1, unlink2, truncate, ftruncate, mkdir, rmdir,
rename1, rename2, chdir, musclefsflush, musclefspush, musclefsremount, musclefsprunecache,
musclefstrim, swapclients, and the canonical name of each kind (what `operKind.String`
returns and what `fromString` accepts) is exactly the name in that list. -/
theorem operKind_names :
    operKindCount = 21 ∧
    [operCreate, operOpen, operSeek, operRead, operWrite, operClose, operUnlink1, operUnlink2,
      operTruncate, operFtruncate, operMkdir, operRmdir, operRename1, operRename2, operChdir,
      operMuscleFlush, operMusclePush, operMuscleRemount, operMusclePruneCache, operMuscleTrim,
      operSwapClients]
      = [0, 1, 2, 3, 4, 5, 6, 7, 8, 9, 10, 11, 12, 13, 14, 15, 16, 17, 18, 19, 20] ∧
    ([0, 1, 2, 3, 4, 5, 6, 7, 8, 9, 10, 11, 12, 13, 14, 15, 16, 17, 18, 19, 20] : List operKind).map
      operKind.String
      = ["create", "open", "seek", "read", "write", "close", "unlink1", "unlink2", "truncate",
        "ftruncate", "mkdir", "rmdir", "rename1", "rename2", "chdir", "musclefsflush",
        "musclefspush", "musclefsremount", "musclefsprunecache", "musclefstrim",
        "swapclients"] ∧
    ["create", "open", "seek", "read", "write", "close", "unlink1", "unlink2", "truncate",
      "ftruncate", "mkdir", "rmdir", "rename1", "rename2", "chdir", "musclefsflush",
      "musclefspush", "musclefsremount", "musclefsprunecache", "musclefstrim",
      "swapclients"].map fromString
      = ([0, 1, 2, 3, 4, 5, 6, 7, 8, 9, 10, 11, 12, 13, 14, 15, 16, 17, 18, 19, 20]
        : List operKind).map some := by
  decide

/-- Whatever `fromString` returns is one of the 21 kinds, and the kind's name is the string
given. -/
theorem fromString_some (s : String) (k : operKind) (h : fromString s = some k) :
    k ∈ allKinds ∧ operKind.String k = s := by
  unfold fromString at h
  by_cases hs : s = "create"
  · rw [if_pos hs] at h
    injection h with h'
    subst h'
    subst hs
    exact ⟨by decide, by decide⟩
  rw [if_neg hs] at h
  clear hs
  by_cases hs : s = "open"
  · rw [if_pos hs] at h
    injection h with h'
    subst h'
    subst hs
    exact ⟨by decide, by decide⟩
  rw [if_neg hs] at h
  clear hs
  by_cases hs : s = "seek"
  · rw [if_pos hs] at h
    injection h with h'
    subst h'
    subst hs
    exact ⟨by decide, by decide⟩
  rw [if_neg hs] at h
  clear hs
  by_cases hs : s = "read"
  · rw [if_pos hs] at h
    injection h with h'
    subst h'
    subst hs
    exact ⟨by decide, by decide⟩
  rw [if_neg hs] at h
  clear hs
  by_cases hs : s = "write"
  · rw [if_pos hs] at h
    injection h with h'
    subst h'
    subst hs
    exact ⟨by decide, by decide⟩
  rw [if_neg hs] at h
  clear hs
  by_cases hs : s = "close"
  · rw [if_pos hs] at h
    injection h with h'
    subst h'
    subst hs
    exact ⟨by decide, by decide⟩
  rw [if_neg hs] at h
  clear hs
  by_cases hs : s = "unlink1"
  · rw [if_pos hs] at h
    injection h with h'
    subst h'
    subst hs
    exact ⟨by decide, by decide⟩
  rw [if_neg hs] at h
  clear hs
  by_cases hs : s = "unlink2"
  · rw [if_pos hs] at h
    injection h with h'
    subst h'
    subst hs
    exact ⟨by decide, by decide⟩
  rw [if_neg hs] at h
  clear hs
  by_cases hs : s = "truncate"
  · rw [if_pos hs] at h
    injection h with h'
    subst h'
    subst hs
    exact ⟨by decide, by decide⟩
  rw [if_neg hs] at h
  clear hs
  by_cases hs : s = "ftruncate"
  · rw [if_pos hs] at h
    injection h with h'
    subst h'
    subst hs
    exact ⟨by decide, by decide⟩
  rw [if_neg hs] at h
  clear hs
  by_cases hs : s = "mkdir"
  · rw [if_pos hs] at h
    injection h with h'
    subst h'
    subst hs
    exact ⟨by decide, by decide⟩
  rw [if_neg hs] at h
  clear hs
  by_cases hs : s = "rmdir"
  · rw [if_pos hs] at h
    injection h with h'
    subst h'
    subst hs
    exact ⟨by decide, by decide⟩
  rw [if_neg hs] at h
  clear hs
  by_cases hs : s = "rename1"
  · rw [if_pos hs] at h
    injection h with h'
    subst h'
    subst hs
    exact ⟨by decide, by decide⟩
  rw [if_neg hs] at h
  clear hs
  by_cases hs : s = "rename2"
  · rw [if_pos hs] at h
    injection h with h'
    subst h'
    subst hs
    exact ⟨by decide, by decide⟩
  rw [if_neg hs] at h
  clear hs
  by_cases hs : s = "chdir"
  · rw [if_pos hs] at h
    injection h with h'
    subst h'
    subst hs
    exact ⟨by decide, by decide⟩
  rw [if_neg hs] at h
  clear hs
  by_cases hs : s = "musclefsflush"
  · rw [if_pos hs] at h
    injection h with h'
    subst h'
    subst hs
    exact ⟨by decide, by decide⟩
  rw [if_neg hs] at h
  clear hs
  by_cases hs : s = "musclefspush"
  · rw [if_pos hs] at h
    injection h with h'
    subst h'
    subst hs
    exact ⟨by decide, by decide⟩
  rw [if_neg hs] at h
  clear hs
  by_cases hs : s = "musclefsremount"
  · rw [if_pos hs] at h
    injection h with h'
    subst h'
    subst hs
    exact ⟨by decide, by decide⟩
  rw [if_neg hs] at h
  clear hs
  by_cases hs : s = "musclefsprunecache"
  · rw [if_pos hs] at h
    injection h with h'
    subst h'
    subst hs
    exact ⟨by decide, by decide⟩
  rw [if_neg hs] at h
  clear hs
  by_cases hs : s = "musclefstrim"
  · rw [if_pos hs] at h
    injection h with h'
    subst h'
    subst hs
    exact ⟨by decide, by decide⟩
  rw [if_neg hs] at h
  clear hs
  by_cases hs : s = "swapclients"
  · rw [if_pos hs] at h
    injection h with h'
    subst h'
    subst hs
    exact ⟨by decide, by decide⟩
  rw [if_neg hs] at h
  clear hs
  exact absurd h (by simp)

/-! ## C6: incomplete probabilities -/

/-- The loop of `loadConfig` over entries with valid names does not panic; the map it
builds has distinct keys, and each new key is the kind named by some entry. -/
theorem loadLoop_spec (entries : List (String × Int)) :
    ∀ m0 : probMap, (∀ e ∈ entries, (fromString e.1).isSome) → (mapKeys m0).Nodup →
      ∃ m : probMap, entries.foldlM loadStep m0 = some m ∧ (mapKeys m).Nodup ∧
        ∀ k ∈ mapKeys m, k ∈ mapKeys m0 ∨ ∃ e ∈ entries, fromString e.1 = some k := by
  induction entries with
  | nil =>
    intro m0 _ hnd
    exact ⟨m0, rfl, hnd, fun k hk => Or.inl hk⟩
  | cons e t ih =>
    intro m0 hvalid hnd
    have he := hvalid e (List.mem_cons_self _ _)
    obtain ⟨k0, hk0⟩ := Option.isSome_iff_exists.1 he
    obtain ⟨m, hrun, hnd', hkeys⟩ :=
      ih (mapSet m0 k0 e.2) (fun x hx => hvalid x (List.mem_cons_of_mem _ hx))
        (nodup_mapKeys_mapSet m0 k0 e.2 hnd)
    refine ⟨m, ?_, hnd', ?_⟩
    · simp only [List.foldlM_cons, loadStep, hk0, Option.bind_eq_bind, Option.some_bind]
      exact hrun
    · intro k hk
      rcases hkeys k hk with h | ⟨x, hx, hxk⟩
      · rcases (mem_mapKeys_mapSet m0 k0 e.2 k).1 h with h1 | h1
        · exact Or.inr ⟨e, List.mem_cons_self _ _, h1 ▸ hk0⟩
        · exact Or.inl h1
      · exact Or.inr ⟨x, List.mem_cons_of_mem _ hx, hxk⟩

/-- C6: for every configuration whose probabilities map is present, has only valid kind
names as keys, and does not name all 21 kinds (the empty map included), `loadConfig`
returns the error "incomplete probabilities: l/21", where `l` < 21 is the number of kinds
named, and no configuration. -/
theorem loadConfig_incomplete (entries : List (String × Int))
    (hvalid : ∀ e ∈ entries, (fromString e.1).isSome)
    (hmissing : ∃ k ∈ allKinds, operKind.String k ∉ entries.map Prod.fst) :
    ∃ l : Nat, l < 21 ∧
      loadConfig (.ok (some entries))
        = some (.error (fmtErrorf
            ("loadConfig: incomplete probabilities: " ++ fmtInt l ++ "/21"))) := by
  obtain ⟨k0, hk0, hk0miss⟩ := hmissing
  obtain ⟨m, hrun, hnd, hkeys⟩ := loadLoop_spec entries [] hvalid (by simp [mapKeys])
  have hsub : mapKeys m ⊆ allKinds.erase k0 := by
    intro k hk
    rcases hkeys k hk with h | ⟨e, he, hek⟩
    · simp [mapKeys] at h
    · obtain ⟨hmem, hname⟩ := fromString_some e.1 k hek
      have hne : k ≠ k0 := by
        intro h
        apply hk0miss
        rw [← h, hname]
        exact List.mem_map_of_mem Prod.fst he
      exact (List.mem_erase_of_ne hne).2 hmem
  have hlen : (mapKeys m).length ≤ (allKinds.erase k0).length :=
    (List.subperm_of_subset hnd hsub).length_le
  rw [List.length_erase_of_mem hk0] at hlen
  have h21 : allKinds.length = 21 := by rw [allKinds_eq]; rfl
  have hm : m.length = (mapKeys m).length := by simp [mapKeys]
  have hlt : m.length < 21 := by omega
  refine ⟨m.length, hlt, ?_⟩
  have hne : ((m.length : Nat) : Int) ≠ operKindCount := by
    unfold operKindCount operKind
    omega
  have hcount : fmtInt operKindCount = "21" := by decide
  simp only [loadConfig, hrun, hne, hcount, ne_eq, not_false_eq_true, if_true]
  simp [String.append_assoc]

/-- Witness of C6: a configuration that names only create and open. -/
theorem loadConfig_incomplete_witness :
    ∃ l : Nat, l < 21 ∧
      loadConfig (.ok (some [("create", 5), ("open", 3)]))
        = some (.error (fmtErrorf
            ("loadConfig: incomplete probabilities: " ++ fmtInt l ++ "/21"))) :=
  loadConfig_incomplete [("create", 5), ("open", 3)] (by decide)
    ⟨operSeek, by decide, by decide⟩

/-! ## C7: the invariant of the hash periods -/

/-- C7: `hashPeriods.Set` keeps the invariant "hashMetadata > 0, hashContents > 0 and
hashContents is a multiple of hashMetadata": for every value that satisfies it and every
string `s`, the value after `Set(s)` satisfies it; when `Set` returns an error the value is
unchanged, and when it succeeds the value holds the two integers parsed from the two
comma-separated parts of `s`. -/
theorem hashPeriods_Set_valid (p : hashPeriods) (s : String) (hp : p.valid) :
    (p.Set s).1.valid ∧
    ((p.Set s).2 ≠ none → (p.Set s).1 = p) ∧
    ((p.Set s).2 = none → ∃ a b : List Char, splitComma s.toList = [a, b] ∧
      Atoi a = .ok (p.Set s).1.hashMetadata ∧ Atoi b = .ok (p.Set s).1.hashContents) := by
  unfold hashPeriods.Set
  by_cases hlen : (splitComma s.toList).length ≠ 2
  · rw [if_pos hlen]
    exact ⟨hp, fun _ => rfl, fun h => absurd h (by simp)⟩
  · rw [if_neg hlen]
    push_neg at hlen
    obtain ⟨a, b, hab⟩ := List.length_eq_two.1 hlen
    simp only [hab, List.getD_cons_zero, List.getD_cons_succ]
    cases ha : Atoi a with
    | error err => exact ⟨hp, fun _ => rfl, fun h => absurd h (by simp)⟩
    | ok metadata =>
      cases hb : Atoi b with
      | error err => exact ⟨hp, fun _ => rfl, fun h => absurd h (by simp)⟩
      | ok contents =>
        by_cases hpos : metadata ≤ 0 ∨ contents ≤ 0
        · simp only [if_pos hpos]
          exact ⟨hp, by simp, by simp⟩
        · simp only [if_neg hpos]
          by_cases hmod : Int.tmod contents metadata ≠ 0
          · simp only [if_pos hmod]
            exact ⟨hp, by simp, by simp⟩
          · simp only [if_neg hmod]
            push_neg at hpos hmod
            exact ⟨⟨hpos.1, hpos.2, Int.dvd_of_tmod_eq_zero hmod⟩,
              fun h => absurd rfl h, fun _ => ⟨a, b, rfl, ha, hb⟩⟩

/-- Witness of C7: the default periods 1,250 satisfy the invariant, and `Set("2,50")`
succeeds on them. -/
theorem hashPeriods_Set_valid_witness :
    defaultPeriods.valid ∧ defaultPeriods.Set "2,50" = ({ hashMetadata := 2, hashContents := 50 }, none) ∧
    (defaultPeriods.Set "2,50").1.valid ∧
    ((defaultPeriods.Set "2,50").2 ≠ none → (defaultPeriods.Set "2,50").1 = defaultPeriods) ∧
    ((defaultPeriods.Set "2,50").2 = none → ∃ a b : List Char,
      splitComma "2,50".toList = [a, b] ∧
      Atoi a = .ok (defaultPeriods.Set "2,50").1.hashMetadata ∧
      Atoi b = .ok (defaultPeriods.Set "2,50").1.hashContents) :=
  ⟨by decide, by decide,
    hashPeriods_Set_valid defaultPeriods "2,50" (by decide)⟩

/-! ## C8, C9, C10: comparison of the recorded outputs -/

/-- C8: for every operation of kind rename2 or unlink2 and every pair of recorded errors,
`errorsMatch` returns true if and only if both sides failed or both sides succeeded; the
error values themselves are never compared: replacing them by any other error values
does not change the result. -/
theorem errorsMatch_relaxed (op : oper) (h : op.code = operRename2 ∨ op.code = operUnlink2) :
    (op.errorsMatch = true ↔
      (op.suterr ≠ none ∧ op.referr ≠ none) ∨ (op.suterr = none ∧ op.referr = none)) ∧
    ∀ e1 e2 : goError,
      oper.errorsMatch { op with suterr := op.suterr.map (fun _ => e1),
                                 referr := op.referr.map (fun _ => e2) }
        = op.errorsMatch := by
  constructor
  · unfold oper.errorsMatch
    rw [if_pos h]
    cases op.suterr <;> cases op.referr <;> simp
  · intro e1 e2
    unfold oper.errorsMatch
    simp only [if_pos h]
    cases op.suterr <;> cases op.referr <;> simp

/-- Witness of C8: a rename2 that failed with different errors on the two sides. -/
theorem errorsMatch_relaxed_witness :
    ((operOf operRename2 (some (fmtErrorf "device or resource busy"))
        (some (fmtErrorf "no such file or directory"))).errorsMatch = true ↔
      ((operOf operRename2 (some (fmtErrorf "device or resource busy"))
          (some (fmtErrorf "no such file or directory"))).suterr ≠ none ∧
        (operOf operRename2 (some (fmtErrorf "device or resource busy"))
          (some (fmtErrorf "no such file or directory"))).referr ≠ none) ∨
      ((operOf operRename2 (some (fmtErrorf "device or resource busy"))
          (some (fmtErrorf "no such file or directory"))).suterr = none ∧
        (operOf operRename2 (some (fmtErrorf "device or resource busy"))
          (some (fmtErrorf "no such file or directory"))).referr = none)) :=
  (errorsMatch_relaxed (operOf operRename2 (some (fmtErrorf "device or resource busy"))
    (some (fmtErrorf "no such file or directory"))) (Or.inl rfl)).1

/-- The method `errorsMatch` itself does not unwrap: on a record whose error on the tested
side wraps the error of the reference side it returns false.  Such a record is not one
that `oper.run` produces for a create, whose two errors are `syscall.Errno` values. -/
theorem errorsMatch_does_not_unwrap :
    (operOf operCreate
        (some (wrapError "open alfa" (fmtErrorf "no such file or directory")))
        (some (fmtErrorf "no such file or directory"))).errorsMatch = false ∧
    (wrapError "open alfa" (fmtErrorf "no such file or directory")).rootCause.Error
      = (fmtErrorf "no such file or directory").rootCause.Error ∧
    (operOf operCreate
        (some (wrapError "open alfa" (fmtErrorf "no such file or directory")))
        (some (fmtErrorf "no such file or directory"))).recorded = false := by
  decide

/-- For every operation of a kind other than rename2, unlink2 and seek, `errorsMatch`
returns true if and only if both sides succeeded, or both sides failed and the messages of
the two errors, as they stand in the record, are string-equal. -/
theorem errorsMatch_strict (op : oper) (h1 : op.code ≠ operRename2)
    (h2 : op.code ≠ operUnlink2) (h3 : op.code ≠ operSeek) :
    op.errorsMatch = true ↔
      (op.suterr = none ∧ op.referr = none) ∨
      ∃ suterr referr : goError, op.suterr = some suterr ∧ op.referr = some referr ∧
        suterr.Error = referr.Error := by
  unfold oper.errorsMatch
  have h12 : ¬ (op.code = operRename2 ∨ op.code = operUnlink2) := by tauto
  have h3' : ¬ (op.code = operSeek ∧ op.suterr.isNone ∧ op.referr.isSome
      ∧ op.referr.map goError.Error = some "invalid argument") := fun h => h3 h.1
  rw [if_neg h12, if_neg h3']
  cases op.suterr <;> cases op.referr <;> simp

/-- An error that wraps nothing is its own innermost cause. -/
theorem rootCause_of_isErrno (e : goError) (h : isErrno (some e) = true) : e.rootCause = e := by
  cases e with
  | mk msg chain =>
    simp only [isErrno, List.isEmpty_iff] at h
    subst h
    rfl

/-- C9: for every operation of a kind other than rename2, unlink2 and seek, with the errors
that `oper.run` records for it, `errorsMatch` returns true if and only if both sides
succeeded, or both sides failed and the messages of their innermost causes (each error
unwrapped through its whole wrapped chain) are string-equal. -/
theorem errorsMatch_innermost (op : oper) (hrec : op.recorded = true)
    (h1 : op.code ≠ operRename2) (h2 : op.code ≠ operUnlink2) (h3 : op.code ≠ operSeek) :
    op.errorsMatch = true ↔
      (op.suterr = none ∧ op.referr = none) ∨
      ∃ suterr referr : goError, op.suterr = some suterr ∧ op.referr = some referr ∧
        suterr.rootCause.Error = referr.rootCause.Error := by
  rw [errorsMatch_strict op h1 h2 h3]
  unfold oper.recorded at hrec
  by_cases hsys : op.code ∈ [operCreate, operOpen, operSeek, operRead, operWrite, operClose,
      operUnlink1, operTruncate, operFtruncate, operMkdir, operRmdir, operRename1, operChdir]
  · rw [if_pos hsys, Bool.and_eq_true] at hrec
    constructor
    · rintro (hnone | ⟨s, r, hs, hr, hmsg⟩)
      · exact Or.inl hnone
      · refine Or.inr ⟨s, r, hs, hr, ?_⟩
        rw [rootCause_of_isErrno s (hs ▸ hrec.1), rootCause_of_isErrno r (hr ▸ hrec.2)]
        exact hmsg
    · rintro (hnone | ⟨s, r, hs, hr, hmsg⟩)
      · exact Or.inl hnone
      · refine Or.inr ⟨s, r, hs, hr, ?_⟩
        rw [rootCause_of_isErrno s (hs ▸ hrec.1), rootCause_of_isErrno r (hr ▸ hrec.2)] at hmsg
        exact hmsg
  · rw [if_neg hsys, if_neg h2, if_neg h1] at hrec
    have href : op.referr = none := by
      by_cases hm : op.code ∈ [operMuscleFlush, operMusclePush, operMuscleRemount,
          operMusclePruneCache, operMuscleTrim, operSwapClients]
      · rw [if_pos hm] at hrec
        exact Option.isNone_iff_eq_none.mp hrec
      · rw [if_neg hm] at hrec
        exact absurd hrec (by simp)
    constructor
    · rintro (hnone | ⟨s, r, _, hr, _⟩)
      · exact Or.inl hnone
      · rw [href] at hr
        exact absurd hr (by simp)
    · rintro (hnone | ⟨s, r, _, hr, _⟩)
      · exact Or.inl hnone
      · rw [href] at hr
        exact absurd hr (by simp)

/-- Witness of C9: a mkdir that failed with the same `syscall.Errno` on both sides. -/
theorem errorsMatch_innermost_witness :
    (operOf operMkdir (some (fmtErrorf "file exists")) (some (fmtErrorf "file exists"))).errorsMatch
        = true ↔
      ((operOf operMkdir (some (fmtErrorf "file exists"))
          (some (fmtErrorf "file exists"))).suterr = none ∧
        (operOf operMkdir (some (fmtErrorf "file exists"))
          (some (fmtErrorf "file exists"))).referr = none) ∨
      ∃ suterr referr : goError,
        (operOf operMkdir (some (fmtErrorf "file exists"))
          (some (fmtErrorf "file exists"))).suterr = some suterr ∧
        (operOf operMkdir (some (fmtErrorf "file exists"))
          (some (fmtErrorf "file exists"))).referr = some referr ∧
        suterr.rootCause.Error = referr.rootCause.Error :=
  errorsMatch_innermost (operOf operMkdir (some (fmtErrorf "file exists"))
    (some (fmtErrorf "file exists"))) (by decide) (by decide) (by decide) (by decide)

/-- C10: for every read operation that succeeded on both sides, `outputsMatch` returns
(it does not panic), and it reports a match if and only if the two byte counts are equal
and the two read buffers are equal byte for byte. -/
theorem outputsMatch_read (op : oper) (env : stagingChecks) (hcode : op.code = operRead)
    (hsut : op.suterr = none) (href : op.referr = none) :
    op.outputsMatch env ≠ none ∧
    (op.outputsMatch env = some none ↔ op.sutn = op.refn ∧ op.sutbuf = op.refbuf) := by
  have hmatch : op.errorsMatch = true := by
    unfold oper.errorsMatch
    simp [hcode, hsut, href, operRead, operRename2, operUnlink2, operSeek]
  unfold oper.outputsMatch
  simp only [hmatch, href, hcode, operRead, operCreate, operOpen, operSeek, bytesEqual]
  by_cases hn : op.sutn = op.refn
  · by_cases hb : op.sutbuf = op.refbuf
    · simp [hn, hb]
    · simp [hn, hb]
  · simp [hn]

/-- Witness of C10: a read that returned the same three bytes on both sides. -/
theorem outputsMatch_read_witness :
    oper.outputsMatch { operOf operRead none none with
        sutn := 3, refn := 3, sutbuf := [104, 105, 33], refbuf := [104, 105, 33] }
      ⟨none, none, none⟩ ≠ none ∧
    (oper.outputsMatch { operOf operRead none none with
        sutn := 3, refn := 3, sutbuf := [104, 105, 33], refbuf := [104, 105, 33] }
      ⟨none, none, none⟩ = some none ↔
      (3 : Int) = 3 ∧ ([104, 105, 33] : List UInt8) = [104, 105, 33]) :=
  outputsMatch_read { operOf operRead none none with
      sutn := 3, refn := 3, sutbuf := [104, 105, 33], refbuf := [104, 105, 33] }
    ⟨none, none, none⟩ rfl rfl rfl

/-! ## Sets of strings: basic facts -/

theorem mem_setInsert (m : stringSet) (p x : String) :
    x ∈ setInsert m p ↔ x = p ∨ x ∈ m := by
  unfold setInsert
  by_cases h : p ∈ m
  · rw [if_pos h]
    constructor
    · exact fun hx => Or.inr hx
    · rintro (hx | hx)
      · exact hx ▸ h
      · exact hx
  · rw [if_neg h]
    simp only [List.mem_append, List.mem_singleton]
    tauto

theorem mem_setDelete (m : stringSet) (p x : String) :
    x ∈ setDelete m p ↔ x ∈ m ∧ x ≠ p := by
  unfold setDelete
  simp

theorem nodup_setInsert (m : stringSet) (p : String) (h : m.Nodup) :
    (setInsert m p).Nodup := by
  unfold setInsert
  by_cases hp : p ∈ m
  · rw [if_pos hp]
    exact h
  · rw [if_neg hp]
    exact List.Nodup.append h (List.nodup_singleton p) (by simpa using hp)

theorem nodup_setDelete (m : stringSet) (p : String) (h : m.Nodup) :
    (setDelete m p).Nodup :=
  List.Nodup.filter _ h

/-! ## C11: an operation that failed on the reference -/

/-- C11: for each of the 21 operation kinds and every virtual state, if the operation
failed on the reference (referr is not nil) and its outputs match, `operSeq.run` returns
without error and leaves existingDirs, existingFiles, openOpers and cwdpath unchanged (as
well as maxOpers and ranges); it increments the operation counter and, for chdir only,
stores the two recorded handles in sutcwd and refcwd. -/
theorem run_failed_on_reference (seq : operSeq) (op : oper) (close : Int → Option goError)
    (firstWalk secondWalk : Option goError) (iterDirs iterFiles : setIter)
    (hkind : op.code ∈ allKinds) (hfail : op.referr ≠ none)
    (hmatch : op.outputsMatch
      { firstWalk := firstWalk, closeAll := (seq.closeAll close).2, secondWalk := secondWalk }
      = some none) :
    ∃ seq' : operSeq,
      seq.run op close firstWalk secondWalk iterDirs iterFiles = some (seq', none) ∧
      seq'.existingDirs = seq.existingDirs ∧ seq'.existingFiles = seq.existingFiles ∧
      seq'.openOpers = seq.openOpers ∧ seq'.cwdpath = seq.cwdpath ∧
      seq'.maxOpers = seq.maxOpers ∧ seq'.ranges = seq.ranges ∧
      seq'.opersDone = wrapInt32 (seq.opersDone + 1) ∧
      (op.code ≠ operChdir → seq'.sutcwd = seq.sutcwd ∧ seq'.refcwd = seq.refcwd) ∧
      (op.code = operChdir → seq'.sutcwd = op.sutfd ∧ seq'.refcwd = op.reffd) := by
  have hsome : op.referr.isNone = false := by
    cases h : op.referr with
    | none => exact absurd h hfail
    | some e => rfl
  unfold operSeq.run
  simp only [hmatch, hsome, Bool.and_false, Bool.false_and, Bool.false_eq_true, if_false]
  rw [allKinds_eq] at hkind
  simp only [List.mem_cons, List.mem_singleton, List.not_mem_nil, or_false] at hkind
  rcases hkind with h | h | h | h | h | h | h | h | h | h | h | h | h | h | h | h | h | h | h
    | h | h <;>
  simp [operSeq.bookkeeping, operSeq.countOper, h, hfail, operCreate, operOpen, operSeek,
    operRead, operWrite, operClose, operUnlink1, operUnlink2, operTruncate, operFtruncate,
    operMkdir, operRmdir, operRename1, operRename2, operChdir, operMuscleFlush,
    operMusclePush, operMuscleRemount, operMusclePruneCache, operMuscleTrim, operSwapClients]

/-- Witness of C11: a mkdir that failed with "file exists" on both sides. -/
theorem run_failed_on_reference_witness :
    ∃ seq' : operSeq,
      operSeq.run
        { opersDone := 7, maxOpers := 100, ranges := [], sutcwd := 3, refcwd := 4,
          cwdpath := "alfa", existingDirs := ["alfa"], existingFiles := ["bravo"],
          openOpers := [] }
        { operOf operMkdir (some (fmtErrorf "file exists")) (some (fmtErrorf "file exists"))
          with pathname := "alfa" }
        (fun _ => none) none none id id = some (seq', none) ∧
      seq'.existingDirs = ["alfa"] ∧ seq'.existingFiles = ["bravo"] ∧
      seq'.openOpers = [] ∧ seq'.cwdpath = "alfa" ∧
      seq'.maxOpers = 100 ∧ seq'.ranges = [] ∧
      seq'.opersDone = wrapInt32 (7 + 1) ∧
      (operMkdir ≠ operChdir → seq'.sutcwd = 3 ∧ seq'.refcwd = 4) ∧
      (operMkdir = operChdir → seq'.sutcwd = 0 ∧ seq'.refcwd = 0) :=
  run_failed_on_reference
    { opersDone := 7, maxOpers := 100, ranges := [], sutcwd := 3, refcwd := 4,
      cwdpath := "alfa", existingDirs := ["alfa"], existingFiles := ["bravo"],
      openOpers := [] }
    { operOf operMkdir (some (fmtErrorf "file exists")) (some (fmtErrorf "file exists"))
      with pathname := "alfa" }
    (fun _ => none) none none id id (by decide) (by decide) (by decide)

/-! ## C12: disjointness of the two sets -/

theorem deleteLoop_eq (p : String) (visited : List String) :
    ∀ acc : stringSet,
      visited.foldl (fun acc d => if hasPrefix d p then setDelete acc d else acc) acc
        = acc.filter (fun x => !(decide (x ∈ visited) && hasPrefix x p)) := by
  induction visited with
  | nil => intro acc; simp
  | cons d t ih =>
    intro acc
    rw [List.foldl_cons, ih]
    by_cases hd : hasPrefix d p = true
    · rw [if_pos hd]
      unfold setDelete
      rw [List.filter_filter]
      apply List.filter_congr
      intro x _
      by_cases hx : x = d
      · subst hx
        simp [hd]
      · simp [hx]
    · rw [if_neg hd]
      apply List.filter_congr
      intro x _
      by_cases hx : x = d
      · subst hx
        simp [hd]
      · simp [hx]

/-- The loop of the unlink2 bookkeeping removes exactly the elements that have the prefix,
whatever the order in which the set is visited. -/
theorem deleteWithPrefix_eq (iter : setIter) (hiter : isSetIter iter) (m : stringSet)
    (p : String) : deleteWithPrefix iter m p = m.filter (fun x => !hasPrefix x p) := by
  unfold deleteWithPrefix
  rw [deleteLoop_eq]
  apply List.filter_congr
  intro x hx
  have : x ∈ iter m := (hiter m).mem_iff.2 hx
  simp [this]

/-- Every element that the loops of the rename2 bookkeeping leave in a set was there
before or is the rewritten form of an element visited. -/
theorem moveLoop_mem (rw : String → String) (visited : List String) :
    ∀ (acc : stringSet) (x : String),
      x ∈ visited.foldl (fun acc f => setInsert (setDelete acc f) (rw f)) acc →
      x ∈ acc ∨ ∃ f ∈ visited, x = rw f := by
  induction visited with
  | nil => intro acc x hx; exact Or.inl hx
  | cons f t ih =>
    intro acc x hx
    rw [List.foldl_cons] at hx
    rcases ih _ x hx with h | ⟨g, hg, hxg⟩
    · rcases (mem_setInsert _ _ _).1 h with h1 | h1
      · exact Or.inr ⟨f, List.mem_cons_self _ _, h1⟩
      · exact Or.inl ((mem_setDelete _ _ _).1 h1).1
    · exact Or.inr ⟨g, List.mem_cons_of_mem _ hg, hxg⟩

theorem mem_moveWithPrefix (iter : setIter) (hiter : isSetIter iter) (m : stringSet)
    (old new x : String) (hx : x ∈ moveWithPrefix iter m old new) :
    x ∈ m ∨ ∃ f ∈ m, hasPrefix f old = true ∧ x = new ++ sliceFrom f old := by
  unfold moveWithPrefix at hx
  rcases moveLoop_mem (fun f => new ++ sliceFrom f old) _ m x hx with h | ⟨f, hf, hxf⟩
  · exact Or.inl h
  · obtain ⟨hfm, hfp⟩ := List.mem_filter.1 hf
    exact Or.inr ⟨f, (hiter m).mem_iff.1 hfm, hfp, hxf⟩

theorem hasPrefix_self (p : String) : hasPrefix p p = true := by
  unfold hasPrefix
  simp

theorem sliceFrom_self (p : String) : sliceFrom p p = "" := by
  unfold sliceFrom
  apply String.ext
  simp

theorem sliceFrom_inj (old a b : String) (ha : hasPrefix a old = true)
    (hb : hasPrefix b old = true) (h : sliceFrom a old = sliceFrom b old) : a = b := by
  unfold hasPrefix at ha hb
  unfold sliceFrom at h
  obtain ⟨sa, hsa⟩ := List.isPrefixOf_iff_prefix.1 ha
  obtain ⟨sb, hsb⟩ := List.isPrefixOf_iff_prefix.1 hb
  have h' : a.data.drop old.data.length = b.data.drop old.data.length := by
    injection h
  rw [← hsa, ← hsb, List.drop_left, List.drop_left] at h'
  apply String.ext
  rw [← hsa, ← hsb, h']

theorem append_sliceFrom_inj (old new a b : String) (ha : hasPrefix a old = true)
    (hb : hasPrefix b old = true) (h : new ++ sliceFrom a old = new ++ sliceFrom b old) :
    a = b := by
  apply sliceFrom_inj old a b ha hb
  have h' := congrArg String.data h
  simp only [String.data_append] at h'
  exact String.ext (List.append_cancel_left h')

/-- C12 (as stated) fails: the bookkeeping adds the path of every successful create or
open to existingFiles without looking at existingDirs.  After the successful open of the
tracked directory "alfa" the path is in both sets.  In the same way a successful mkdir of
a tracked file, and a successful rename1 of a tracked file onto a tracked directory, leave
a path in both sets. -/
theorem bookkeeping_breaks_disjointness :
    List.Disjoint (trackedState ["alfa"] []).existingDirs
      (trackedState ["alfa"] []).existingFiles ∧
    (operSeq.run (trackedState ["alfa"] [])
        { operOf operOpen none none with pathname := "alfa", sutfd := 5, reffd := 6 }
        (fun _ => none) none none id id).map
      (fun r => (r.1.existingDirs, r.1.existingFiles, r.2)) = some (["alfa"], ["alfa"], none) ∧
    List.Disjoint (trackedState ["alfa"] ["bravo"]).existingDirs
      (trackedState ["alfa"] ["bravo"]).existingFiles ∧
    (operSeq.bookkeeping (trackedState ["alfa"] ["bravo"])
        { operOf operMkdir none none with pathname := "bravo" } id id).map
      (fun s => (s.existingDirs, s.existingFiles)) = some (["alfa", "bravo"], ["bravo"]) ∧
    (operSeq.bookkeeping (trackedState ["alfa"] ["bravo"])
        { operOf operRename1 none none with pathname := "bravo", newpathname := "alfa" }
        id id).map
      (fun s => (s.existingDirs, s.existingFiles)) = some (["alfa"], ["alfa"]) := by
  refine ⟨by simp [trackedState], by decide, by simp [trackedState], by decide, by decide⟩

theorem disjoint_insert_left (a b : stringSet) (p : String) (h : List.Disjoint a b)
    (hp : p ∉ b) : List.Disjoint (setInsert a p) b := by
  intro x hxa hxb
  rcases (mem_setInsert a p x).1 hxa with h1 | h1
  · exact hp (h1 ▸ hxb)
  · exact h h1 hxb

theorem disjoint_insert_right (a b : stringSet) (p : String) (h : List.Disjoint a b)
    (hp : p ∉ a) : List.Disjoint a (setInsert b p) := by
  intro x hxa hxb
  rcases (mem_setInsert b p x).1 hxb with h1 | h1
  · exact hp (h1 ▸ hxa)
  · exact h hxa h1

theorem disjoint_delete_left (a b : stringSet) (p : String) (h : List.Disjoint a b) :
    List.Disjoint (setDelete a p) b :=
  fun _ hxa hxb => h ((mem_setDelete a p _).1 hxa).1 hxb

theorem disjoint_delete_right (a b : stringSet) (p : String) (h : List.Disjoint a b) :
    List.Disjoint a (setDelete b p) :=
  fun _ hxa hxb => h hxa ((mem_setDelete b p _).1 hxb).1

theorem mem_deleteWithPrefix (iter : setIter) (hiter : isSetIter iter) (m : stringSet)
    (p x : String) (hx : x ∈ deleteWithPrefix iter m p) : x ∈ m := by
  rw [deleteWithPrefix_eq iter hiter] at hx
  exact (List.mem_filter.1 hx).1

/-- C12 (amended): for every virtual state in which existing_dirs and existing_files are
disjoint and every operation, the two sets are still disjoint after the bookkeeping step of
`operSeq.run`, provided that, when the operation succeeded on the reference, no path that
the step adds to one set is in the other: the path of a create or open is not in
existing_dirs, the path of a mkdir is not in existing_files, and for rename1 and rename2 no
rewritten form `new + p[len(old):]` of a path `p` tracked in one set is tracked in the
other. -/
theorem bookkeeping_keeps_disjoint (seq seq' : operSeq) (op : oper)
    (iterDirs iterFiles : setIter) (hiterD : isSetIter iterDirs) (hiterF : isSetIter iterFiles)
    (hdisj : List.Disjoint seq.existingDirs seq.existingFiles)
    (hopen : op.referr = none → op.code = operCreate ∨ op.code = operOpen →
      op.pathname ∉ seq.existingDirs)
    (hmkdir : op.referr = none → op.code = operMkdir → op.pathname ∉ seq.existingFiles)
    (hrename : op.referr = none → op.code = operRename1 ∨ op.code = operRename2 →
      (∀ p ∈ seq.existingDirs, hasPrefix p op.pathname = true →
        op.newpathname ++ sliceFrom p op.pathname ∉ seq.existingFiles) ∧
      (∀ p ∈ seq.existingFiles, hasPrefix p op.pathname = true →
        op.newpathname ++ sliceFrom p op.pathname ∉ seq.existingDirs))
    (hbk : seq.bookkeeping op iterDirs iterFiles = some seq') :
    List.Disjoint seq'.existingDirs seq'.existingFiles := by
  have hfin : ∀ s : operSeq, some s.countOper = some seq' →
      List.Disjoint s.existingDirs s.existingFiles →
      List.Disjoint seq'.existingDirs seq'.existingFiles := by
    intro s h hd
    injection h with h
    subst h
    exact hd
  unfold operSeq.bookkeeping at hbk
  by_cases h1 : op.code = operCreate ∨ op.code = operOpen
  · rw [if_pos h1] at hbk
    by_cases hr : op.referr = none
    · rw [if_pos hr] at hbk
      exact hfin _ hbk (disjoint_insert_right _ _ _ hdisj (hopen hr h1))
    · rw [if_neg hr] at hbk
      exact hfin _ hbk hdisj
  rw [if_neg h1] at hbk
  by_cases h2 : op.code = operSeek ∨ op.code = operRead ∨ op.code = operWrite
  · rw [if_pos h2] at hbk
    exact hfin _ hbk hdisj
  rw [if_neg h2] at hbk
  by_cases h3 : op.code = operClose
  · rw [if_pos h3] at hbk
    by_cases hr : op.referr = none
    · rw [if_pos hr] at hbk
      by_cases hl : seq.openOpers.length = 0
      · rw [if_pos hl] at hbk
        exact absurd hbk (by simp)
      · rw [if_neg hl] at hbk
        exact hfin _ hbk hdisj
    · rw [if_neg hr] at hbk
      exact hfin _ hbk hdisj
  rw [if_neg h3] at hbk
  by_cases h4 : op.code = operUnlink1
  · rw [if_pos h4] at hbk
    by_cases hr : op.referr = none
    · rw [if_pos hr] at hbk
      exact hfin _ hbk (disjoint_delete_right _ _ _ hdisj)
    · rw [if_neg hr] at hbk
      exact hfin _ hbk hdisj
  rw [if_neg h4] at hbk
  by_cases h5 : op.code = operUnlink2
  · rw [if_pos h5] at hbk
    by_cases hr : op.referr = none
    · rw [if_pos hr] at hbk
      refine hfin _ hbk ?_
      dsimp only
      intro x hxd hxf
      exact hdisj (mem_deleteWithPrefix iterDirs hiterD _ _ x hxd)
        (mem_deleteWithPrefix iterFiles hiterF _ _ x hxf)
    · rw [if_neg hr] at hbk
      exact hfin _ hbk hdisj
  rw [if_neg h5] at hbk
  by_cases h6 : op.code = operTruncate ∨ op.code = operFtruncate
  · rw [if_pos h6] at hbk
    exact hfin _ hbk hdisj
  rw [if_neg h6] at hbk
  by_cases h7 : op.code = operMkdir
  · rw [if_pos h7] at hbk
    by_cases hr : op.referr = none
    · rw [if_pos hr] at hbk
      exact hfin _ hbk (disjoint_insert_left _ _ _ hdisj (hmkdir hr h7))
    · rw [if_neg hr] at hbk
      exact hfin _ hbk hdisj
  rw [if_neg h7] at hbk
  by_cases h8 : op.code = operRmdir
  · rw [if_pos h8] at hbk
    by_cases hr : op.referr = none
    · rw [if_pos hr] at hbk
      exact hfin _ hbk (disjoint_delete_left _ _ _ hdisj)
    · rw [if_neg hr] at hbk
      exact hfin _ hbk hdisj
  rw [if_neg h8] at hbk
  by_cases h9 : op.code = operRename1
  · rw [if_pos h9] at hbk
    by_cases hr : op.referr = none
    swap
    · rw [if_neg hr] at hbk
      exact hfin _ hbk hdisj
    rw [if_pos hr] at hbk
    obtain ⟨hrd, hrf⟩ := hrename hr (Or.inl h9)
    refine hfin _ hbk ?_
    dsimp only
    by_cases hd : op.pathname ∈ seq.existingDirs
    · have hf : op.pathname ∉ seq.existingFiles := fun h => hdisj hd h
      have hfresh := hrd _ hd (hasPrefix_self _)
      rw [sliceFrom_self, String.append_empty] at hfresh
      rw [if_pos hd, if_neg hf]
      exact disjoint_insert_left _ _ _ (disjoint_delete_left _ _ _ hdisj) hfresh
    · rw [if_neg hd]
      by_cases hf : op.pathname ∈ seq.existingFiles
      · have hfresh := hrf _ hf (hasPrefix_self _)
        rw [sliceFrom_self, String.append_empty] at hfresh
        rw [if_pos hf]
        exact disjoint_insert_right _ _ _ (disjoint_delete_right _ _ _ hdisj) hfresh
      · rw [if_neg hf]
        exact hdisj
  rw [if_neg h9] at hbk
  by_cases h10 : op.code = operRename2
  · rw [if_pos h10] at hbk
    by_cases hr : op.referr = none
    swap
    · rw [if_neg hr] at hbk
      exact hfin _ hbk hdisj
    rw [if_pos hr] at hbk
    obtain ⟨hrd, hrf⟩ := hrename hr (Or.inr h10)
    refine hfin _ hbk ?_
    dsimp only
    intro x hxd hxf
    rcases mem_moveWithPrefix iterDirs hiterD _ _ _ x hxd with hd | ⟨d, hd, hdp, hxd'⟩
    · rcases mem_moveWithPrefix iterFiles hiterF _ _ _ x hxf with hf | ⟨f, hf, hfp, hxf'⟩
      · exact hdisj hd hf
      · exact hrf f hf hfp (hxf' ▸ hd)
    · rcases mem_moveWithPrefix iterFiles hiterF _ _ _ x hxf with hf | ⟨f, hf, hfp, hxf'⟩
      · exact hrd d hd hdp (hxd' ▸ hf)
      · have hdf : d = f :=
          append_sliceFrom_inj _ _ d f hdp hfp (hxd'.symm.trans hxf')
        exact hdisj hd (hdf ▸ hf)
  rw [if_neg h10] at hbk
  by_cases h11 : op.code = operChdir
  · rw [if_pos h11] at hbk
    exact hfin _ hbk hdisj
  rw [if_neg h11] at hbk
  by_cases h12 : op.code = operMuscleFlush ∨ op.code = operMusclePush
      ∨ op.code = operMuscleRemount ∨ op.code = operMusclePruneCache
      ∨ op.code = operMuscleTrim ∨ op.code = operSwapClients
  · rw [if_pos h12] at hbk
    exact hfin _ hbk hdisj
  rw [if_neg h12] at hbk
  exact absurd hbk (by simp)

/-- Witness of C12: the successful create of a path that is not tracked as a directory. -/
theorem bookkeeping_keeps_disjoint_witness :
    List.Disjoint
      (operSeq.countOper { trackedState ["alfa"] ["bravo"] with
        existingFiles := ["bravo", "charlie"]
        openOpers := [{ operOf operCreate none none with pathname := "charlie" }] }).existingDirs
      (operSeq.countOper { trackedState ["alfa"] ["bravo"] with
        existingFiles := ["bravo", "charlie"]
        openOpers := [{ operOf operCreate none none with pathname := "charlie" }] }).existingFiles :=
  bookkeeping_keeps_disjoint (trackedState ["alfa"] ["bravo"]) _
    { operOf operCreate none none with pathname := "charlie" } id id
    (fun m => List.Perm.refl m) (fun m => List.Perm.refl m)
    (by simp [trackedState]) (by decide) (by decide) (by decide) (by decide)

/-! ## C13: rename1 -/

/-- C13 (the code at the failing input): with existing_dirs = {charlie, charlie/delta}, the
rename1 of charlie to echo that succeeded on both sides passes the comparison of outputs,
and its bookkeeping moves only the entry charlie itself: the tracked sets become
{charlie/delta, echo}, where the stale charlie/delta remains and echo/delta is missing. -/
theorem rename1_moves_only_the_entry :
    (operSeq.run (trackedState ["charlie", "charlie/delta"] [])
        { operOf operRename1 none none with pathname := "charlie", newpathname := "echo" }
        (fun _ => none) none none id id).map
      (fun r => (r.1.existingDirs, r.1.existingFiles, r.2))
      = some (["charlie/delta", "echo"], [], none) := by
  decide

/-! ## The rename2 bookkeeping -/

/-- The bookkeeping on a record that no run produces: a rename2 of alfa to alfa/bravo
marked as successful, which the rename(2) of the reference always refuses.  The rewritten
form of a moved path is then another path still to be moved, and the result depends on the
order of the visit: with existing_dirs = {alfa, alfa/bravo} the bookkeeping yields
{alfa/bravo/bravo} when it visits alfa first, and {alfa/bravo/bravo, alfa/bravo} when it
visits alfa/bravo first. -/
theorem rename2_depends_on_order :
    isSetIter id ∧ isSetIter List.reverse ∧
    ["alfa", "alfa/bravo"].map (rewritePath "alfa" "alfa/bravo")
      = ["alfa/bravo", "alfa/bravo/bravo"] ∧
    (operSeq.bookkeeping (trackedState ["alfa", "alfa/bravo"] [])
        { operOf operRename2 none none with pathname := "alfa", newpathname := "alfa/bravo" }
        id id).map (fun s => s.existingDirs) = some ["alfa/bravo/bravo"] ∧
    (operSeq.bookkeeping (trackedState ["alfa", "alfa/bravo"] [])
        { operOf operRename2 none none with pathname := "alfa", newpathname := "alfa/bravo" }
        List.reverse List.reverse).map (fun s => s.existingDirs)
      = some ["alfa/bravo/bravo", "alfa/bravo"] := by
  refine ⟨fun m => List.Perm.refl m, fun m => List.reverse_perm m, by decide, by decide,
    by decide⟩

/-- The delete-and-insert loop of the rename2 bookkeeping over distinct elements, none of
which is rewritten to another one of them: afterwards the set holds the elements that were
not visited and the rewritten forms of those visited. -/
theorem moveLoop_mem_iff (rw : String → String) (visited : List String) :
    visited.Nodup → (∀ f ∈ visited, ∀ g ∈ visited, f ≠ g → rw f ≠ g) →
    ∀ (acc : stringSet) (x : String),
      x ∈ visited.foldl (fun acc f => setInsert (setDelete acc f) (rw f)) acc ↔
        (x ∈ acc ∧ x ∉ visited) ∨ ∃ f ∈ visited, x = rw f := by
  induction visited with
  | nil => intro _ _ acc x; simp
  | cons f t ih =>
    intro hnd hfresh acc x
    obtain ⟨hft, hndt⟩ := List.nodup_cons.1 hnd
    have hfresh' : ∀ a ∈ t, ∀ b ∈ t, a ≠ b → rw a ≠ b := fun a ha b hb =>
      hfresh a (List.mem_cons_of_mem _ ha) b (List.mem_cons_of_mem _ hb)
    have hrwf : rw f ∉ t := by
      intro h
      exact hfresh f (List.mem_cons_self _ _) (rw f) (List.mem_cons_of_mem _ h)
        (fun hne => hft (hne ▸ h)) rfl
    rw [List.foldl_cons, ih hndt hfresh', mem_setInsert, mem_setDelete]
    constructor
    · rintro (⟨h1 | ⟨h1, h2⟩, h3⟩ | ⟨g, hg, hxg⟩)
      · exact Or.inr ⟨f, List.mem_cons_self _ _, h1⟩
      · refine Or.inl ⟨h1, ?_⟩
        intro h
        rcases List.mem_cons.1 h with h4 | h4
        · exact h2 h4
        · exact h3 h4
      · exact Or.inr ⟨g, List.mem_cons_of_mem _ hg, hxg⟩
    · rintro (⟨h1, h2⟩ | ⟨g, hg, hxg⟩)
      · refine Or.inl ⟨Or.inr ⟨h1, ?_⟩, ?_⟩
        · exact fun h => h2 (h ▸ List.mem_cons_self _ _)
        · exact fun h => h2 (List.mem_cons_of_mem _ h)
      · rcases List.mem_cons.1 hg with h4 | h4
        · subst h4
          exact Or.inl ⟨Or.inl hxg, hxg ▸ hrwf⟩
        · exact Or.inr ⟨g, h4, hxg⟩

/-- The rename2 bookkeeping of one set, when no rewritten path is another path to be
moved: the set becomes the image of its previous contents under the rewrite, whatever the
order of the visit. -/
theorem mem_moveWithPrefix_iff (iter : setIter) (hiter : isSetIter iter) (m : stringSet)
    (old new : String) (hnd : m.Nodup)
    (hfresh : ∀ p ∈ m, hasPrefix p old = true → ∀ q ∈ m, hasPrefix q old = true → p ≠ q →
      new ++ sliceFrom p old ≠ q) (x : String) :
    x ∈ moveWithPrefix iter m old new ↔ ∃ q ∈ m, x = rewritePath old new q := by
  have hperm := hiter m
  have hmem : ∀ y, y ∈ (iter m).filter (fun f => hasPrefix f old) ↔
      y ∈ m ∧ hasPrefix y old = true := by
    intro y
    rw [List.mem_filter, hperm.mem_iff]
  unfold moveWithPrefix
  rw [moveLoop_mem_iff (fun f => new ++ sliceFrom f old) _
    ((hperm.nodup_iff.2 hnd).filter _)
    (fun f hf g hg hne => hfresh f ((hmem f).1 hf).1 ((hmem f).1 hf).2 g ((hmem g).1 hg).1
      ((hmem g).1 hg).2 hne)]
  constructor
  · rintro (⟨h1, h2⟩ | ⟨f, hf, hxf⟩)
    · refine ⟨x, h1, ?_⟩
      have : ¬ hasPrefix x old = true := fun h => h2 ((hmem x).2 ⟨h1, h⟩)
      unfold rewritePath
      rw [if_neg this]
    · refine ⟨f, ((hmem f).1 hf).1, ?_⟩
      unfold rewritePath
      rw [if_pos ((hmem f).1 hf).2]
      exact hxf
  · rintro ⟨q, hq, hxq⟩
    unfold rewritePath at hxq
    by_cases hp : hasPrefix q old = true
    · rw [if_pos hp] at hxq
      exact Or.inr ⟨q, (hmem q).2 ⟨hq, hp⟩, hxq⟩
    · rw [if_neg hp] at hxq
      subst hxq
      exact Or.inl ⟨hq, fun h => hp ((hmem x).1 h).2⟩

/-- The bookkeeping of a successful rename2(old -> new), when in neither set the rewritten
form `new + p[len(old):]` of a tracked path `p` with the prefix `old` is another tracked
path with that prefix: existing_files and existing_dirs are each exactly the image of their
previous contents under the rewrite, and cwd_path is rewritten the same way, whatever the
order in which the sets are visited. -/
theorem rename2_rewrites_sets_of_fresh (seq : operSeq) (op : oper) (iterDirs iterFiles : setIter)
    (hiterD : isSetIter iterDirs) (hiterF : isSetIter iterFiles)
    (hcode : op.code = operRename2) (hok : op.referr = none)
    (hndD : seq.existingDirs.Nodup) (hndF : seq.existingFiles.Nodup)
    (hfreshD : ∀ p ∈ seq.existingDirs, hasPrefix p op.pathname = true →
      ∀ q ∈ seq.existingDirs, hasPrefix q op.pathname = true → p ≠ q →
      op.newpathname ++ sliceFrom p op.pathname ≠ q)
    (hfreshF : ∀ p ∈ seq.existingFiles, hasPrefix p op.pathname = true →
      ∀ q ∈ seq.existingFiles, hasPrefix q op.pathname = true → p ≠ q →
      op.newpathname ++ sliceFrom p op.pathname ≠ q) :
    ∃ seq' : operSeq, seq.bookkeeping op iterDirs iterFiles = some seq' ∧
      (∀ x, x ∈ seq'.existingFiles ↔
        ∃ q ∈ seq.existingFiles, x = rewritePath op.pathname op.newpathname q) ∧
      (∀ x, x ∈ seq'.existingDirs ↔
        ∃ q ∈ seq.existingDirs, x = rewritePath op.pathname op.newpathname q) ∧
      seq'.cwdpath = rewritePath op.pathname op.newpathname seq.cwdpath := by
  refine ⟨operSeq.countOper { seq with
      cwdpath := rewritePath op.pathname op.newpathname seq.cwdpath
      existingFiles := moveWithPrefix iterFiles seq.existingFiles op.pathname op.newpathname
      existingDirs := moveWithPrefix iterDirs seq.existingDirs op.pathname op.newpathname },
    ?_, ?_, ?_, rfl⟩
  · unfold operSeq.bookkeeping
    simp [hcode, hok, rewritePath, operCreate, operOpen, operSeek, operRead, operWrite,
      operClose, operUnlink1, operUnlink2, operTruncate, operFtruncate, operMkdir, operRmdir,
      operRename1, operRename2]
  · intro x
    exact mem_moveWithPrefix_iff iterFiles hiterF _ _ _ hndF hfreshF x
  · intro x
    exact mem_moveWithPrefix_iff iterDirs hiterD _ _ _ hndD hfreshD x

/-! ## C15: unlink2 -/

/-- C15: after the bookkeeping of a successful unlink2(P), whatever the order in which the
sets are visited, existing_dirs and existing_files contain exactly their previous entries
that do not have the string P as a prefix, and openOpers and cwdpath are unchanged. -/
theorem unlink2_removes_prefixed (seq : operSeq) (op : oper) (iterDirs iterFiles : setIter)
    (hiterD : isSetIter iterDirs) (hiterF : isSetIter iterFiles)
    (hcode : op.code = operUnlink2) (hok : op.referr = none) :
    ∃ seq' : operSeq, seq.bookkeeping op iterDirs iterFiles = some seq' ∧
      seq'.existingDirs = seq.existingDirs.filter (fun d => !hasPrefix d op.pathname) ∧
      seq'.existingFiles = seq.existingFiles.filter (fun f => !hasPrefix f op.pathname) ∧
      seq'.openOpers = seq.openOpers ∧ seq'.cwdpath = seq.cwdpath := by
  refine ⟨operSeq.countOper { seq with
      existingDirs := deleteWithPrefix iterDirs seq.existingDirs op.pathname
      existingFiles := deleteWithPrefix iterFiles seq.existingFiles op.pathname },
    ?_, deleteWithPrefix_eq iterDirs hiterD _ _, deleteWithPrefix_eq iterFiles hiterF _ _,
    rfl, rfl⟩
  unfold operSeq.bookkeeping
  simp [hcode, hok, operCreate, operOpen, operSeek, operRead, operWrite, operClose,
    operUnlink1, operUnlink2]

/-- Witness of C15: unlink2 of "alfa" removes the tracked "alfa", "alfa/bravo" and also
"alfabet", and keeps "bravo". -/
theorem unlink2_removes_prefixed_witness :
    (∃ seq' : operSeq,
      operSeq.bookkeeping (trackedState ["alfa", "alfabet", "bravo"] ["alfa/bravo"])
        { operOf operUnlink2 none none with pathname := "alfa" }
        List.reverse List.reverse = some seq' ∧
      seq'.existingDirs = (trackedState ["alfa", "alfabet", "bravo"]
        ["alfa/bravo"]).existingDirs.filter (fun d => !hasPrefix d "alfa") ∧
      seq'.existingFiles = (trackedState ["alfa", "alfabet", "bravo"]
        ["alfa/bravo"]).existingFiles.filter (fun f => !hasPrefix f "alfa") ∧
      seq'.openOpers = [] ∧ seq'.cwdpath = "") ∧
    (trackedState ["alfa", "alfabet", "bravo"] ["alfa/bravo"]).existingDirs.filter
      (fun d => !hasPrefix d "alfa") = ["bravo"] :=
  ⟨unlink2_removes_prefixed (trackedState ["alfa", "alfabet", "bravo"] ["alfa/bravo"])
    { operOf operUnlink2 none none with pathname := "alfa" }
    List.reverse List.reverse (fun m => List.reverse_perm m) (fun m => List.reverse_perm m)
    rfl rfl, by decide⟩

/-! ## C19: the precondition of opencwds -/

/-- C19 (as stated) fails: with sutcwd = -1 and refcwd = 5 (and with sutcwd = 5 and
refcwd = -1), even when the two directories can be opened, `opencwds` returns the error
"not both closed" and leaves the state as it is. -/
theorem opencwds_half_open_example :
    operSeq.opencwds { trackedState [] [] with sutcwd := -1, refcwd := 5 } "/mnt" "/ref"
        (fun _ => .ok 7)
      = ({ trackedState [] [] with sutcwd := -1, refcwd := 5 },
        some (fmtErrorf "operSeq.opencwds: not both closed sutcwd=-1 refcwd=5")) ∧
    operSeq.opencwds { trackedState [] [] with sutcwd := 5, refcwd := -1 } "/mnt" "/ref"
        (fun _ => .ok 7)
      = ({ trackedState [] [] with sutcwd := 5, refcwd := -1 },
        some (fmtErrorf "operSeq.opencwds: not both closed sutcwd=5 refcwd=-1")) := by
  decide

/-- C19 (amended): the precondition check of `opencwds` rejects the half-open state: for
every state in which at least one of sutcwd and refcwd is not -1, in particular when
exactly one of them is -1, `opencwds` opens nothing, leaves the state unchanged and fails
with the "not both closed" error. -/
theorem opencwds_rejects_half_open (seq : operSeq) (mnt refDir : String)
    (openDir : String → Except goError Int)
    (hopen : seq.sutcwd ≠ -1 ∨ seq.refcwd ≠ -1) :
    seq.opencwds mnt refDir openDir
      = (seq, some (fmtErrorf ("operSeq.opencwds: not both closed sutcwd="
          ++ fmtInt seq.sutcwd ++ " refcwd=" ++ fmtInt seq.refcwd))) := by
  unfold operSeq.opencwds
  rw [if_pos hopen]

/-- Witness of C19: the half-open state with sutcwd = -1 and refcwd = 5. -/
theorem opencwds_rejects_half_open_witness :
    operSeq.opencwds { trackedState [] [] with sutcwd := -1, refcwd := 5 } "/mnt" "/ref"
        (fun _ => .ok 7)
      = ({ trackedState [] [] with sutcwd := -1, refcwd := 5 },
        some (fmtErrorf ("operSeq.opencwds: not both closed sutcwd="
          ++ fmtInt (-1) ++ " refcwd=" ++ fmtInt 5))) :=
  opencwds_rejects_half_open { trackedState [] [] with sutcwd := -1, refcwd := 5 }
    "/mnt" "/ref" (fun _ => .ok 7) (Or.inr (by decide))

/-! ## C16: the parent of a generated operation -/

theorem pickParent_mem (seq : operSeq) (rnd : randSource) (h : ¬ seq.openOpers.length = 0) :
    ∃ o ∈ seq.openOpers, seq.pickParent rnd = some o.id := by
  have hlt : rnd.Intn seq.openOpers.length < seq.openOpers.length :=
    Nat.mod_lt _ (Nat.pos_of_ne_zero h)
  refine ⟨seq.openOpers[rnd.Intn seq.openOpers.length], List.getElem_mem _, ?_⟩
  unfold operSeq.pickParent
  rw [List.getElem?_eq_getElem hlt]
  rfl

/-- One pass through the body of `nextOper` that ends with an operation: its parent is an
open operation when its kind works on a handle, and nil otherwise. -/
theorem tryOper_parent (seq : operSeq) (rnd rnd' : randSource) (op : oper)
    (h : seq.tryOper rnd = .ready op rnd') :
    (op.code = operSeek ∨ op.code = operRead ∨ op.code = operWrite ∨ op.code = operClose
        ∨ op.code = operFtruncate → ∃ o ∈ seq.openOpers, op.parent = some o.id) ∧
    (¬ (op.code = operSeek ∨ op.code = operRead ∨ op.code = operWrite ∨ op.code = operClose
        ∨ op.code = operFtruncate) → op.parent = none) := by
  unfold operSeq.tryOper at h
  cases hk : randomOperKind seq.ranges (rnd.Intn 100) with
  | none =>
    rw [hk] at h
    exact absurd h (by simp)
  | some code =>
  rw [hk] at h
  dsimp only at h
  by_cases hc : code = operCreate
  · rw [if_pos hc] at h
    injection h with h1 h2
    subst h1
    refine ⟨fun hp => ?_, fun _ => rfl⟩
    simp [operOf, hc, operCreate, operOpen, operSeek, operRead, operWrite, operClose,
      operUnlink1, operUnlink2, operTruncate, operFtruncate, operMkdir, operRmdir, operRename1,
      operRename2, operChdir, operMuscleFlush, operMusclePush, operMuscleRemount,
      operMusclePruneCache, operMuscleTrim, operSwapClients] at hp
  rw [if_neg hc] at h
  clear hc
  by_cases hc : code = operOpen
  · rw [if_pos hc] at h
    injection h with h1 h2
    subst h1
    refine ⟨fun hp => ?_, fun _ => rfl⟩
    simp [operOf, hc, operCreate, operOpen, operSeek, operRead, operWrite, operClose,
      operUnlink1, operUnlink2, operTruncate, operFtruncate, operMkdir, operRmdir, operRename1,
      operRename2, operChdir, operMuscleFlush, operMusclePush, operMuscleRemount,
      operMusclePruneCache, operMuscleTrim, operSwapClients] at hp
  rw [if_neg hc] at h
  clear hc
  by_cases hc : code = operSeek
  · rw [if_pos hc] at h
    by_cases hl : seq.openOpers.length = 0
    · rw [if_pos hl] at h
      exact absurd h (by simp)
    rw [if_neg hl] at h
    injection h with h1 h2
    subst h1
    refine ⟨fun _ => pickParent_mem seq _ hl, fun hn => ?_⟩
    simp [operOf, hc, operCreate, operOpen, operSeek, operRead, operWrite, operClose,
      operUnlink1, operUnlink2, operTruncate, operFtruncate, operMkdir, operRmdir, operRename1,
      operRename2, operChdir, operMuscleFlush, operMusclePush, operMuscleRemount,
      operMusclePruneCache, operMuscleTrim, operSwapClients] at hn
  rw [if_neg hc] at h
  clear hc
  by_cases hc : code = operRead
  · rw [if_pos hc] at h
    by_cases hl : seq.openOpers.length = 0
    · rw [if_pos hl] at h
      exact absurd h (by simp)
    rw [if_neg hl] at h
    injection h with h1 h2
    subst h1
    refine ⟨fun _ => pickParent_mem seq _ hl, fun hn => ?_⟩
    simp [operOf, hc, operCreate, operOpen, operSeek, operRead, operWrite, operClose,
      operUnlink1, operUnlink2, operTruncate, operFtruncate, operMkdir, operRmdir, operRename1,
      operRename2, operChdir, operMuscleFlush, operMusclePush, operMuscleRemount,
      operMusclePruneCache, operMuscleTrim, operSwapClients] at hn
  rw [if_neg hc] at h
  clear hc
  by_cases hc : code = operWrite
  · rw [if_pos hc] at h
    by_cases hl : seq.openOpers.length = 0
    · rw [if_pos hl] at h
      exact absurd h (by simp)
    rw [if_neg hl] at h
    injection h with h1 h2
    subst h1
    refine ⟨fun _ => pickParent_mem seq _ hl, fun hn => ?_⟩
    simp [operOf, hc, operCreate, operOpen, operSeek, operRead, operWrite, operClose,
      operUnlink1, operUnlink2, operTruncate, operFtruncate, operMkdir, operRmdir, operRename1,
      operRename2, operChdir, operMuscleFlush, operMusclePush, operMuscleRemount,
      operMusclePruneCache, operMuscleTrim, operSwapClients] at hn
  rw [if_neg hc] at h
  clear hc
  by_cases hc : code = operClose
  · rw [if_pos hc] at h
    by_cases hl : seq.openOpers.length = 0
    · rw [if_pos hl] at h
      exact absurd h (by simp)
    rw [if_neg hl] at h
    injection h with h1 h2
    subst h1
    refine ⟨fun _ => pickParent_mem seq _ hl, fun hn => ?_⟩
    simp [operOf, hc, operCreate, operOpen, operSeek, operRead, operWrite, operClose,
      operUnlink1, operUnlink2, operTruncate, operFtruncate, operMkdir, operRmdir, operRename1,
      operRename2, operChdir, operMuscleFlush, operMusclePush, operMuscleRemount,
      operMusclePruneCache, operMuscleTrim, operSwapClients] at hn
  rw [if_neg hc] at h
  clear hc
  by_cases hc : code = operUnlink1
  · rw [if_pos hc] at h
    injection h with h1 h2
    subst h1
    refine ⟨fun hp => ?_, fun _ => rfl⟩
    simp [operOf, hc, operCreate, operOpen, operSeek, operRead, operWrite, operClose,
      operUnlink1, operUnlink2, operTruncate, operFtruncate, operMkdir, operRmdir, operRename1,
      operRename2, operChdir, operMuscleFlush, operMusclePush, operMuscleRemount,
      operMusclePruneCache, operMuscleTrim, operSwapClients] at hp
  rw [if_neg hc] at h
  clear hc
  by_cases hc : code = operUnlink2
  · rw [if_pos hc] at h
    by_cases hl : hasPrefix seq.cwdpath (seq.randomPathname rnd.step 50 40 20).1 = true
    · rw [if_pos hl] at h
      exact absurd h (by simp)
    rw [if_neg hl] at h
    injection h with h1 h2
    subst h1
    refine ⟨fun hp => ?_, fun _ => rfl⟩
    simp [operOf, hc, operCreate, operOpen, operSeek, operRead, operWrite, operClose,
      operUnlink1, operUnlink2, operTruncate, operFtruncate, operMkdir, operRmdir, operRename1,
      operRename2, operChdir, operMuscleFlush, operMusclePush, operMuscleRemount,
      operMusclePruneCache, operMuscleTrim, operSwapClients] at hp
  rw [if_neg hc] at h
  clear hc
  by_cases hc : code = operTruncate
  · rw [if_pos hc] at h
    injection h with h1 h2
    subst h1
    refine ⟨fun hp => ?_, fun _ => rfl⟩
    simp [operOf, hc, operCreate, operOpen, operSeek, operRead, operWrite, operClose,
      operUnlink1, operUnlink2, operTruncate, operFtruncate, operMkdir, operRmdir, operRename1,
      operRename2, operChdir, operMuscleFlush, operMusclePush, operMuscleRemount,
      operMusclePruneCache, operMuscleTrim, operSwapClients] at hp
  rw [if_neg hc] at h
  clear hc
  by_cases hc : code = operFtruncate
  · rw [if_pos hc] at h
    by_cases hl : seq.openOpers.length = 0
    · rw [if_pos hl] at h
      exact absurd h (by simp)
    rw [if_neg hl] at h
    injection h with h1 h2
    subst h1
    refine ⟨fun _ => pickParent_mem seq _ hl, fun hn => ?_⟩
    simp [operOf, hc, operCreate, operOpen, operSeek, operRead, operWrite, operClose,
      operUnlink1, operUnlink2, operTruncate, operFtruncate, operMkdir, operRmdir, operRename1,
      operRename2, operChdir, operMuscleFlush, operMusclePush, operMuscleRemount,
      operMusclePruneCache, operMuscleTrim, operSwapClients] at hn
  rw [if_neg hc] at h
  clear hc
  by_cases hc : code = operMkdir
  · rw [if_pos hc] at h
    injection h with h1 h2
    subst h1
    refine ⟨fun hp => ?_, fun _ => rfl⟩
    simp [operOf, hc, operCreate, operOpen, operSeek, operRead, operWrite, operClose,
      operUnlink1, operUnlink2, operTruncate, operFtruncate, operMkdir, operRmdir, operRename1,
      operRename2, operChdir, operMuscleFlush, operMusclePush, operMuscleRemount,
      operMusclePruneCache, operMuscleTrim, operSwapClients] at hp
  rw [if_neg hc] at h
  clear hc
  by_cases hc : code = operRmdir
  · rw [if_pos hc] at h
    injection h with h1 h2
    subst h1
    refine ⟨fun hp => ?_, fun _ => rfl⟩
    simp [operOf, hc, operCreate, operOpen, operSeek, operRead, operWrite, operClose,
      operUnlink1, operUnlink2, operTruncate, operFtruncate, operMkdir, operRmdir, operRename1,
      operRename2, operChdir, operMuscleFlush, operMusclePush, operMuscleRemount,
      operMusclePruneCache, operMuscleTrim, operSwapClients] at hp
  rw [if_neg hc] at h
  clear hc
  by_cases hc : code = operRename1
  · rw [if_pos hc] at h
    split_ifs at h
    all_goals first
      | (injection h with h1 h2
         subst h1
         refine ⟨fun hp => ?_, fun _ => rfl⟩
         simp [operOf, hc, operCreate, operOpen, operSeek, operRead, operWrite, operClose,
           operUnlink1, operUnlink2, operTruncate, operFtruncate, operMkdir, operRmdir,
           operRename1, operRename2, operChdir, operMuscleFlush, operMusclePush,
           operMuscleRemount, operMusclePruneCache, operMuscleTrim, operSwapClients] at hp)
  rw [if_neg hc] at h
  clear hc
  by_cases hc : code = operRename2
  · rw [if_pos hc] at h
    split at h
    · exact absurd h (by simp)
    · injection h with h1 h2
      subst h1
      refine ⟨fun hp => ?_, fun _ => rfl⟩
      simp [operOf, hc, operCreate, operOpen, operSeek, operRead, operWrite, operClose,
        operUnlink1, operUnlink2, operTruncate, operFtruncate, operMkdir, operRmdir, operRename1,
        operRename2, operChdir, operMuscleFlush, operMusclePush, operMuscleRemount,
        operMusclePruneCache, operMuscleTrim, operSwapClients] at hp
  rw [if_neg hc] at h
  clear hc
  by_cases hc : code = operChdir
  · rw [if_pos hc] at h
    by_cases hl : seq.cwdpath = (seq.randomDir rnd.step 3 100).1
    · rw [if_pos hl] at h
      exact absurd h (by simp)
    rw [if_neg hl] at h
    injection h with h1 h2
    subst h1
    refine ⟨fun hp => ?_, fun _ => rfl⟩
    simp [operOf, hc, operCreate, operOpen, operSeek, operRead, operWrite, operClose,
      operUnlink1, operUnlink2, operTruncate, operFtruncate, operMkdir, operRmdir, operRename1,
      operRename2, operChdir, operMuscleFlush, operMusclePush, operMuscleRemount,
      operMusclePruneCache, operMuscleTrim, operSwapClients] at hp
  rw [if_neg hc] at h
  clear hc
  by_cases hc : code = operMuscleFlush ∨ code = operMusclePush ∨ code = operMuscleRemount
      ∨ code = operMusclePruneCache ∨ code = operMuscleTrim ∨ code = operSwapClients
  · rw [if_pos hc] at h
    injection h with h1 h2
    subst h1
    refine ⟨fun hp => ?_, fun _ => rfl⟩
    simp only [operOf] at hp
    unfold operKind at *
    simp only [operCreate, operOpen, operSeek, operRead, operWrite, operClose, operUnlink1, operUnlink2, operTruncate, operFtruncate, operMkdir, operRmdir, operRename1, operRename2, operChdir, operMuscleFlush, operMusclePush, operMuscleRemount, operMusclePruneCache, operMuscleTrim, operSwapClients] at hp hc
    omega
  rw [if_neg hc] at h
  exact absurd h (by simp)

theorem nextOperLoop_ready (seq : operSeq) (op : oper) (k : Nat) (rnd' : randSource) :
    ∀ (fuel : Nat) (rnd : randSource) (k0 : Nat),
      seq.nextOperLoop fuel rnd k0 = .generated op k rnd' →
      ∃ rnd0 : randSource, seq.tryOper rnd0 = .ready op rnd' := by
  intro fuel
  induction fuel with
  | zero =>
    intro rnd k0 h
    exact absurd h (by simp [operSeq.nextOperLoop])
  | succ n ih =>
    intro rnd k0 h
    unfold operSeq.nextOperLoop at h
    cases ht : seq.tryOper rnd with
    | fatal =>
      rw [ht] at h
      exact absurd h (by simp)
    | again r =>
      rw [ht] at h
      exact ih r (k0 + 1) h
    | ready o r =>
      rw [ht] at h
      injection h with h1 h2 h3
      subst h1
      subst h3
      exact ⟨rnd, ht⟩

/-- C16: for every virtual state and every sequence of random draws for which `nextOper`
returns an operation: if its kind is seek, read, write, close or ftruncate then its parent
is an element of openOpers in that state, and for every other kind its parent is nil. -/
theorem nextOper_parent (seq : operSeq) (fuel : Nat) (rnd rnd' : randSource) (op : oper)
    (k : Nat) (h : seq.nextOper fuel rnd = .generated op k rnd') :
    (op.code = operSeek ∨ op.code = operRead ∨ op.code = operWrite ∨ op.code = operClose
        ∨ op.code = operFtruncate → ∃ o ∈ seq.openOpers, op.parent = some o.id) ∧
    (¬ (op.code = operSeek ∨ op.code = operRead ∨ op.code = operWrite ∨ op.code = operClose
        ∨ op.code = operFtruncate) → op.parent = none) := by
  unfold operSeq.nextOper at h
  by_cases hdone : seq.opersDone ≥ seq.maxOpers
  · rw [if_pos hdone] at h
    exact absurd h (by simp)
  · rw [if_neg hdone] at h
    obtain ⟨rnd0, hready⟩ := nextOperLoop_ready seq op k rnd' fuel rnd 0 h
    exact tryOper_parent seq rnd0 rnd' op hready

/-- Witness of C16: with one open operation and a table that always samples seek,
`nextOper` returns a seek whose parent is that open operation. -/
theorem nextOper_parent_witness :
    (operSeek = operSeek ∨ operSeek = operRead ∨ operSeek = operWrite ∨ operSeek = operClose
        ∨ operSeek = operFtruncate → ∃ o ∈ oneOpenState.openOpers, some (3 : Int) = some o.id) ∧
    (¬ (operSeek = operSeek ∨ operSeek = operRead ∨ operSeek = operWrite
        ∨ operSeek = operClose ∨ operSeek = operFtruncate) → some (3 : Int) = none) :=
  nextOper_parent oneOpenState 1 (constSource 0) { constSource 0 with pos := 4 }
    { operOf operSeek none none with id := 5, parent := some 3 } 0 (by rfl)

/-! ## C20: the re-sampling loop -/

theorem seekOnly_kind (rnd : randSource) :
    randomOperKind seekOnlyRanges (rnd.Intn 100) = some operSeek := by
  have hlt : rnd.Intn 100 < 100 := Nat.mod_lt _ (by decide)
  exact randomOperKind_rangesFrom_single operSeek (rnd.Intn 100) (by omega) (by omega)
    (singleWeight operSeek 100) (by decide) ⟨(operSeek, 100), by decide, rfl⟩

theorem tryOper_seekOnly (rnd : randSource) :
    seekOnlyState.tryOper rnd = .again rnd.step := by
  unfold operSeq.tryOper
  have hk : randomOperKind seekOnlyState.ranges (rnd.Intn 100) = some operSeek :=
    seekOnly_kind rnd
  rw [hk]
  simp [operSeek, operCreate, operOpen, seekOnlyState, trackedState]

theorem nextOperLoop_seekOnly :
    ∀ (fuel : Nat) (rnd : randSource) (k : Nat),
      seekOnlyState.nextOperLoop fuel rnd k = .exhausted := by
  intro fuel
  induction fuel with
  | zero => intro rnd k; rfl
  | succ n ih =>
    intro rnd k
    unfold operSeq.nextOperLoop
    rw [tryOper_seekOnly]
    exact ih _ _

/-- C20 (as stated) fails: no number of passes is enough for every state, table and
sequence of draws.  With no open handles and the table in which seek is the only kind with a
non-zero weight, `nextOper` is still re-sampling after any number of passes. -/
theorem nextOper_not_bounded :
    ¬ ∃ N : Nat, ∀ (seq : operSeq) (rnd : randSource), isRandSource rnd →
      seq.nextOper (N + 1) rnd ≠ .exhausted := by
  rintro ⟨N, hN⟩
  apply hN seekOnlyState (constSource 0) (fun _ m => List.Perm.refl m)
  unfold operSeq.nextOper
  rw [if_neg (by decide)]
  exact nextOperLoop_seekOnly _ _ _

theorem tryOper_seekOrCreate_again (rnd : randSource) (h : rnd.raw = 50) :
    seekOrCreateState.tryOper rnd = .again rnd.step := by
  unfold operSeq.tryOper
  have hk : randomOperKind seekOrCreateState.ranges (rnd.Intn 100) = some operSeek := by
    unfold randSource.Intn
    rw [h]
    decide
  rw [hk]
  simp [operSeek, operCreate, operOpen, seekOrCreateState, trackedState]

theorem tryOper_seekOrCreate_ready (rnd : randSource) (h0 : rnd.raw = 0)
    (h1 : rnd.step.raw = 0) (h2 : rnd.step.step.raw = 0) :
    seekOrCreateState.tryOper rnd = .ready createAlfa rnd.step.step.step := by
  unfold operSeq.tryOper
  have hk : randomOperKind seekOrCreateState.ranges (rnd.Intn 100) = some operCreate := by
    unfold randSource.Intn
    rw [h0]
    decide
  rw [hk]
  have hp : seekOrCreateState.randomPathname rnd.step 5 5 20 = ("alfa", rnd.step.step.step) := by
    unfold operSeq.randomPathname
    simp [randSource.Intn, randSource.Int, h1, h2, seekOrCreateState, trackedState, natoWord,
      natoAlphabet]
  dsimp only
  rw [if_pos rfl, hp]
  rfl

theorem nextOperLoop_seekThenCreate (n : Nat) :
    ∀ (d p k : Nat), p + d = n →
      seekOrCreateState.nextOperLoop (d + 1) { seekThenCreateSource n with pos := p } k
        = .generated createAlfa (k + d) { seekThenCreateSource n with pos := n + 3 } := by
  intro d
  induction d with
  | zero =>
    intro p k hp
    have hpn : p = n := by omega
    subst hpn
    unfold operSeq.nextOperLoop
    rw [tryOper_seekOrCreate_ready _ (by simp [randSource.raw, seekThenCreateSource])
      (by simp [randSource.raw, randSource.step, seekThenCreateSource])
      (by simp [randSource.raw, randSource.step, seekThenCreateSource]; omega)]
    simp [randSource.step]
  | succ d ih =>
    intro p k hp
    have hlt : p < n := by omega
    unfold operSeq.nextOperLoop
    rw [tryOper_seekOrCreate_again _ (by simp [randSource.raw, seekThenCreateSource, hlt])]
    have := ih (p + 1) (k + 1) (by omega)
    simp only [randSource.step]
    rw [this]
    congr 1
    omega

theorem nextOperLoop_seekThenCreate_exhausted (n : Nat) :
    ∀ (d p k : Nat), p + d ≤ n →
      seekOrCreateState.nextOperLoop d { seekThenCreateSource n with pos := p } k
        = .exhausted := by
  intro d
  induction d with
  | zero => intro p k _; rfl
  | succ d ih =>
    intro p k hp
    have hlt : p < n := by omega
    unfold operSeq.nextOperLoop
    rw [tryOper_seekOrCreate_again _ (by simp [randSource.raw, seekThenCreateSource, hlt])]
    exact ih (p + 1) (k + 1) (by omega)

/-- C20 (amended): the re-sampling loop of `nextOper` is an unbounded retry.  For every
number N there are a virtual state, a probability table and a sequence of draws for which
`nextOper` re-samples the kind exactly N times and then returns an operation; and with no
open handles and a table whose only non-zero kind is seek it re-samples for ever, whatever
the draws. -/
theorem nextOper_unbounded_retry :
    (∀ N : Nat, ∃ (seq : operSeq) (rnd rnd' : randSource) (op : oper), isRandSource rnd ∧
      seq.nextOper N rnd = .exhausted ∧
      seq.nextOper (N + 1) rnd = .generated op N rnd') ∧
    (∀ (fuel : Nat) (rnd : randSource), seekOnlyState.nextOper fuel rnd = .exhausted) := by
  constructor
  · intro N
    refine ⟨seekOrCreateState, seekThenCreateSource N,
      { seekThenCreateSource N with pos := N + 3 }, createAlfa,
      fun _ m => List.Perm.refl m, ?_, ?_⟩
    · unfold operSeq.nextOper
      rw [if_neg (by decide)]
      exact nextOperLoop_seekThenCreate_exhausted N N 0 0 (by omega)
    · unfold operSeq.nextOper
      rw [if_neg (by decide)]
      have := nextOperLoop_seekThenCreate N N 0 0 (by omega)
      simpa using this
  · intro fuel rnd
    unfold operSeq.nextOper
    rw [if_neg (by decide)]
    exact nextOperLoop_seekOnly _ _ _

/-! ## C17, C18: the digest of a tree -/

theorem sortNames_perm (names : List String) : (sortNames names).Perm names :=
  List.perm_insertionSort nameLE names

theorem sortNames_sorted (names : List String) : List.Sorted nameLE (sortNames names) :=
  List.sorted_insertionSort nameLE names

/-- Sorting gives the same list for every order in which the names are listed. -/
theorem sortNames_eq_of_perm (l1 l2 : List String) (h : l1.Perm l2) :
    sortNames l1 = sortNames l2 :=
  List.eq_of_perm_of_sorted
    (((sortNames_perm l1).trans h).trans (sortNames_perm l2).symm)
    (sortNames_sorted l1) (sortNames_sorted l2)

theorem height_le_heightOfChildren (children : List (String × fsNode)) (c : String × fsNode)
    (hc : c ∈ children) : c.2.height ≤ heightOfChildren children := by
  induction children with
  | nil => simp at hc
  | cons a t ih =>
    rw [heightOfChildren]
    rcases List.mem_cons.1 hc with h | h
    · subst h
      exact le_max_left _ _
    · exact le_trans (ih h) (le_max_right _ _)

theorem hashLoop_isSome (visit : String → String → Option (Except goError String))
    (hvisit : ∀ name buf, (visit name buf).isSome = true) (names : List String) :
    ∀ acc : Option (Except goError String), acc.isSome = true →
      (hashLoop visit names acc).isSome = true := by
  induction names with
  | nil => intro acc h; exact h
  | cons name rest ih =>
    intro acc h
    unfold hashLoop
    match acc, h with
    | some (.ok buf), _ => exact ih _ (hvisit name buf)
    | some (.error err), _ => rfl

/-- With more levels of recursion allowed than the tree has, `hashAny` is not cut off. -/
theorem hashAny_isSome (sha256 : List UInt8 → List UInt8) (faults : fsFaults)
    (listing : dirListing) (includeMeta includeContent : Bool) :
    ∀ (fuel : Nat) (node : fsNode) (rel buf : String), node.height < fuel →
      (hashAny sha256 faults listing includeMeta includeContent fuel node rel buf).isSome
        = true := by
  intro fuel
  induction fuel with
  | zero => intro node rel buf h; omega
  | succ n ih =>
    intro node rel buf h
    unfold hashAny
    cases hstat : faults.stat rel with
    | some err => rfl
    | none =>
      cases node with
      | file mode size content =>
        dsimp only
        cases includeContent with
        | false => rfl
        | true =>
          cases faults.readFile rel with
          | some err => rfl
          | none => rfl
      | dir mode children =>
        dsimp only
        cases faults.readDir rel with
        | some err => rfl
        | none =>
          dsimp only
          apply hashLoop_isSome
          · intro name b
            cases hfind : children.find? (fun child => child.1 = name) with
            | none => rfl
            | some child =>
              dsimp only
              apply ih
              have hmem : child ∈ children := List.mem_of_find?_eq_some hfind
              have hle := height_le_heightOfChildren children child hmem
              rw [fsNode.height] at h
              omega
          · rfl

/-- At every depth of recursion, `hashAny` returns the same for two listings of the
directories. -/
theorem hashAny_listing_independent (sha256 : List UInt8 → List UInt8) (faults : fsFaults)
    (l1 l2 : dirListing) (h1 : isDirListing l1) (h2 : isDirListing l2)
    (includeMeta includeContent : Bool) :
    ∀ (fuel : Nat) (node : fsNode) (rel buf : String),
      hashAny sha256 faults l1 includeMeta includeContent fuel node rel buf
        = hashAny sha256 faults l2 includeMeta includeContent fuel node rel buf := by
  intro fuel
  induction fuel with
  | zero => intro node rel buf; rfl
  | succ n ih =>
    intro node rel buf
    unfold hashAny
    cases hstat : faults.stat rel with
    | some err => rfl
    | none =>
      cases node with
      | file mode size content => rfl
      | dir mode children =>
        dsimp only
        cases faults.readDir rel with
        | some err => rfl
        | none =>
          dsimp only
          have hnames : sortNames (l1 rel (children.map Prod.fst))
              = sortNames (l2 rel (children.map Prod.fst)) :=
            sortNames_eq_of_perm _ _ ((h1 rel _).trans (h2 rel _).symm)
          rw [hnames]
          congr 1
          funext name b
          cases children.find? (fun child => child.1 = name) with
          | none => rfl
          | some child => exact ih child.2 _ b

/-- Two lists of entries with the same names, related entry by entry: looking a name up
finds nothing in both, or finds related entries. -/
theorem find_related (R : fsNode → fsNode → Prop) (name : String) :
    ∀ (cs1 cs2 : List (String × fsNode)),
      cs1.map Prod.fst = cs2.map Prod.fst →
      (∀ (i : Nat) (a b : String × fsNode), cs1[i]? = some a → cs2[i]? = some b → R a.2 b.2) →
      (cs1.find? (fun child => child.1 = name) = none ∧
        cs2.find? (fun child => child.1 = name) = none) ∨
      ∃ a b, cs1.find? (fun child => child.1 = name) = some a ∧
        cs2.find? (fun child => child.1 = name) = some b ∧ R a.2 b.2 := by
  intro cs1
  induction cs1 with
  | nil =>
    intro cs2 hn _
    cases cs2 with
    | nil => exact Or.inl ⟨rfl, rfl⟩
    | cons b t2 => simp at hn
  | cons a t ih =>
    intro cs2 hn hrel
    cases cs2 with
    | nil => simp at hn
    | cons b t2 =>
      simp only [List.map_cons, List.cons.injEq] at hn
      obtain ⟨hab, ht⟩ := hn
      by_cases hname : a.1 = name
      · refine Or.inr ⟨a, b, ?_, ?_, hrel 0 a b (by simp) (by simp)⟩
        · simp [List.find?, hname]
        · have hb : b.1 = name := by rw [← hab]; exact hname
          simp [List.find?, hb]
      · have hb : ¬ b.1 = name := by rw [← hab]; exact hname
        have hrec := ih t2 ht (fun i x y hx hy => hrel (i + 1) x y (by simpa using hx)
          (by simpa using hy))
        simpa [List.find?, hname, hb] using hrec

/-- Two lists of entries with the same names whose entries have the same heights one by
one have the same greatest height. -/
theorem heightOfChildren_congr :
    ∀ (cs1 cs2 : List (String × fsNode)),
      cs1.map Prod.fst = cs2.map Prod.fst →
      (∀ (i : Nat) (a b : String × fsNode), cs1[i]? = some a → cs2[i]? = some b →
        a.2.height = b.2.height) →
      heightOfChildren cs1 = heightOfChildren cs2 := by
  intro cs1
  induction cs1 with
  | nil =>
    intro cs2 hn _
    cases cs2 with
    | nil => rfl
    | cons b t2 => simp at hn
  | cons a t ih =>
    intro cs2 hn hrel
    cases cs2 with
    | nil => simp at hn
    | cons b t2 =>
      simp only [List.map_cons, List.cons.injEq] at hn
      simp only [heightOfChildren]
      rw [hrel 0 a b (by simp) (by simp), ih t2 hn.2 (fun i x y hx hy => hrel (i + 1) x y
        (by simpa using hx) (by simpa using hy))]

/-- Trees that differ only in the bytes of their files have the same height. -/
theorem sameMeta_height (t1 t2 : fsNode) (h : sameMeta t1 t2) : t1.height = t2.height := by
  induction h with
  | file mode size c1 c2 => rfl
  | dir mode cs1 cs2 hn _ ih =>
    simp only [fsNode.height]
    rw [heightOfChildren_congr cs1 cs2 hn ih]

/-- At every depth of recursion, `hashAny` without the content returns the same on trees
that differ only in the bytes of their files. -/
theorem hashAny_ignores_content (sha256 : List UInt8 → List UInt8) (faults : fsFaults)
    (listing : dirListing) (includeMeta : Bool) :
    ∀ (fuel : Nat) (n1 n2 : fsNode) (rel buf : String), sameMeta n1 n2 →
      hashAny sha256 faults listing includeMeta false fuel n1 rel buf
        = hashAny sha256 faults listing includeMeta false fuel n2 rel buf := by
  intro fuel
  induction fuel with
  | zero => intro n1 n2 rel buf _; rfl
  | succ n ih =>
    intro n1 n2 rel buf h
    unfold hashAny
    cases hstat : faults.stat rel with
    | some err => rfl
    | none =>
      cases h with
      | file mode size c1 c2 => rfl
      | dir mode cs1 cs2 hn hrel =>
        dsimp only
        cases faults.readDir rel with
        | some err => rfl
        | none =>
          dsimp only
          rw [hn]
          congr 1
          funext name b
          rcases find_related sameMeta name cs1 cs2 hn hrel with ⟨e1, e2⟩ | ⟨x, y, e1, e2, hxy⟩
          · rw [e1, e2]
          · rw [e1, e2]
            exact ih x.2 y.2 _ b hxy

/-- The two sample trees differ only in the bytes of their files. -/
theorem sampleTree_sameMeta : sameMeta sampleTree sampleTreeOtherBytes := by
  unfold sampleTree sampleTreeOtherBytes
  refine sameMeta.dir _ _ _ rfl ?_
  intro i a b ha hb
  match i with
  | 0 =>
    simp at ha hb
    subst ha
    subst hb
    refine sameMeta.dir _ _ _ rfl ?_
    intro j x y hx hy
    match j with
    | 0 =>
      simp at hx hy
      subst hx
      subst hy
      exact sameMeta.file _ _ _ _
    | 1 =>
      simp at hx hy
      subst hx
      subst hy
      exact sameMeta.file _ _ _ _
    | k + 2 => simp at hx
  | 1 =>
    simp at ha hb
    subst ha
    subst hb
    exact sameMeta.file _ _ _ _
  | k + 2 => simp at ha

/-- C18: for every two directory trees that have the same paths, node types, modes and
file sizes and differ only in the bytes of their regular files, and the same outcomes of
the system calls on both, `hashTree` with `includeContent = false` returns, and returns
the same for both: the same digest or the same error, for either value of `includeMeta`. -/
theorem hashTree_ignores_content (sha256 : List UInt8 → List UInt8) (faults : fsFaults)
    (listing : dirListing) (t1 t2 : fsNode) (includeMeta : Bool) (h : sameMeta t1 t2) :
    hashTree sha256 faults listing t1 includeMeta false
      = hashTree sha256 faults listing t2 includeMeta false ∧
    hashTree sha256 faults listing t1 includeMeta false ≠ none := by
  refine ⟨?_, ?_⟩
  · unfold hashTree
    rw [sameMeta_height t1 t2 h]
    exact hashAny_ignores_content sha256 faults listing includeMeta _ t1 t2 "" "" h
  · intro hnone
    have := hashAny_isSome sha256 faults listing includeMeta false (t1.height + 1) t1
      "" "" (Nat.lt_succ_self _)
    unfold hashTree at hnone
    rw [hnone] at this
    exact absurd this (by simp)

/-- Witness of C18: the two sample trees, with the metadata included. -/
theorem hashTree_ignores_content_witness :
    sameMeta sampleTree sampleTreeOtherBytes ∧
    hashTree toyDigest noFaults (fun _ names => names) sampleTree true false
      = hashTree toyDigest noFaults (fun _ names => names) sampleTreeOtherBytes true false ∧
    hashTree toyDigest noFaults (fun _ names => names) sampleTree true false ≠ none :=
  ⟨sampleTree_sameMeta,
    hashTree_ignores_content toyDigest noFaults (fun _ names => names) sampleTree
      sampleTreeOtherBytes true sampleTree_sameMeta⟩

/-- The digest of the sample tree with metadata and content: the entries in ascending
order of their names at every level, each directory before its entries. -/
theorem hashTree_sampleTree :
    hashTree toyDigest noFaults (fun _ names => names) sampleTree true true
      = some (.ok ("path=\"\" mode=020000000755\n"
          ++ "path=\"alfa\" size=3 mode=0644\n" ++ "path=\"alfa\" hash=68\n"
          ++ "path=\"bravo\" mode=020000000700\n"
          ++ "path=\"bravo/kilo\" size=2 mode=0600\n" ++ "path=\"bravo/kilo\" hash=01\n"
          ++ "path=\"bravo/zulu\" size=1 mode=0644\n" ++ "path=\"bravo/zulu\" hash=07\n")) := by
  rfl

/-! ## C17: the order of the walk -/

/-- The lines of two walks, one after the other. -/
theorem specLines_append (sha256 : List UInt8 → List UInt8) (includeMeta includeContent : Bool)
    (w1 w2 : List (String × fsNode)) :
    specLines sha256 includeMeta includeContent (w1 ++ w2)
      = specLines sha256 includeMeta includeContent w1
        ++ specLines sha256 includeMeta includeContent w2 := by
  induction w1 with
  | nil => simp [specLines]
  | cons a t ih =>
    unfold specLines at ih ⊢
    simp only [List.cons_append, List.foldr_cons]
    rw [ih, String.append_assoc]

/-- Inserting an entry by its name and inserting its name give the same names. -/
theorem map_fst_orderedInsert (a : String × fsNode) (l : List (String × fsNode)) :
    (List.orderedInsert (fun x y => nameLE x.1 y.1) a l).map Prod.fst
      = List.orderedInsert nameLE a.1 (l.map Prod.fst) := by
  induction l with
  | nil => rfl
  | cons b t ih =>
    simp only [List.orderedInsert, List.map_cons]
    split_ifs
    · rfl
    · rw [List.map_cons, ih]

/-- The names that the code sorts are the names of the entries in the order of the
specification. -/
theorem sortNames_map_fst (children : List (String × fsNode)) :
    sortNames (children.map Prod.fst) = (specSortChildren children).map Prod.fst := by
  unfold sortNames specSortChildren
  induction children with
  | nil => rfl
  | cons a t ih =>
    simp only [List.map_cons, List.insertionSort]
    rw [map_fst_orderedInsert, ih]

/-- Looking up the name of an entry of a directory whose names are distinct finds that
entry. -/
theorem find_of_nodup (children : List (String × fsNode)) (c : String × fsNode)
    (hnd : (children.map Prod.fst).Nodup) (hc : c ∈ children) :
    children.find? (fun child => child.1 = c.1) = some c := by
  induction children with
  | nil => simp at hc
  | cons a t ih =>
    simp only [List.map_cons, List.nodup_cons] at hnd
    rcases List.mem_cons.1 hc with h | h
    · subst h
      simp [List.find?]
    · have hne : ¬ a.1 = c.1 := by
        intro heq
        exact hnd.1 (heq ▸ List.mem_map_of_mem Prod.fst h)
      simp only [List.find?, hne, decide_False]
      exact ih hnd.2 h

/-- The entries of a list of well-formed entries are well formed. -/
theorem distinctChildren_mem (children : List (String × fsNode)) (c : String × fsNode)
    (hd : distinctChildren children = true) (hc : c ∈ children) :
    c.2.distinctNames = true := by
  induction children with
  | nil => simp at hc
  | cons a t ih =>
    rw [distinctChildren, Bool.and_eq_true] at hd
    rcases List.mem_cons.1 hc with h | h
    · subst h
      exact hd.1
    · exact ih hd.2 h

/-- The loop of `hashAny` over the names of a list of entries, when the call for each of
them appends the lines of its walk: the loop appends the lines of the walks in turn. -/
theorem hashLoop_spec (sha256 : List UInt8 → List UInt8) (includeMeta includeContent : Bool)
    (visit : String → String → Option (Except goError String))
    (walk : String × fsNode → List (String × fsNode)) (cs : List (String × fsNode)) :
    (∀ c ∈ cs, ∀ b, visit c.1 b
      = some (.ok (b ++ specLines sha256 includeMeta includeContent (walk c)))) →
    ∀ buf, hashLoop visit (cs.map Prod.fst) (some (.ok buf))
      = some (.ok (buf ++ specLines sha256 includeMeta includeContent (cs.flatMap walk))) := by
  induction cs with
  | nil =>
    intro _ buf
    simp [hashLoop, specLines]
  | cons a t ih =>
    intro hvisit buf
    simp only [List.map_cons, hashLoop, List.flatMap_cons]
    rw [hvisit a (List.mem_cons_self _ _) buf,
      ih (fun c hc b => hvisit c (List.mem_cons_of_mem _ hc) b), specLines_append,
      String.append_assoc]

/-- On a tree whose directories have entries with distinct names, when no system call
fails, `hashAny` appends to the buffer the lines of the specification's walk of the node,
whatever the order of the directory listings. -/
theorem hashAny_spec (sha256 : List UInt8 → List UInt8) (listing : dirListing)
    (hlisting : isDirListing listing) (includeMeta includeContent : Bool) :
    ∀ (fuel : Nat) (node : fsNode) (rel buf : String),
      node.height < fuel → node.distinctNames = true →
      hashAny sha256 noFaults listing includeMeta includeContent fuel node rel buf
        = some (.ok (buf ++ specLines sha256 includeMeta includeContent
            (specWalk fuel node rel))) := by
  intro fuel
  induction fuel with
  | zero => intro node rel buf h; exact absurd h (Nat.not_lt_zero _)
  | succ n ih =>
    intro node rel buf hfuel hdistinct
    cases node with
    | file mode size content =>
      rw [hashAny]
      cases includeMeta <;> cases includeContent <;>
        simp [noFaults, specWalk, specLines, specNodeLines, String.append_assoc]
    | dir mode children =>
      rw [fsNode.distinctNames, Bool.and_eq_true, decide_eq_true_eq] at hdistinct
      rw [fsNode.height] at hfuel
      have hvisit : ∀ c ∈ specSortChildren children, ∀ b,
          (match children.find? (fun child => child.1 = c.1) with
            | some child =>
              hashAny sha256 noFaults listing includeMeta includeContent n child.2
                (filepathJoin rel c.1) b
            | none =>
              some (.error (fmtErrorf ("hashAny: stat " ++ filepathJoin rel c.1
                ++ ": no such file or directory"))))
          = some (.ok (b ++ specLines sha256 includeMeta includeContent
              (specWalk n c.2 (filepathJoin rel c.1)))) := by
        intro c hc b
        have hmem : c ∈ children := (List.perm_insertionSort _ children).mem_iff.mp hc
        rw [find_of_nodup children c hdistinct.1 hmem]
        have hlt : c.2.height < n :=
          lt_of_le_of_lt (height_le_heightOfChildren children c hmem) (by omega)
        exact ih c.2 _ b hlt (distinctChildren_mem children c hdistinct.2 hmem)
      have hloop := hashLoop_spec sha256 includeMeta includeContent
        (fun name b =>
          match children.find? (fun child => child.1 = name) with
          | some child =>
            hashAny sha256 noFaults listing includeMeta includeContent n child.2
              (filepathJoin rel name) b
          | none =>
            some (.error (fmtErrorf ("hashAny: stat " ++ filepathJoin rel name
              ++ ": no such file or directory"))))
        (fun c => specWalk n c.2 (filepathJoin rel c.1)) (specSortChildren children) hvisit
      rw [hashAny]
      dsimp only
      rw [show noFaults.stat rel = none from rfl]
      dsimp only
      rw [show noFaults.readDir rel = none from rfl]
      dsimp only
      rw [sortNames_eq_of_perm _ _ (hlisting rel (children.map Prod.fst)), sortNames_map_fst,
        hloop]
      cases includeMeta <;>
        simp [specWalk, specLines, specNodeLines, String.append_assoc]

/-- C17: for every directory tree whose sibling names are distinct and every choice of the
two toggles, the bytes `hashTree` produces do not depend on the order in which a directory
listing returns its children: when no system call fails, `hashTree` returns exactly the
specification's digest, the lines of the nodes in pre-order with the children of each
directory in ascending byte-wise order of basename, so hashing the same tree twice yields
identical bytes.  Whatever the outcomes of the system calls, it returns, and returns the
same for every two orders of the listings. -/
theorem hashTree_listing_independent (sha256 : List UInt8 → List UInt8) (faults : fsFaults)
    (l1 l2 : dirListing) (root : fsNode) (includeMeta includeContent : Bool)
    (h1 : isDirListing l1) (h2 : isDirListing l2) (hdistinct : root.distinctNames = true) :
    hashTree sha256 noFaults l1 root includeMeta includeContent
      = some (.ok (specDigest sha256 root includeMeta includeContent)) ∧
    hashTree sha256 noFaults l2 root includeMeta includeContent
      = some (.ok (specDigest sha256 root includeMeta includeContent)) ∧
    hashTree sha256 faults l1 root includeMeta includeContent
      = hashTree sha256 faults l2 root includeMeta includeContent ∧
    hashTree sha256 faults l1 root includeMeta includeContent ≠ none := by
  have hspec : ∀ l : dirListing, isDirListing l →
      hashTree sha256 noFaults l root includeMeta includeContent
        = some (.ok (specDigest sha256 root includeMeta includeContent)) := by
    intro l hl
    unfold hashTree specDigest
    rw [hashAny_spec sha256 l hl includeMeta includeContent (root.height + 1) root "" ""
      (Nat.lt_succ_self _) hdistinct]
    simp
  refine ⟨hspec l1 h1, hspec l2 h2, ?_, ?_⟩
  · unfold hashTree
    exact hashAny_listing_independent sha256 faults l1 l2 h1 h2 includeMeta includeContent
      _ root "" ""
  · intro hnone
    have := hashAny_isSome sha256 faults l1 includeMeta includeContent (root.height + 1) root
      "" "" (Nat.lt_succ_self _)
    unfold hashTree at hnone
    rw [hnone] at this
    exact absurd this (by simp)

/-- The specification's walk and digest of the sample tree: the root, then alfa, then bravo
and its entries kilo and zulu. -/
theorem specDigest_sampleTree :
    (specWalk (sampleTree.height + 1) sampleTree "").map Prod.fst
      = ["", "alfa", "bravo", "bravo/kilo", "bravo/zulu"] ∧
    specDigest toyDigest sampleTree true true
      = "path=\"\" mode=020000000755\n"
          ++ "path=\"alfa\" size=3 mode=0644\n" ++ "path=\"alfa\" hash=68\n"
          ++ "path=\"bravo\" mode=020000000700\n"
          ++ "path=\"bravo/kilo\" size=2 mode=0600\n" ++ "path=\"bravo/kilo\" hash=01\n"
          ++ "path=\"bravo/zulu\" size=1 mode=0644\n" ++ "path=\"bravo/zulu\" hash=07\n" := by
  refine ⟨by decide, by rfl⟩

/-- Witness of C17: the sample tree, its directories listed in the order stored and in the
reverse order. -/
theorem hashTree_listing_independent_witness :
    hashTree toyDigest noFaults (fun _ names => names) sampleTree true true
      = some (.ok (specDigest toyDigest sampleTree true true)) ∧
    hashTree toyDigest noFaults (fun _ names => names.reverse) sampleTree true true
      = some (.ok (specDigest toyDigest sampleTree true true)) ∧
    hashTree toyDigest noFaults (fun _ names => names) sampleTree true true
      = hashTree toyDigest noFaults (fun _ names => names.reverse) sampleTree true true ∧
    hashTree toyDigest noFaults (fun _ names => names) sampleTree true true ≠ none :=
  hashTree_listing_independent toyDigest noFaults (fun _ names => names)
    (fun _ names => names.reverse) sampleTree true true
    (fun _ names => List.Perm.refl names) (fun _ names => List.reverse_perm names) (by rfl)

/-! ## C21: randomPathname -/

/-- The word at an index below the length of the alphabet is a word of the alphabet. -/
theorem natoWord_mem (i : Nat) : natoWord (i % natoAlphabet.length) ∈ natoAlphabet := by
  have hlt : i % natoAlphabet.length < natoAlphabet.length := Nat.mod_lt _ (by decide)
  unfold natoWord
  rw [List.getD_eq_getElem _ _ hlt]
  exact List.getElem_mem _

/-- The entry number `k % len(m)` of a visit of a non-empty set is an element of the set. -/
theorem visit_pick_mem (iter : setIter) (hiter : isSetIter iter) (m : stringSet) (k : Nat)
    (hm : m.length > 0) : ∃ p, (iter m)[k % m.length]? = some p ∧ p ∈ m := by
  have hlen : (iter m).length = m.length := (hiter m).length_eq
  have hlt : k % m.length < (iter m).length := by
    rw [hlen]
    exact Nat.mod_lt _ hm
  refine ⟨(iter m)[k % m.length], List.getElem?_eq_getElem hlt, ?_⟩
  exact (hiter m).mem_iff.mp (List.getElem_mem _)

/-- The pathname that `randomPathname` returns once its switch has chosen a non-empty
set. -/
theorem randomPathname_of_set (seq : operSeq) (rnd : randSource) (pDir pFile pNest : Int)
    (hrnd : isRandSource rnd) (m : stringSet) (hm : m.length > 0)
    (hsel : (if 0 ≤ (rnd.Intn 100 : Int) ∧ (rnd.Intn 100 : Int) < pDir
          ∧ seq.existingDirs.length > 0 then seq.existingDirs
        else if pDir ≤ (rnd.Intn 100 : Int) ∧ (rnd.Intn 100 : Int) < wrapInt (pDir + pFile)
          ∧ seq.existingFiles.length > 0 then seq.existingFiles
        else []) = m) :
    (seq.randomPathname rnd pDir pFile pNest).1 ∈ m := by
  obtain ⟨p, hp, hmem⟩ := visit_pick_mem (rnd.step.step.orders rnd.step.step.pos)
    (hrnd _) m rnd.step.Int hm
  unfold operSeq.randomPathname
  dsimp only
  rw [hsel, if_pos hm]
  unfold randSource.order
  rw [hp]
  exact hmem

/-- C21 (as stated) fails: the second case of the switch of `randomPathname` also asks for
`existingDirProbability <= n`.  With the draw n = 3 below p_dir = 5, no tracked directory
and the tracked file "alfa", the function does not return an entry of existing_files: it
returns the new name "delta". -/
theorem randomPathname_skips_files :
    (constSource 3).Intn 100 = 3 ∧
    (trackedState [] ["alfa"]).existingDirs = [] ∧
    (trackedState [] ["alfa"]).existingFiles = ["alfa"] ∧
    ((trackedState [] ["alfa"]).randomPathname (constSource 3) 5 5 20).1 = "delta" ∧
    "delta" ∉ (trackedState [] ["alfa"]).existingFiles := by
  refine ⟨by decide, rfl, rfl, by decide, by decide⟩

/-- C21 (amended): for every draw n in [0,100) and all parameters p_dir, p_file, p_nest of
the type int, `randomPathname` returns an entry of existing_dirs when n < p_dir and
existing_dirs is non-empty, and returns an entry of existing_files when
p_dir <= n < p_dir + p_file (the sum taken as the 64-bit int it is) and existing_files is
non-empty; when n < p_dir and existing_dirs is empty it returns a single word of the NATO
alphabet as a new name, whether or not existing_files is empty. -/
theorem randomPathname_existing (seq : operSeq) (rnd : randSource) (pDir pFile pNest : Int)
    (hrnd : isRandSource rnd) :
    rnd.Intn 100 < 100 ∧
    ((rnd.Intn 100 : Int) < pDir ∧ seq.existingDirs ≠ [] →
      (seq.randomPathname rnd pDir pFile pNest).1 ∈ seq.existingDirs) ∧
    (pDir ≤ (rnd.Intn 100 : Int) ∧ (rnd.Intn 100 : Int) < wrapInt (pDir + pFile)
        ∧ seq.existingFiles ≠ [] →
      (seq.randomPathname rnd pDir pFile pNest).1 ∈ seq.existingFiles) ∧
    ((rnd.Intn 100 : Int) < pDir ∧ seq.existingDirs = [] →
      (seq.randomPathname rnd pDir pFile pNest).1 ∈ natoAlphabet) := by
  have hn0 : 0 ≤ (rnd.Intn 100 : Int) := Int.natCast_nonneg _
  refine ⟨Nat.mod_lt _ (by decide), ?_, ?_, ?_⟩
  · rintro ⟨hlt, hne⟩
    have hm : seq.existingDirs.length > 0 := List.length_pos.mpr hne
    exact randomPathname_of_set seq rnd pDir pFile pNest hrnd _ hm (if_pos ⟨hn0, hlt, hm⟩)
  · rintro ⟨hle, hlt, hne⟩
    have hm : seq.existingFiles.length > 0 := List.length_pos.mpr hne
    refine randomPathname_of_set seq rnd pDir pFile pNest hrnd _ hm ?_
    rw [if_neg (fun h => absurd h.2.1 (not_lt.mpr hle)), if_pos ⟨hle, hlt, hm⟩]
  · rintro ⟨hlt, hempty⟩
    have hlen : ¬ seq.existingDirs.length > 0 := by simp [hempty]
    have hsel : (if 0 ≤ (rnd.Intn 100 : Int) ∧ (rnd.Intn 100 : Int) < pDir
          ∧ seq.existingDirs.length > 0 then seq.existingDirs
        else if pDir ≤ (rnd.Intn 100 : Int) ∧ (rnd.Intn 100 : Int) < wrapInt (pDir + pFile)
          ∧ seq.existingFiles.length > 0 then seq.existingFiles
        else []) = [] := by
      rw [if_neg (fun h => hlen h.2.2), if_neg (fun h => absurd hlt (not_lt.mpr h.1))]
    unfold operSeq.randomPathname
    dsimp only
    rw [hsel]
    simp only [List.length_nil, gt_iff_lt, lt_self_iff_false, if_false]
    rw [if_neg (fun h => hlen h.1)]
    simp only [hlen, if_false]
    exact natoWord_mem _

/-- Witness of C21: the state with the directory "bravo" and the file "alfa", every draw
being 3. -/
theorem randomPathname_existing_witness :
    (constSource 3).Intn 100 < 100 ∧
    (((constSource 3).Intn 100 : Int) < 5 ∧ (trackedState ["bravo"] ["alfa"]).existingDirs ≠ [] →
      ((trackedState ["bravo"] ["alfa"]).randomPathname (constSource 3) 5 5 20).1
        ∈ (trackedState ["bravo"] ["alfa"]).existingDirs) ∧
    ((5 : Int) ≤ ((constSource 3).Intn 100 : Int)
        ∧ ((constSource 3).Intn 100 : Int) < wrapInt (5 + 5)
        ∧ (trackedState ["bravo"] ["alfa"]).existingFiles ≠ [] →
      ((trackedState ["bravo"] ["alfa"]).randomPathname (constSource 3) 5 5 20).1
        ∈ (trackedState ["bravo"] ["alfa"]).existingFiles) ∧
    (((constSource 3).Intn 100 : Int) < 5 ∧ (trackedState ["bravo"] ["alfa"]).existingDirs = [] →
      ((trackedState ["bravo"] ["alfa"]).randomPathname (constSource 3) 5 5 20).1
        ∈ natoAlphabet) :=
  randomPathname_existing (trackedState ["bravo"] ["alfa"]) (constSource 3) 5 5 20
    (fun _ m => List.Perm.refl m)

/-! ## C22: the pathname of a generated chdir -/

/-- Drawing words leaves the visiting orders of the source as they are. -/
theorem drawWords_orders : ∀ (k : Nat) (rnd : randSource),
    (drawWords k rnd).2.orders = rnd.orders := by
  intro k
  induction k with
  | zero => intro rnd; rfl
  | succ n ih =>
    intro rnd
    unfold drawWords
    exact ih rnd.step

/-- Drawing a fresh candidate leaves the visiting orders of the source as they are. -/
theorem freshCandidate_orders (seq : operSeq) (maxElements : Nat) :
    ∀ (attempts : Nat) (rnd : randSource),
      (seq.freshCandidate maxElements attempts rnd).2.orders = rnd.orders := by
  intro attempts
  induction attempts with
  | zero =>
    intro rnd
    unfold operSeq.freshCandidate
    exact drawWords_orders maxElements rnd
  | succ n ih =>
    intro rnd
    unfold operSeq.freshCandidate
    dsimp only
    split_ifs
    · rw [ih]
      exact drawWords_orders maxElements rnd
    · exact drawWords_orders maxElements rnd

/-- The functions `randomDir` and `randomFile` leave the visiting orders of the source as
they are. -/
theorem randomExisting_orders (seq : operSeq) (m : stringSet) (rnd : randSource)
    (maxElements existingProbability : Nat) :
    (seq.randomExisting m rnd maxElements existingProbability).2.orders = rnd.orders := by
  unfold operSeq.randomExisting
  split_ifs
  · rfl
  · rfl
  · exact freshCandidate_orders seq maxElements 100 rnd.step

/-- The function `randomPathname` leaves the visiting orders of the source as they are. -/
theorem randomPathname_orders (seq : operSeq) (rnd : randSource) (pDir pFile pNest : Int) :
    (seq.randomPathname rnd pDir pFile pNest).2.orders = rnd.orders := by
  unfold operSeq.randomPathname
  dsimp only
  split
  · rfl
  · split_ifs <;> rfl

/-- The path that `randomDir` and `randomFile` return when the first draw asks for an
existing one: an element of the set, or the empty string. -/
theorem randomExisting_mem (seq : operSeq) (m : stringSet) (rnd : randSource)
    (maxElements existingProbability : Nat) (hrnd : isRandSource rnd)
    (hdraw : rnd.Intn 100 < existingProbability) :
    (seq.randomExisting m rnd maxElements existingProbability).1 = "" ∨
    ((seq.randomExisting m rnd maxElements existingProbability).1 ∈ m ∧
      (splitSep '/' (seq.randomExisting m rnd maxElements existingProbability).1.data).length
        ≤ maxElements) := by
  unfold operSeq.randomExisting
  rw [if_pos hdraw]
  by_cases hm : m.length = 0
  · rw [if_pos hm]
    exact Or.inl rfl
  · rw [if_neg hm]
    dsimp only
    cases hf : ((rnd.step.step.order m).drop (rnd.step.Intn m.length)).find?
        (fun f => decide ((splitSep '/' f.data).length ≤ maxElements)) with
    | none => exact Or.inl rfl
    | some f =>
      refine Or.inr ⟨?_, ?_⟩
      · have h1 : f ∈ (rnd.step.step.order m).drop (rnd.step.Intn m.length) :=
          List.mem_of_find?_eq_some hf
        have h2 : f ∈ rnd.step.step.order m := List.mem_of_mem_drop h1
        exact (hrnd _ m).mem_iff.mp h2
      · have h3 := List.find?_some hf
        simpa using h3

/-- One pass through the body of `nextOper` that jumps back to `again` leaves the visiting
orders of the source as they are. -/
theorem tryOper_again_orders (seq : operSeq) (rnd rnd' : randSource)
    (h : seq.tryOper rnd = .again rnd') : rnd'.orders = rnd.orders := by
  unfold operSeq.tryOper at h
  cases hk : randomOperKind seq.ranges (rnd.Intn 100) with
  | none =>
    rw [hk] at h
    exact absurd h (by simp)
  | some code =>
  rw [hk] at h
  dsimp only at h
  by_cases hc : code = operCreate
  · rw [if_pos hc] at h
    exact absurd h (by simp)
  rw [if_neg hc] at h
  clear hc
  by_cases hc : code = operOpen
  · rw [if_pos hc] at h
    exact absurd h (by simp)
  rw [if_neg hc] at h
  clear hc
  by_cases hc : code = operSeek
  · rw [if_pos hc] at h
    by_cases hl : seq.openOpers.length = 0
    · rw [if_pos hl] at h
      injection h with h1
      subst h1
      rfl
    rw [if_neg hl] at h
    exact absurd h (by simp)
  rw [if_neg hc] at h
  clear hc
  by_cases hc : code = operRead
  · rw [if_pos hc] at h
    by_cases hl : seq.openOpers.length = 0
    · rw [if_pos hl] at h
      injection h with h1
      subst h1
      rfl
    rw [if_neg hl] at h
    exact absurd h (by simp)
  rw [if_neg hc] at h
  clear hc
  by_cases hc : code = operWrite
  · rw [if_pos hc] at h
    by_cases hl : seq.openOpers.length = 0
    · rw [if_pos hl] at h
      injection h with h1
      subst h1
      rfl
    rw [if_neg hl] at h
    exact absurd h (by simp)
  rw [if_neg hc] at h
  clear hc
  by_cases hc : code = operClose
  · rw [if_pos hc] at h
    by_cases hl : seq.openOpers.length = 0
    · rw [if_pos hl] at h
      injection h with h1
      subst h1
      rfl
    rw [if_neg hl] at h
    exact absurd h (by simp)
  rw [if_neg hc] at h
  clear hc
  by_cases hc : code = operUnlink1
  · rw [if_pos hc] at h
    exact absurd h (by simp)
  rw [if_neg hc] at h
  clear hc
  by_cases hc : code = operUnlink2
  · rw [if_pos hc] at h
    by_cases hl : hasPrefix seq.cwdpath (seq.randomPathname rnd.step 50 40 20).1 = true
    · rw [if_pos hl] at h
      injection h with h1
      subst h1
      exact randomPathname_orders seq rnd.step 50 40 20
    rw [if_neg hl] at h
    exact absurd h (by simp)
  rw [if_neg hc] at h
  clear hc
  by_cases hc : code = operTruncate
  · rw [if_pos hc] at h
    exact absurd h (by simp)
  rw [if_neg hc] at h
  clear hc
  by_cases hc : code = operFtruncate
  · rw [if_pos hc] at h
    by_cases hl : seq.openOpers.length = 0
    · rw [if_pos hl] at h
      injection h with h1
      subst h1
      rfl
    rw [if_neg hl] at h
    exact absurd h (by simp)
  rw [if_neg hc] at h
  clear hc
  by_cases hc : code = operMkdir
  · rw [if_pos hc] at h
    exact absurd h (by simp)
  rw [if_neg hc] at h
  clear hc
  by_cases hc : code = operRmdir
  · rw [if_pos hc] at h
    exact absurd h (by simp)
  rw [if_neg hc] at h
  clear hc
  by_cases hc : code = operRename1
  · rw [if_pos hc] at h
    split_ifs at h
    all_goals first
      | (injection h with h1
         subst h1
         exact randomExisting_orders seq _ rnd.step.step 5 75)
  rw [if_neg hc] at h
  clear hc
  by_cases hc : code = operRename2
  · rw [if_pos hc] at h
    split at h
    · injection h with h1
      subst h1
      simp only [operSeq.randomFile, operSeq.randomDir]
      split_ifs <;> rw [randomExisting_orders, randomExisting_orders] <;> rfl
    · exact absurd h (by simp)
  rw [if_neg hc] at h
  clear hc
  by_cases hc : code = operChdir
  · rw [if_pos hc] at h
    by_cases hl : seq.cwdpath = (seq.randomDir rnd.step 3 100).1
    · rw [if_pos hl] at h
      injection h with h1
      subst h1
      exact randomExisting_orders seq _ rnd.step 3 100
    rw [if_neg hl] at h
    exact absurd h (by simp)
  rw [if_neg hc] at h
  clear hc
  by_cases hc : code = operMuscleFlush ∨ code = operMusclePush ∨ code = operMuscleRemount
      ∨ code = operMusclePruneCache ∨ code = operMuscleTrim ∨ code = operSwapClients
  · rw [if_pos hc] at h
    exact absurd h (by simp)
  rw [if_neg hc] at h
  exact absurd h (by simp)

/-- One pass through the body of `nextOper` that ends with a chdir: its pathname is not the
current directory, and it is the empty string or a tracked directory of at most three
elements. -/
theorem tryOper_chdir (seq : operSeq) (rnd rnd' : randSource) (op : oper)
    (hrnd : isRandSource rnd) (h : seq.tryOper rnd = .ready op rnd')
    (hchdir : op.code = operChdir) :
    op.pathname ≠ seq.cwdpath ∧
    (op.pathname = "" ∨
      (op.pathname ∈ seq.existingDirs ∧ (splitSep '/' op.pathname.data).length ≤ 3)) := by
  unfold operSeq.tryOper at h
  cases hk : randomOperKind seq.ranges (rnd.Intn 100) with
  | none =>
    rw [hk] at h
    exact absurd h (by simp)
  | some code =>
  rw [hk] at h
  dsimp only at h
  by_cases hc : code = operCreate
  · rw [if_pos hc] at h
    injection h with h1 h2
    subst h1
    simp [operOf, hc, operCreate, operOpen, operSeek, operRead, operWrite, operClose,
      operUnlink1, operUnlink2, operTruncate, operFtruncate, operMkdir, operRmdir, operRename1,
      operRename2, operChdir, operMuscleFlush, operMusclePush, operMuscleRemount,
      operMusclePruneCache, operMuscleTrim, operSwapClients] at hchdir
  rw [if_neg hc] at h
  clear hc
  by_cases hc : code = operOpen
  · rw [if_pos hc] at h
    injection h with h1 h2
    subst h1
    simp [operOf, hc, operCreate, operOpen, operSeek, operRead, operWrite, operClose,
      operUnlink1, operUnlink2, operTruncate, operFtruncate, operMkdir, operRmdir, operRename1,
      operRename2, operChdir, operMuscleFlush, operMusclePush, operMuscleRemount,
      operMusclePruneCache, operMuscleTrim, operSwapClients] at hchdir
  rw [if_neg hc] at h
  clear hc
  by_cases hc : code = operSeek
  · rw [if_pos hc] at h
    by_cases hl : seq.openOpers.length = 0
    · rw [if_pos hl] at h
      exact absurd h (by simp)
    rw [if_neg hl] at h
    injection h with h1 h2
    subst h1
    simp [operOf, hc, operCreate, operOpen, operSeek, operRead, operWrite, operClose,
      operUnlink1, operUnlink2, operTruncate, operFtruncate, operMkdir, operRmdir, operRename1,
      operRename2, operChdir, operMuscleFlush, operMusclePush, operMuscleRemount,
      operMusclePruneCache, operMuscleTrim, operSwapClients] at hchdir
  rw [if_neg hc] at h
  clear hc
  by_cases hc : code = operRead
  · rw [if_pos hc] at h
    by_cases hl : seq.openOpers.length = 0
    · rw [if_pos hl] at h
      exact absurd h (by simp)
    rw [if_neg hl] at h
    injection h with h1 h2
    subst h1
    simp [operOf, hc, operCreate, operOpen, operSeek, operRead, operWrite, operClose,
      operUnlink1, operUnlink2, operTruncate, operFtruncate, operMkdir, operRmdir, operRename1,
      operRename2, operChdir, operMuscleFlush, operMusclePush, operMuscleRemount,
      operMusclePruneCache, operMuscleTrim, operSwapClients] at hchdir
  rw [if_neg hc] at h
  clear hc
  by_cases hc : code = operWrite
  · rw [if_pos hc] at h
    by_cases hl : seq.openOpers.length = 0
    · rw [if_pos hl] at h
      exact absurd h (by simp)
    rw [if_neg hl] at h
    injection h with h1 h2
    subst h1
    simp [operOf, hc, operCreate, operOpen, operSeek, operRead, operWrite, operClose,
      operUnlink1, operUnlink2, operTruncate, operFtruncate, operMkdir, operRmdir, operRename1,
      operRename2, operChdir, operMuscleFlush, operMusclePush, operMuscleRemount,
      operMusclePruneCache, operMuscleTrim, operSwapClients] at hchdir
  rw [if_neg hc] at h
  clear hc
  by_cases hc : code = operClose
  · rw [if_pos hc] at h
    by_cases hl : seq.openOpers.length = 0
    · rw [if_pos hl] at h
      exact absurd h (by simp)
    rw [if_neg hl] at h
    injection h with h1 h2
    subst h1
    simp [operOf, hc, operCreate, operOpen, operSeek, operRead, operWrite, operClose,
      operUnlink1, operUnlink2, operTruncate, operFtruncate, operMkdir, operRmdir, operRename1,
      operRename2, operChdir, operMuscleFlush, operMusclePush, operMuscleRemount,
      operMusclePruneCache, operMuscleTrim, operSwapClients] at hchdir
  rw [if_neg hc] at h
  clear hc
  by_cases hc : code = operUnlink1
  · rw [if_pos hc] at h
    injection h with h1 h2
    subst h1
    simp [operOf, hc, operCreate, operOpen, operSeek, operRead, operWrite, operClose,
      operUnlink1, operUnlink2, operTruncate, operFtruncate, operMkdir, operRmdir, operRename1,
      operRename2, operChdir, operMuscleFlush, operMusclePush, operMuscleRemount,
      operMusclePruneCache, operMuscleTrim, operSwapClients] at hchdir
  rw [if_neg hc] at h
  clear hc
  by_cases hc : code = operUnlink2
  · rw [if_pos hc] at h
    by_cases hl : hasPrefix seq.cwdpath (seq.randomPathname rnd.step 50 40 20).1 = true
    · rw [if_pos hl] at h
      exact absurd h (by simp)
    rw [if_neg hl] at h
    injection h with h1 h2
    subst h1
    simp [operOf, hc, operCreate, operOpen, operSeek, operRead, operWrite, operClose,
      operUnlink1, operUnlink2, operTruncate, operFtruncate, operMkdir, operRmdir, operRename1,
      operRename2, operChdir, operMuscleFlush, operMusclePush, operMuscleRemount,
      operMusclePruneCache, operMuscleTrim, operSwapClients] at hchdir
  rw [if_neg hc] at h
  clear hc
  by_cases hc : code = operTruncate
  · rw [if_pos hc] at h
    injection h with h1 h2
    subst h1
    simp [operOf, hc, operCreate, operOpen, operSeek, operRead, operWrite, operClose,
      operUnlink1, operUnlink2, operTruncate, operFtruncate, operMkdir, operRmdir, operRename1,
      operRename2, operChdir, operMuscleFlush, operMusclePush, operMuscleRemount,
      operMusclePruneCache, operMuscleTrim, operSwapClients] at hchdir
  rw [if_neg hc] at h
  clear hc
  by_cases hc : code = operFtruncate
  · rw [if_pos hc] at h
    by_cases hl : seq.openOpers.length = 0
    · rw [if_pos hl] at h
      exact absurd h (by simp)
    rw [if_neg hl] at h
    injection h with h1 h2
    subst h1
    simp [operOf, hc, operCreate, operOpen, operSeek, operRead, operWrite, operClose,
      operUnlink1, operUnlink2, operTruncate, operFtruncate, operMkdir, operRmdir, operRename1,
      operRename2, operChdir, operMuscleFlush, operMusclePush, operMuscleRemount,
      operMusclePruneCache, operMuscleTrim, operSwapClients] at hchdir
  rw [if_neg hc] at h
  clear hc
  by_cases hc : code = operMkdir
  · rw [if_pos hc] at h
    injection h with h1 h2
    subst h1
    simp [operOf, hc, operCreate, operOpen, operSeek, operRead, operWrite, operClose,
      operUnlink1, operUnlink2, operTruncate, operFtruncate, operMkdir, operRmdir, operRename1,
      operRename2, operChdir, operMuscleFlush, operMusclePush, operMuscleRemount,
      operMusclePruneCache, operMuscleTrim, operSwapClients] at hchdir
  rw [if_neg hc] at h
  clear hc
  by_cases hc : code = operRmdir
  · rw [if_pos hc] at h
    injection h with h1 h2
    subst h1
    simp [operOf, hc, operCreate, operOpen, operSeek, operRead, operWrite, operClose,
      operUnlink1, operUnlink2, operTruncate, operFtruncate, operMkdir, operRmdir, operRename1,
      operRename2, operChdir, operMuscleFlush, operMusclePush, operMuscleRemount,
      operMusclePruneCache, operMuscleTrim, operSwapClients] at hchdir
  rw [if_neg hc] at h
  clear hc
  by_cases hc : code = operRename1
  · rw [if_pos hc] at h
    split_ifs at h
    all_goals first
      | (injection h with h1 h2
         subst h1
         simp [operOf, hc, operCreate, operOpen, operSeek, operRead, operWrite, operClose,
      operUnlink1, operUnlink2, operTruncate, operFtruncate, operMkdir, operRmdir, operRename1,
      operRename2, operChdir, operMuscleFlush, operMusclePush, operMuscleRemount,
      operMusclePruneCache, operMuscleTrim, operSwapClients] at hchdir)
  rw [if_neg hc] at h
  clear hc
  by_cases hc : code = operRename2
  · rw [if_pos hc] at h
    split at h
    · exact absurd h (by simp)
    · injection h with h1 h2
      subst h1
      simp [operOf, hc, operCreate, operOpen, operSeek, operRead, operWrite, operClose,
      operUnlink1, operUnlink2, operTruncate, operFtruncate, operMkdir, operRmdir, operRename1,
      operRename2, operChdir, operMuscleFlush, operMusclePush, operMuscleRemount,
      operMusclePruneCache, operMuscleTrim, operSwapClients] at hchdir
  rw [if_neg hc] at h
  clear hc
  by_cases hc : code = operChdir
  · rw [if_pos hc] at h
    by_cases hl : seq.cwdpath = (seq.randomDir rnd.step 3 100).1
    · rw [if_pos hl] at h
      exact absurd h (by simp)
    rw [if_neg hl] at h
    injection h with h1 h2
    subst h1
    refine ⟨fun heq => hl heq.symm, ?_⟩
    exact randomExisting_mem seq seq.existingDirs rnd.step 3 100 (fun k => hrnd k)
      (Nat.mod_lt _ (by decide))
  rw [if_neg hc] at h
  clear hc
  by_cases hc : code = operMuscleFlush ∨ code = operMusclePush ∨ code = operMuscleRemount
      ∨ code = operMusclePruneCache ∨ code = operMuscleTrim ∨ code = operSwapClients
  · rw [if_pos hc] at h
    injection h with h1 h2
    subst h1
    simp only [operOf] at hchdir
    unfold operKind at *
    simp only [operCreate, operOpen, operSeek, operRead, operWrite, operClose,
      operUnlink1, operUnlink2, operTruncate, operFtruncate, operMkdir, operRmdir, operRename1,
      operRename2, operChdir, operMuscleFlush, operMusclePush, operMuscleRemount,
      operMusclePruneCache, operMuscleTrim, operSwapClients] at hchdir hc
    omega
  rw [if_neg hc] at h
  exact absurd h (by simp)

/-- The operation that `nextOper` returns comes from a pass through its body made with a
source that has the visiting orders of the initial one. -/
theorem nextOperLoop_ready_orders (seq : operSeq) (op : oper) (k : Nat) (rnd' : randSource) :
    ∀ (fuel : Nat) (rnd : randSource) (k0 : Nat),
      seq.nextOperLoop fuel rnd k0 = .generated op k rnd' →
      ∃ rnd0 : randSource, rnd0.orders = rnd.orders ∧ seq.tryOper rnd0 = .ready op rnd' := by
  intro fuel
  induction fuel with
  | zero =>
    intro rnd k0 h
    exact absurd h (by simp [operSeq.nextOperLoop])
  | succ n ih =>
    intro rnd k0 h
    unfold operSeq.nextOperLoop at h
    cases ht : seq.tryOper rnd with
    | fatal =>
      rw [ht] at h
      exact absurd h (by simp)
    | again r =>
      rw [ht] at h
      obtain ⟨rnd0, ho, hr⟩ := ih r (k0 + 1) h
      exact ⟨rnd0, ho.trans (tryOper_again_orders seq rnd r ht), hr⟩
    | ready o r =>
      rw [ht] at h
      injection h with h1 h2 h3
      subst h1
      subst h3
      exact ⟨rnd, rfl, ht⟩

/-- C22 (the code at the failing input): `randomDir` returns the empty string when it finds
no tracked directory of at most three elements from the position drawn on, and the chdir
case of `nextOper`, unlike the rename cases, does not jump back to `again` on that result:
it only compares it with cwd_path.  In the state with the tracked directories alfa,
alfa/bravo, alfa/bravo/charlie and alfa/bravo/charlie/delta and cwd_path = alfa, when the
position drawn is 3, `nextOper` returns a chdir whose pathname is the empty string, which
is not an element of existing_dirs. -/
theorem nextOper_chdir_to_root :
    isRandSource (constSource 3) ∧
    deepDirsState.nextOper 1 (constSource 3)
      = .generated chdirRoot 0 { constSource 3 with pos := 3 } ∧
    chdirRoot.code = operChdir ∧
    chdirRoot.pathname ∉ deepDirsState.existingDirs := by
  refine ⟨fun _ m => List.Perm.refl m, by rfl, rfl, by decide⟩

/-- What the code does guarantee of a chdir that `nextOper` returns, for every virtual
state and every sequence of random draws: its pathname differs from cwd_path, and it is
either an element of existing_dirs that has at most three elements, or the empty string
that `randomDir` returns when it found no such directory. -/
theorem nextOper_chdir (seq : operSeq) (fuel : Nat) (rnd rnd' : randSource) (op : oper)
    (k : Nat) (hrnd : isRandSource rnd)
    (h : seq.nextOper fuel rnd = .generated op k rnd') (hchdir : op.code = operChdir) :
    op.pathname ≠ seq.cwdpath ∧
    (op.pathname = "" ∨
      (op.pathname ∈ seq.existingDirs ∧ (splitSep '/' op.pathname.data).length ≤ 3)) := by
  unfold operSeq.nextOper at h
  by_cases hdone : seq.opersDone ≥ seq.maxOpers
  · rw [if_pos hdone] at h
    exact absurd h (by simp)
  · rw [if_neg hdone] at h
    obtain ⟨rnd0, ho, hready⟩ := nextOperLoop_ready_orders seq op k rnd' fuel rnd 0 h
    have hrnd0 : isRandSource rnd0 := by
      intro i
      rw [ho]
      exact hrnd i
    exact tryOper_chdir seq rnd0 rnd' op hrnd0 hready hchdir

/-- In the state `deepDirsState`, when the position drawn is 1, `nextOper` returns the
chdir to the tracked directory alfa/bravo. -/
theorem nextOper_chdir_witness :
    chdirBravo.pathname ≠ deepDirsState.cwdpath ∧
    (chdirBravo.pathname = "" ∨
      (chdirBravo.pathname ∈ deepDirsState.existingDirs
        ∧ (splitSep '/' chdirBravo.pathname.data).length ≤ 3)) :=
  nextOper_chdir deepDirsState 1 (constSource 1) { constSource 1 with pos := 3 } chdirBravo 0
    (fun _ m => List.Perm.refl m) (by rfl) rfl

/-! ## C23: the replay of the worklog -/

/-- The classification of a line that is not empty: a line starting with '#' is skipped, a
line starting with "graft2 " or "unlink " or equal to "flush" or "pull" is sent with a
newline appended, and any other line ends the replay with the error "unexpected command
from pull worklog". -/
theorem replayLoop_nonempty (runCommand : List String → String → Option goError)
    (command : String) (rest sent : List String) (first : Char) (tail : List Char)
    (hdata : command.data = first :: tail) :
    (first = '#' →
      replayLoop runCommand (command :: rest) sent = replayLoop runCommand rest sent) ∧
    (first ≠ '#' →
      (hasPrefix command "graft2 " = true ∨ hasPrefix command "unlink " = true
        ∨ command = "flush" ∨ command = "pull") →
      runCommand sent (command ++ "\n") = none →
      replayLoop runCommand (command :: rest) sent
        = replayLoop runCommand rest (sent ++ [command ++ "\n"])) ∧
    (first ≠ '#' →
      ¬ (hasPrefix command "graft2 " = true ∨ hasPrefix command "unlink " = true
        ∨ command = "flush" ∨ command = "pull") →
      replayLoop runCommand (command :: rest) sent
        = some (sent, some (fmtErrorf ("run.oper: unexpected command from pull worklog: "
            ++ goQuote command)))) := by
  refine ⟨fun h1 => ?_, fun h1 h2 h3 => ?_, fun h1 h2 => ?_⟩
  · rw [replayLoop, hdata]
    simp only [List.getElem?_cons_zero]
    rw [if_pos h1]
  · rw [replayLoop, hdata]
    simp only [List.getElem?_cons_zero]
    rw [if_neg h1, if_pos h2, h3]
  · rw [replayLoop, hdata]
    simp only [List.getElem?_cons_zero]
    rw [if_neg h1, if_neg h2]

/-- An empty line makes the replay panic, whatever precedes and follows it: the expression
`command[0]` indexes an empty string. -/
theorem replayLoop_empty_line (runCommand : List String → String → Option goError)
    (rest sent : List String) : replayLoop runCommand ("" :: rest) sent = none := by
  rw [replayLoop]
  rfl

/-- C23 (the code at the failing input): the scanner yields the empty second line of the
worklog "flush\n\npull\n" as an empty token, and on it the replay does not return the
"unexpected command from pull worklog" error: it panics, after it has sent "flush\n". -/
theorem swapClients_empty_line_panics :
    scanLines "flush\n\npull\n" = ["flush", "", "pull"] ∧
    replayLoop (fun _ _ => none) ["flush", "", "pull"] []
      = replayLoop (fun _ _ => none) ["", "pull"] ["flush\n"] ∧
    replayLoop (fun _ _ => none) ["", "pull"] ["flush\n"] = none ∧
    swapClients none none none (.ok "flush\n\npull\n") (fun _ _ => none) = none ∧
    swapClients none none none (.ok "flush\n#\nbogus\n") (fun _ _ => none)
      = some (some (fmtErrorf
          "run.oper: unexpected command from pull worklog: \"bogus\"")) := by
  refine ⟨by decide, by rfl, by rfl, by rfl, by rfl⟩

/-! ## C24: the string codec of the operation kinds -/

/-- Decoding the name of each of the 21 kinds gives the kind back. -/
theorem fromString_String_allKinds : ∀ k ∈ allKinds, fromString (operKind.String k) = some k := by
  decide

/-- C24: the string codec of operation kinds is a bijection between the 21 kinds and the 21
accepted names: `fromString(k.String()) = k` for every kind k from 0 to below operKindCount,
`k.String()` is distinct for distinct kinds, `s = fromString(s).String()` for every string
s that `fromString` accepts, the kind decoded being one of the 21; and `fromString` panics
exactly on the strings that are not the name of one of the 21 kinds. -/
theorem string_codec_bijection :
    (∀ k : operKind, 0 ≤ k ∧ k < operKindCount → fromString (operKind.String k) = some k) ∧
    (∀ k1 k2 : operKind, (0 ≤ k1 ∧ k1 < operKindCount) → (0 ≤ k2 ∧ k2 < operKindCount) →
      operKind.String k1 = operKind.String k2 → k1 = k2) ∧
    (∀ (s : String) (k : operKind), fromString s = some k →
      (0 ≤ k ∧ k < operKindCount) ∧ operKind.String k = s) ∧
    (∀ s : String, fromString s = none ↔ s ∉ allKinds.map operKind.String) ∧
    (allKinds.map operKind.String).length = 21 ∧ (allKinds.map operKind.String).Nodup := by
  refine ⟨?_, ?_, ?_, ?_, by decide, by decide⟩
  · intro k hk
    exact fromString_String_allKinds k ((mem_allKinds k).mpr hk)
  · intro k1 k2 h1 h2 heq
    have e1 := fromString_String_allKinds k1 ((mem_allKinds k1).mpr h1)
    have e2 := fromString_String_allKinds k2 ((mem_allKinds k2).mpr h2)
    rw [heq, e2] at e1
    injection e1 with e
    exact e.symm
  · intro s k h
    obtain ⟨hmem, hname⟩ := fromString_some s k h
    exact ⟨(mem_allKinds k).mp hmem, hname⟩
  · intro s
    constructor
    · intro hnone hmem
      obtain ⟨k, hk, hname⟩ := List.mem_map.mp hmem
      have := fromString_String_allKinds k hk
      rw [hname, hnone] at this
      exact absurd this (by simp)
    · intro hnot
      cases h : fromString s with
      | none => rfl
      | some k =>
        obtain ⟨hmem, hname⟩ := fromString_some s k h
        exact absurd (List.mem_map.mpr ⟨k, hmem, hname⟩) hnot

/-- Witness of C24: the kind seek and its name, and a string that is not a name. -/
theorem string_codec_bijection_witness :
    fromString (operKind.String operSeek) = some operSeek ∧
    ((0 ≤ operSeek ∧ operSeek < operKindCount) ∧ operKind.String operSeek = "seek") ∧
    fromString "sut-flush" = none :=
  ⟨string_codec_bijection.1 operSeek (by decide),
    string_codec_bijection.2.2.1 "seek" operSeek (by decide),
    (string_codec_bijection.2.2.2.1 "sut-flush").mpr (by decide)⟩

/-! ## C25: the NATO words and the string-prefix tests -/

/-- The characters of `strings.Join(elems, "/")` built on an accumulator. -/
theorem intercalate_go_data (ws : List String) : ∀ acc : String,
    (String.intercalate.go acc "/" ws).data
      = acc.data ++ ws.flatMap (fun w => '/' :: w.data) := by
  induction ws with
  | nil => intro acc; simp [String.intercalate.go]
  | cons w rest ih =>
    intro acc
    rw [String.intercalate.go, ih]
    simp [String.data_append]

/-- The characters of a joined path: the first element, then each further element after a
slash. -/
theorem joinSlash_data_cons (w : String) (rest : List String) :
    (joinSlash (w :: rest)).data = w.data ++ rest.flatMap (fun x => '/' :: x.data) := by
  unfold joinSlash
  rw [String.intercalate, intercalate_go_data]

/-- No word of the alphabet is a proper prefix of another. -/
theorem nato_prefix_free :
    ∀ w ∈ natoAlphabet, ∀ v ∈ natoAlphabet, w.data <+: v.data → w = v := by
  decide

/-- Sequences of NATO words, each element written after a slash: one text is a prefix of
the other exactly when one sequence is a prefix of the other. -/
theorem nato_tail_prefix_iff : ∀ (ws vs : List String),
    (∀ w ∈ ws, w ∈ natoAlphabet) → (∀ v ∈ vs, v ∈ natoAlphabet) →
    (ws.flatMap (fun x => '/' :: x.data) <+: vs.flatMap (fun x => '/' :: x.data)
      ↔ ws <+: vs) := by
  intro ws
  induction ws with
  | nil => intro vs _ _; simp
  | cons w rest ih =>
    intro vs hw hv
    cases vs with
    | nil => simp
    | cons v vrest =>
      have hwm : w ∈ natoAlphabet := hw w (List.mem_cons_self _ _)
      have hvm : v ∈ natoAlphabet := hv v (List.mem_cons_self _ _)
      have hrec := ih vrest (fun x hx => hw x (List.mem_cons_of_mem _ hx))
        (fun x hx => hv x (List.mem_cons_of_mem _ hx))
      simp only [List.flatMap_cons, List.cons_append, List.cons_prefix_cons, true_and]
      constructor
      · intro h
        have h1 : w.data <+: v.data ++ vrest.flatMap (fun x => '/' :: x.data) :=
          (List.prefix_append _ _).trans h
        have h2 : v.data <+: v.data ++ vrest.flatMap (fun x => '/' :: x.data) :=
          List.prefix_append _ _
        have hwv : w = v := by
          rcases List.prefix_or_prefix_of_prefix h1 h2 with h3 | h3
          · exact nato_prefix_free w hwm v hvm h3
          · exact (nato_prefix_free v hvm w hwm h3).symm
        subst hwv
        exact ⟨rfl, hrec.mp ((List.prefix_append_right_inj _).mp h)⟩
      · rintro ⟨hwv, h⟩
        subst hwv
        exact (List.prefix_append_right_inj _).mpr (hrec.mpr h)

/-- For two non-empty sequences of NATO words joined by '/', the string-prefix test holds
exactly when the one sequence is a prefix of the other. -/
theorem nato_hasPrefix_iff (ws vs : List String) (hws : ws ≠ []) (hvs : vs ≠ [])
    (hw : ∀ w ∈ ws, w ∈ natoAlphabet) (hv : ∀ v ∈ vs, v ∈ natoAlphabet) :
    hasPrefix (joinSlash vs) (joinSlash ws) = true ↔ ws <+: vs := by
  cases ws with
  | nil => exact absurd rfl hws
  | cons w rest =>
    cases vs with
    | nil => exact absurd rfl hvs
    | cons v vrest =>
      unfold hasPrefix
      rw [List.isPrefixOf_iff_prefix, joinSlash_data_cons, joinSlash_data_cons]
      have h := nato_tail_prefix_iff (w :: rest) (v :: vrest) hw hv
      simp only [List.flatMap_cons, List.cons_append, List.cons_prefix_cons, true_and] at h
      simpa using h

/-- C25: no word of natoAlphabet is empty, contains '/', or is a proper prefix of another
word; hence for every two paths p and q that are non-empty sequences of NATO words joined
by '/', `strings.HasPrefix(q, p)` holds if and only if the element sequence of p is a
prefix of the element sequence of q. -/
theorem nato_paths_prefix (ws vs : List String) (hws : ws ≠ []) (hvs : vs ≠ [])
    (hw : ∀ w ∈ ws, w ∈ natoAlphabet) (hv : ∀ v ∈ vs, v ∈ natoAlphabet) :
    (∀ w ∈ natoAlphabet, w ≠ "" ∧ '/' ∉ w.data ∧
      ∀ v ∈ natoAlphabet, w.data <+: v.data → w = v) ∧
    (hasPrefix (joinSlash vs) (joinSlash ws) = true ↔ ws <+: vs) := by
  refine ⟨fun w hwm => ⟨?_, ?_, nato_prefix_free w hwm⟩, ?_⟩
  · revert w
    decide
  · revert w
    decide
  · cases ws with
    | nil => exact absurd rfl hws
    | cons w rest =>
      cases vs with
      | nil => exact absurd rfl hvs
      | cons v vrest =>
        unfold hasPrefix
        rw [List.isPrefixOf_iff_prefix, joinSlash_data_cons, joinSlash_data_cons]
        have h := nato_tail_prefix_iff (w :: rest) (v :: vrest) hw hv
        simp only [List.flatMap_cons, List.cons_append, List.cons_prefix_cons, true_and] at h
        simpa using h

/-- Witness of C25: alfa is a prefix of alfa/bravo, as a string and as a sequence. -/
theorem nato_paths_prefix_witness :
    (∀ w ∈ natoAlphabet, w ≠ "" ∧ '/' ∉ w.data ∧
      ∀ v ∈ natoAlphabet, w.data <+: v.data → w = v) ∧
    (hasPrefix (joinSlash ["alfa", "bravo"]) (joinSlash ["alfa"]) = true
      ↔ ["alfa"] <+: ["alfa", "bravo"]) :=
  nato_paths_prefix ["alfa"] ["alfa", "bravo"] (by decide) (by decide) (by decide) (by decide)

/-! ## C14: rename2 -/

/-- A path with the prefix `old` is `old` followed by its slice from `len(old)` on. -/
theorem append_sliceFrom (p old : String) (hp : hasPrefix p old = true) :
    old ++ sliceFrom p old = p := by
  unfold hasPrefix at hp
  obtain ⟨rest, hrest⟩ := List.isPrefixOf_iff_prefix.1 hp
  apply String.ext
  unfold sliceFrom
  rw [String.data_append, ← hrest, List.drop_left]

/-- When `old` and `new` are equal, or neither is a string prefix of the other, the
rewritten form of a path with the prefix `old` is no other path with that prefix. -/
theorem rewrite_no_collision (old new p q : String)
    (hnest : old = new ∨ (hasPrefix new old = false ∧ hasPrefix old new = false))
    (hp : hasPrefix p old = true) (hq : hasPrefix q old = true) (hne : p ≠ q) :
    new ++ sliceFrom p old ≠ q := by
  intro heq
  rcases hnest with hsame | ⟨h1, h2⟩
  · subst hsame
    rw [append_sliceFrom p old hp] at heq
    exact hne heq
  · have hnewq : new.data <+: q.data := by
      rw [← heq, String.data_append]
      exact List.prefix_append _ _
    have holdq : old.data <+: q.data := by
      unfold hasPrefix at hq
      exact List.isPrefixOf_iff_prefix.1 hq
    rcases List.prefix_or_prefix_of_prefix holdq hnewq with h | h
    · have : hasPrefix new old = true := by
        unfold hasPrefix
        exact List.isPrefixOf_iff_prefix.2 h
      rw [h1] at this
      exact absurd this (by simp)
    · have : hasPrefix old new = true := by
        unfold hasPrefix
        exact List.isPrefixOf_iff_prefix.2 h
      rw [h2] at this
      exact absurd this (by simp)

/-- C14: after the bookkeeping of a successful rename2(old -> new), existing_files and
existing_dirs are each exactly the image of their previous contents under the rewrite
p -> new + p[len(old):] when p starts with old and p -> p otherwise, and cwd_path is
rewritten the same way; the result does not depend on the order in which the sets are
visited.  The two paths are sequences of NATO words joined by '/', as `nextOper` generates
them, and the rename is successful: `referr` is nil, which `oper.run` records only when
the rename(2) of the reference succeeded, and rename(2) refuses to move a path into itself
or onto one of its ancestors, so neither sequence is a proper prefix of the other. -/
theorem rename2_rewrites_sets (seq : operSeq) (op : oper) (iterDirs iterFiles : setIter)
    (ws vs : List String)
    (hiterD : isSetIter iterDirs) (hiterF : isSetIter iterFiles)
    (hcode : op.code = operRename2) (hok : op.referr = none)
    (hndD : seq.existingDirs.Nodup) (hndF : seq.existingFiles.Nodup)
    (hws : ws ≠ []) (hvs : vs ≠ [])
    (hw : ∀ w ∈ ws, w ∈ natoAlphabet) (hv : ∀ v ∈ vs, v ∈ natoAlphabet)
    (hold : op.pathname = joinSlash ws) (hnew : op.newpathname = joinSlash vs)
    (hposix : ws = vs ∨ (¬ ws <+: vs ∧ ¬ vs <+: ws)) :
    ∃ seq' : operSeq, seq.bookkeeping op iterDirs iterFiles = some seq' ∧
      (∀ x, x ∈ seq'.existingFiles ↔
        ∃ q ∈ seq.existingFiles, x = rewritePath op.pathname op.newpathname q) ∧
      (∀ x, x ∈ seq'.existingDirs ↔
        ∃ q ∈ seq.existingDirs, x = rewritePath op.pathname op.newpathname q) ∧
      seq'.cwdpath = rewritePath op.pathname op.newpathname seq.cwdpath := by
  have hnest : op.pathname = op.newpathname ∨
      (hasPrefix op.newpathname op.pathname = false
        ∧ hasPrefix op.pathname op.newpathname = false) := by
    rcases hposix with hsame | ⟨h1, h2⟩
    · left
      rw [hold, hnew, hsame]
    · right
      rw [hold, hnew]
      constructor
      · cases h : hasPrefix (joinSlash vs) (joinSlash ws) with
        | false => rfl
        | true => exact absurd ((nato_hasPrefix_iff ws vs hws hvs hw hv).1 h) h1
      · cases h : hasPrefix (joinSlash ws) (joinSlash vs) with
        | false => rfl
        | true => exact absurd ((nato_hasPrefix_iff vs ws hvs hws hv hw).1 h) h2
  exact rename2_rewrites_sets_of_fresh seq op iterDirs iterFiles hiterD hiterF hcode hok
    hndD hndF
    (fun p _ hp q _ hq hne => rewrite_no_collision _ _ p q hnest hp hq hne)
    (fun p _ hp q _ hq hne => rewrite_no_collision _ _ p q hnest hp hq hne)

/-- Witness of C14: the directory alfa, its child alfa/bravo and the file alfa/kilo are
renamed to charlie, the sets being visited in reverse order. -/
theorem rename2_rewrites_sets_witness :
    ∃ seq' : operSeq,
      operSeq.bookkeeping (trackedState ["alfa", "alfa/bravo", "delta"] ["alfa/kilo"])
        { operOf operRename2 none none with pathname := "alfa", newpathname := "charlie" }
        List.reverse List.reverse = some seq' ∧
      (∀ x, x ∈ seq'.existingFiles ↔
        ∃ q ∈ (trackedState ["alfa", "alfa/bravo", "delta"] ["alfa/kilo"]).existingFiles,
          x = rewritePath "alfa" "charlie" q) ∧
      (∀ x, x ∈ seq'.existingDirs ↔
        ∃ q ∈ (trackedState ["alfa", "alfa/bravo", "delta"] ["alfa/kilo"]).existingDirs,
          x = rewritePath "alfa" "charlie" q) ∧
      seq'.cwdpath = rewritePath "alfa" "charlie"
        (trackedState ["alfa", "alfa/bravo", "delta"] ["alfa/kilo"]).cwdpath :=
  rename2_rewrites_sets (trackedState ["alfa", "alfa/bravo", "delta"] ["alfa/kilo"])
    { operOf operRename2 none none with pathname := "alfa", newpathname := "charlie" }
    List.reverse List.reverse ["alfa"] ["charlie"]
    (fun m => List.reverse_perm m) (fun m => List.reverse_perm m)
    rfl rfl (by decide) (by decide) (by decide) (by decide) (by decide) (by decide)
    (by decide) (by decide) (Or.inr ⟨by decide, by decide⟩)

end Fsdiff
